import Mathlib

/-!
# Level generation and ray casting of `game.js`

A shallow embedding of the `Level` class (binary space partition, room carving,
corridors, cover markers, `isWall`) and of the ray casting of `LightingSystem`.

Conventions of the embedding:

* JavaScript numbers are modelled by an arbitrary linearly ordered field `α` with a
  floor function (`ℚ` for evaluation, `ℝ` for the intended reading); arithmetic is exact.
  Cell coordinates and rectangle sides, which the code only ever produces with
  `Math.floor`, are integers.
* `Math.random()` is a stream `rnd : ℕ → α` read through a counter; the counter is
  threaded through every function in the order in which the source draws.
* `Math.PI`, `Math.cos` and `Math.sin` are parameters (`JsMath`).
* `tiles[y][x]` is a partial map `tiles y x : Option ℕ` (`none` is `undefined`).  The rows
  `tiles[y]` exist exactly for `0 ≤ y < height` (they are created by the first loop of
  `generate`); an assignment into a missing row throws, which is `none` here.
-/

namespace Game

/-- The values of the JavaScript `Math` object that the engine reads. -/
structure JsMath (α : Type) where
  PI : α
  cos : α → α
  sin : α → α

namespace CONFIG

variable {α : Type} [LinearOrderedField α]

/-- `CONFIG.tileSize`. -/
def tileSize : α := 100

/-- `CONFIG.flashlightAngle`. -/
def flashlightAngle (M : JsMath α) : α := M.PI / 3

/-- `CONFIG.flashlightRange`. -/
def flashlightRange : α := 500

end CONFIG

/-- A rectangle `{x, y, w, h}` in cell coordinates (a room, or the extent of a partition node). -/
structure Rect where
  x : Int
  y : Int
  w : Int
  h : Int
deriving DecidableEq

/-- A partition node `{x, y, w, h, left, right}`; `null` is the JavaScript `null` child. -/
inductive Node where
  | null : Node
  | mk (x y w h : Int) (left right : Node) : Node
deriving DecidableEq

/-- Truthiness of a node reference (`if (node)`). -/
def Node.truthy : Node → Bool
  | .null => false
  | .mk .. => true

/-- The level object: grid size, tile map and room list. -/
structure Level where
  width : Int
  height : Int
  tiles : Int → Int → Option Nat
  rooms : List Rect

/-- The integers `lo, lo+1, ..., hi-1`: the values of `v` in `for (v = lo; v < hi; v++)`. -/
def intRange (lo hi : Int) : List Int :=
  (List.range (hi - lo).toNat).map (fun (i : Nat) => lo + (i : Int))

/-- A `for` loop over `xs` whose body may throw. -/
def forEachM {σ : Type} (body : Int → σ → Option σ) : List Int → σ → Option σ
  | [], s => some s
  | x :: xs, s => (body x s).bind (forEachM body xs)

/-- The assignment `this.tiles[y][x] = v`. -/
def setTile (L : Level) (y x : Int) (v : Nat) : Option Level :=
  if 0 ≤ y ∧ y < L.height then
    some { L with tiles := fun y' x' => if y' = y ∧ x' = x then some v else L.tiles y' x' }
  else none

/-- The assignment `this.tiles[y] = []`. -/
def clearRow (L : Level) (y : Int) : Level :=
  { L with tiles := fun y' x' => if y' = y then none else L.tiles y' x' }

section Generation

variable {α : Type} [LinearOrderedField α] [FloorRing α]

/-- `Level.splitNode(node, depth)` on the node `{x, y, w, h, left: null, right: null}`:
the subtree that the call builds below the node, and the advanced draw counter. -/
def splitNode (rnd : Nat → α) : Nat → Int → Int → Int → Int → Nat → Node × Nat
  | 0, x, y, w, h, k => (.mk x y w h .null .null, k)
  | depth + 1, x, y, w, h, k =>
    if w < 10 ∨ h < 10 then (.mk x y w h .null .null, k)
    else
      let hk : Bool × Nat :=
        if w < h then (true, k)
        else if w > h then (false, k)
        else (decide (rnd k > 0.5), k + 1)
      if hk.1 then
        let split : Int := ⌊(h : α) * (0.3 + rnd hk.2 * 0.4)⌋
        if split < 5 ∨ h - split < 5 then (.mk x y w h .null .null, hk.2 + 1)
        else
          let l := splitNode rnd depth x y w split (hk.2 + 1)
          let r := splitNode rnd depth x (y + split) w (h - split) l.2
          (.mk x y w h l.1 r.1, r.2)
      else
        let split : Int := ⌊(w : α) * (0.3 + rnd hk.2 * 0.4)⌋
        if split < 5 ∨ w - split < 5 then (.mk x y w h .null .null, hk.2 + 1)
        else
          let l := splitNode rnd depth x y split h (hk.2 + 1)
          let r := splitNode rnd depth (x + split) y (w - split) h l.2
          (.mk x y w h l.1 r.1, r.2)

/-- The room `{x: roomX, y: roomY, w: roomW, h: roomH}` that `createRooms` computes for the
leaf `{x, y, w, h}` from the four draws `rnd k, ..., rnd (k+3)`. -/
def leafRoom (rnd : Nat → α) (x y w h : Int) (k : Nat) : Rect :=
  let roomW : Int := ⌊(w : α) * (0.6 + rnd k * 0.3)⌋
  let roomH : Int := ⌊(h : α) * (0.6 + rnd (k + 1) * 0.3)⌋
  let roomX : Int := x + ⌊rnd (k + 2) * (((w - roomW : Int)) : α)⌋
  let roomY : Int := y + ⌊rnd (k + 3) * (((h - roomH : Int)) : α)⌋
  { x := roomX, y := roomY, w := roomW, h := roomH }

/-- The two nested loops of `createRooms` that set the cells of `room` to `0`. -/
def carveRoom (L : Level) (room : Rect) : Option Level :=
  forEachM (fun y L1 =>
      forEachM (fun x L2 => setTile L2 y x 0) (intRange room.x (room.x + room.w)) L1)
    (intRange room.y (room.y + room.h)) L

/-- `Level.createRooms(node)`.  The returned room is used by no caller and is not modelled. -/
def createRooms (rnd : Nat → α) : Node → Level × Nat → Option (Level × Nat)
  | .null, s => some s
  | .mk x y w h left right, s =>
    if left.truthy || right.truthy then
      (createRooms rnd left s).bind (createRooms rnd right)
    else
      let room := leafRoom rnd x y w h s.2
      (carveRoom { s.1 with rooms := s.1.rooms ++ [room] } room).map (fun L => (L, s.2 + 4))

/-- `Level.carveHorizontal(x1, x2, y)`. -/
def carveHorizontal (L : Level) (x1 x2 y : Int) : Option Level :=
  forEachM (fun x L1 =>
      if y > 0 ∧ y < L1.height - 1 then
        (setTile L1 y x 0).bind (fun L2 =>
          if y + 1 < L2.height - 1 then setTile L2 (y + 1) x 0 else some L2)
      else some L1)
    (intRange (min x1 x2) (max x1 x2 + 1)) L

/-- `Level.carveVertical(y1, y2, x)`. -/
def carveVertical (L : Level) (y1 y2 x : Int) : Option Level :=
  forEachM (fun y L1 =>
      if x > 0 ∧ x < L1.width - 1 then
        (setTile L1 y x 0).bind (fun L2 =>
          if x + 1 < L2.width - 1 then setTile L2 y (x + 1) 0 else some L2)
      else some L1)
    (intRange (min y1 y2) (max y1 y2 + 1)) L

/-- The cell `(Math.floor(a.x + a.w / 2), Math.floor(a.y + a.h / 2))`, as `(x, y)`. -/
def centerCell (α : Type) [LinearOrderedField α] [FloorRing α] (a : Rect) : Int × Int :=
  (⌊(a.x : α) + (a.w : α) / 2⌋, ⌊(a.y : α) + (a.h : α) / 2⌋)

/-- One iteration of the loop of `connectRooms`: the L-shaped corridor from `a` to `b`. -/
def connectPair (rnd : Nat → α) (a b : Rect) (s : Level × Nat) : Option (Level × Nat) :=
  let ax := (centerCell α a).1
  let ay := (centerCell α a).2
  let bx := (centerCell α b).1
  let byy := (centerCell α b).2
  if rnd s.2 > 0.5 then
    ((carveHorizontal s.1 ax bx ay).bind (fun L => carveVertical L ay byy bx)).map
      (fun L => (L, s.2 + 1))
  else
    ((carveVertical s.1 ay byy ax).bind (fun L => carveHorizontal L ax bx byy)).map
      (fun L => (L, s.2 + 1))

/-- The loop of `connectRooms` over the consecutive pairs `rooms[i], rooms[i+1]` of the
remaining room list. -/
def connectFrom (rnd : Nat → α) : List Rect → Level × Nat → Option (Level × Nat)
  | a :: b :: rest, s => (connectPair rnd a b s).bind (connectFrom rnd (b :: rest))
  | _, s => some s

/-- `Level.connectRooms()`. -/
def connectRooms (rnd : Nat → α) (s : Level × Nat) : Option (Level × Nat) :=
  connectFrom rnd s.1.rooms s

/-- The loop of `addDetails` over the remaining rooms. -/
def detailsFrom (rnd : Nat → α) : List Rect → Level × Nat → Option (Level × Nat)
  | [], s => some s
  | room :: rest, s =>
    if rnd s.2 > 0.5 then
      let cx : Int := room.x + ⌊(room.w : α) / 2⌋
      let cy : Int := room.y + ⌊(room.h : α) / 2⌋
      (setTile s.1 cy cx 2).bind (fun L => detailsFrom rnd rest (L, s.2 + 1))
    else detailsFrom rnd rest (s.1, s.2 + 1)

/-- `Level.addDetails()`. -/
def addDetails (rnd : Nat → α) (s : Level × Nat) : Option (Level × Nat) :=
  detailsFrom rnd s.1.rooms s

/-- The first loop nest of `generate`: every row is created and filled with `1`. -/
def initTiles (L : Level) : Option Level :=
  forEachM (fun y L1 =>
      forEachM (fun x L2 => setTile L2 y x 1) (intRange 0 L1.width) (clearRow L1 y))
    (intRange 0 L.height) L

/-- The state of `generate` after `connectRooms`, before `addDetails` (BSP depth `depth`). -/
def generateCore (rnd : Nat → α) (width height : Int) (depth : Nat) : Option (Level × Nat) :=
  (initTiles { width := width, height := height, tiles := fun _ _ => none, rooms := [] }).bind
    (fun L =>
      let root := splitNode rnd depth 1 1 (width - 2) (height - 2) 0
      (createRooms rnd root.1 (L, root.2)).bind (connectRooms rnd))

/-- The level built by `new Level(width, height)`: the fields set by the constructor and
`Level.generate()` (with `splitNode(root, 4)`). -/
def generate (rnd : Nat → α) (width height : Int) : Option (Level × Nat) :=
  (generateCore rnd width height 4).bind (addDetails rnd)

/-- `Level.isWall(px, py)`. -/
def Level.isWall (L : Level) (px py : α) : Bool :=
  let tx : Int := ⌊px / CONFIG.tileSize⌋
  let ty : Int := ⌊py / CONFIG.tileSize⌋
  if tx < 0 ∨ tx ≥ L.width ∨ ty < 0 ∨ ty ≥ L.height then true
  else decide (L.tiles ty tx ≠ some 0)

/-- `Level.getSpawnPoint()`; reading `rooms[0]` of an empty room list throws. -/
def Level.getSpawnPoint (α : Type) [LinearOrderedField α] [FloorRing α] (L : Level) :
    Option (α × α) :=
  match L.rooms with
  | [] => none
  | room :: _ =>
    some (((room.x : α) + (room.w : α) / 2) * CONFIG.tileSize,
          ((room.y : α) + (room.h : α) / 2) * CONFIG.tileSize)

end Generation

section Lighting

variable {α : Type} [LinearOrderedField α] [FloorRing α]

/-- A ray hit `{x, y, distance}`. -/
structure RayHit (α : Type) where
  x : α
  y : α
  distance : α

/-- The `while` loop of `castSingleRay` (with `step = 4`), entered with the current values of
`x`, `y` and `distance`, followed by the final `return`. -/
def castLoop (L : Level) (dx dy : α) (x y distance : α) : RayHit α :=
  if distance < CONFIG.flashlightRange then
    if L.isWall (x + dx) (y + dy) then
      { x := x + dx, y := y + dy, distance := distance + 4 }
    else castLoop L dx dy (x + dx) (y + dy) (distance + 4)
  else { x := x, y := y, distance := CONFIG.flashlightRange }
termination_by (⌈(CONFIG.flashlightRange : α) - distance⌉).toNat
decreasing_by
  rename_i hlt _
  have h1 : (CONFIG.flashlightRange : α) - (distance + 4)
      = (CONFIG.flashlightRange - distance) - ((4 : Int) : α) := by push_cast; ring
  have h2 : 0 < ⌈(CONFIG.flashlightRange : α) - distance⌉ := Int.ceil_pos.mpr (sub_pos.mpr hlt)
  rw [h1, Int.ceil_sub_int]
  omega

/-- `LightingSystem.castSingleRay(ox, oy, angle)` against the level `game.level`. -/
def castSingleRay (M : JsMath α) (L : Level) (ox oy angle : α) : RayHit α :=
  castLoop L (M.cos angle * 4) (M.sin angle * 4) ox oy 0

/-- `LightingSystem.castRays(originX, originY, angle)`, with `numRays = 80`. -/
def castRays (M : JsMath α) (L : Level) (originX originY angle : α) : List (RayHit α) :=
  (List.range (80 + 1)).map (fun (i : Nat) =>
    castSingleRay M L originX originY
      (angle - CONFIG.flashlightAngle M / 2 + CONFIG.flashlightAngle M * (i : α) / 80))

end Lighting

section EnemyAI

variable {α : Type} [LinearOrderedField α] [FloorRing α]

/-- The values of `Math` that the `Enemy` class reads: those of `JsMath`, and `Math.sqrt` and
`Math.atan2` (as `atan2 dy dx`). -/
structure EnemyMath (α : Type) extends JsMath α where
  sqrt : α → α
  atan2 : α → α → α

/-- The values of `Enemy.state`. -/
inductive EnemyState where
  | patrol
  | alert
  | chase
  | search
deriving DecidableEq

/-- The fields of `game.player` that the `Enemy` class reads or writes. -/
structure Player (α : Type) where
  x : α
  y : α
  health : α

/-- The fields of an `Enemy` that its methods read or write (`radius`, `patrolPoints` and
`currentPatrolIndex` are never used by them). -/
structure Enemy (α : Type) where
  x : α
  y : α
  angle : α
  health : α
  state : EnemyState
  alertLevel : α
  lastKnownPlayerPos : Option (α × α)
  viewDistance : α
  viewAngle : α

/-- The constructor `new Enemy(x, y)`; `r` is the value of its `Math.random()` call. -/
def Enemy.new (M : EnemyMath α) (x y r : α) : Enemy α :=
  { x := x, y := y, angle := r * M.PI * 2, health := 100, state := .patrol, alertLevel := 0,
    lastKnownPlayerPos := none, viewDistance := 200, viewAngle := M.PI / 3 }

/-- The value of `steps` in `hasLineOfSight(targetX, targetY)`. -/
def Enemy.losSteps (M : EnemyMath α) (e : Enemy α) (targetX targetY : α) : Int :=
  ⌊M.sqrt ((targetX - e.x) * (targetX - e.x) + (targetY - e.y) * (targetY - e.y)) / 10⌋

/-- The point `(x, y)` that iteration `i` of the loop of `hasLineOfSight` tests. -/
def Enemy.losPoint (e : Enemy α) (targetX targetY : α) (steps i : Int) : α × α :=
  (e.x + (targetX - e.x) * (i : α) / (steps : α), e.y + (targetY - e.y) * (i : α) / (steps : α))

/-- The loop of `hasLineOfSight` over the remaining values of `i`, with its early
`return false`, followed by the final `return true`. -/
def Enemy.losLoop (L : Level) (e : Enemy α) (targetX targetY : α) (steps : Int) :
    List Int → Bool
  | [] => true
  | i :: rest =>
    if L.isWall (e.losPoint targetX targetY steps i).1 (e.losPoint targetX targetY steps i).2
    then false
    else Enemy.losLoop L e targetX targetY steps rest

/-- `Enemy.hasLineOfSight(targetX, targetY)`. -/
def Enemy.hasLineOfSight (M : EnemyMath α) (L : Level) (e : Enemy α) (targetX targetY : α) :
    Bool :=
  e.losLoop L targetX targetY (e.losSteps M targetX targetY)
    (intRange 1 (e.losSteps M targetX targetY))

/-- The value of `distance` in `checkPlayerVisibility` and in `chase`. -/
def Enemy.playerDistance (M : EnemyMath α) (e : Enemy α) (p : Player α) : α :=
  M.sqrt ((p.x - e.x) * (p.x - e.x) + (p.y - e.y) * (p.y - e.y))

/-- The value of `angleDiff` that `checkPlayerVisibility` compares with `viewAngle / 2`. -/
def Enemy.angleDiff (M : EnemyMath α) (e : Enemy α) (p : Player α) : α :=
  let angleToPlayer := M.atan2 (p.y - e.y) (p.x - e.x)
  let angleDiff := |e.angle - angleToPlayer|
  if angleDiff > M.PI then M.PI * 2 - angleDiff else angleDiff

/-- `Enemy.checkPlayerVisibility()` with `game.player = p`. -/
def Enemy.checkPlayerVisibility (M : EnemyMath α) (L : Level) (e : Enemy α) (p : Player α) :
    Enemy α :=
  if e.playerDistance M p > e.viewDistance then e
  else if e.angleDiff M p > e.viewAngle / 2 then e
  else if !(e.hasLineOfSight M L p.x p.y) then e
  else
    let e1 : Enemy α :=
      { e with alertLevel := e.alertLevel + 2, lastKnownPlayerPos := some (p.x, p.y) }
    if e1.alertLevel > 100 then { e1 with state := .chase }
    else if e1.alertLevel > 50 then { e1 with state := .alert }
    else e1

/-- `Enemy.patrol()`; `r` is the value of its `Math.random()` call. -/
def Enemy.patrol (M : EnemyMath α) (L : Level) (r : α) (e : Enemy α) : Enemy α :=
  let e1 : Enemy α := { e with alertLevel := max 0 (e.alertLevel - 0.5) }
  let e2 : Enemy α := { e1 with angle := e1.angle + (r - 0.5) * 0.05 }
  let newX := e2.x + M.cos e2.angle * 1
  let newY := e2.y + M.sin e2.angle * 1
  if !(L.isWall newX newY) then { e2 with x := newX, y := newY }
  else { e2 with angle := e2.angle + M.PI / 2 }

/-- `Enemy.attack()`: the effect on `game.player`. -/
def Enemy.attack (p : Player α) : Player α :=
  { p with health := p.health - 0.5 }

/-- The enemy after the turn and the move-or-attack step of `chase()`, before the
line-of-sight test (for an enemy whose `lastKnownPlayerPos` is not `null`). -/
def Enemy.chaseMove (M : EnemyMath α) (L : Level) (e : Enemy α) (p : Player α) : Enemy α :=
  let e1 : Enemy α := { e with angle := M.atan2 (p.y - e.y) (p.x - e.x) }
  if e.playerDistance M p > 30 then
    let newX := e1.x + M.cos e1.angle * 2.5
    let newY := e1.y + M.sin e1.angle * 2.5
    if !(L.isWall newX newY) then { e1 with x := newX, y := newY } else e1
  else e1

/-- `Enemy.chase()` with `game.player = p`: the enemy and the player afterwards. -/
def Enemy.chase (M : EnemyMath α) (L : Level) (e : Enemy α) (p : Player α) :
    Enemy α × Player α :=
  match e.lastKnownPlayerPos with
  | none => ({ e with state := .search }, p)
  | some _ =>
    let e2 := e.chaseMove M L p
    let p2 := if e.playerDistance M p > 30 then p else Enemy.attack p
    if !(e2.hasLineOfSight M L p2.x p2.y) then
      let e3 : Enemy α := { e2 with alertLevel := e2.alertLevel - 1 }
      if e3.alertLevel < 50 then ({ e3 with state := .search }, p2) else (e3, p2)
    else (e2, p2)

/-- `Enemy.alert()`. -/
def Enemy.alert (M : EnemyMath α) (e : Enemy α) : Enemy α :=
  let e1 : Enemy α :=
    match e.lastKnownPlayerPos with
    | some lk => { e with angle := M.atan2 (lk.2 - e.y) (lk.1 - e.x) }
    | none => e
  let e2 : Enemy α := { e1 with alertLevel := e1.alertLevel - 0.3 }
  if e2.alertLevel < 30 then { e2 with state := .patrol } else e2

/-- `Enemy.search()`. -/
def Enemy.search (M : EnemyMath α) (L : Level) (e : Enemy α) : Enemy α :=
  let e1 : Enemy α :=
    match e.lastKnownPlayerPos with
    | some lk =>
      let dx := lk.1 - e.x
      let dy := lk.2 - e.y
      let distance := M.sqrt (dx * dx + dy * dy)
      if distance > 20 then
        let ea : Enemy α := { e with angle := M.atan2 dy dx }
        let newX := ea.x + M.cos ea.angle * 1.5
        let newY := ea.y + M.sin ea.angle * 1.5
        if !(L.isWall newX newY) then { ea with x := newX, y := newY } else ea
      else { e with lastKnownPlayerPos := none }
    | none => e
  let e2 : Enemy α := { e1 with alertLevel := e1.alertLevel - 0.2 }
  if e2.alertLevel < 10 then { e2 with state := .patrol } else e2

/-- The `switch (this.state)` of `Enemy.update()`: the enemy, the player and the draw counter
after the behaviour of the current state. -/
def Enemy.behave (M : EnemyMath α) (L : Level) (rnd : Nat → α) (e : Enemy α) (p : Player α)
    (k : Nat) : Enemy α × Player α × Nat :=
  match e.state with
  | .patrol => (e.patrol M L (rnd k), p, k + 1)
  | .alert => (e.alert M, p, k)
  | .chase => ((e.chase M L p).1, (e.chase M L p).2, k)
  | .search => (e.search M L, p, k)

/-- `Enemy.update()` with `game.player = p`: the enemy, the player and the draw counter
afterwards. -/
def Enemy.update (M : EnemyMath α) (L : Level) (rnd : Nat → α) (e : Enemy α) (p : Player α)
    (k : Nat) : Enemy α × Player α × Nat :=
  let b := e.behave M L rnd p k
  (b.1.checkPlayerVisibility M L b.2.1, b.2.1, b.2.2)

/-- `Enemy.takeDamage(amount)` with `game.player = p`: the enemy afterwards and the returned
value. -/
def Enemy.takeDamage (e : Enemy α) (amount : α) (p : Player α) : Enemy α × Bool :=
  let e1 : Enemy α :=
    { e with health := e.health - amount, state := .chase, alertLevel := 100,
             lastKnownPlayerPos := some (p.x, p.y) }
  (e1, decide (e1.health ≤ 0))

end EnemyAI

/-! ## Vocabulary of the statements -/

/-- The cell `(cx, cy)` lies in the rectangle `r`. -/
def Rect.contains (r : Rect) (cx cy : Int) : Prop :=
  r.x ≤ cx ∧ cx < r.x + r.w ∧ r.y ≤ cy ∧ cy < r.y + r.h

instance (r : Rect) (cx cy : Int) : Decidable (r.contains cx cy) := by
  unfold Rect.contains; infer_instance

/-- The fields `{x, y, w, h}` of a node. -/
def Node.rect : Node → Option Rect
  | .null => none
  | .mk x y w h _ _ => some { x := x, y := y, w := w, h := h }

/-- The leaves of a partition tree in the order in which `createRooms` visits them. -/
def Node.leaves : Node → List Rect
  | .null => []
  | .mk x y w h left right =>
    if left.truthy || right.truthy then left.leaves ++ right.leaves
    else [{ x := x, y := y, w := w, h := h }]

/-- All nodes of a partition tree. -/
def Node.subnodes : Node → List Node
  | .null => []
  | .mk x y w h left right => .mk x y w h left right :: (left.subnodes ++ right.subnodes)

/-- Trees that `splitNode` can build with recursion budget `depth`: a node is a leaf, or it is
cut at `split` into two children that carry the two parts of its rectangle. -/
inductive BSP : Nat → Node → Prop where
  | leaf (d : Nat) (x y w h : Int) : BSP d (.mk x y w h .null .null)
  | hsplit (d : Nat) (x y w h split : Int) (l r : Node) :
      5 ≤ split → 5 ≤ h - split →
      l.rect = some { x := x, y := y, w := w, h := split } →
      r.rect = some { x := x, y := y + split, w := w, h := h - split } →
      BSP d l → BSP d r → BSP (d + 1) (.mk x y w h l r)
  | vsplit (d : Nat) (x y w h split : Int) (l r : Node) :
      5 ≤ split → 5 ≤ w - split →
      l.rect = some { x := x, y := y, w := split, h := h } →
      r.rect = some { x := x + split, y := y, w := w - split, h := h } →
      BSP d l → BSP d r → BSP (d + 1) (.mk x y w h l r)

/-- Every draw of the stream lies in `[0, 1)`, as `Math.random()` guarantees. -/
def ValidRnd {α : Type} [LinearOrderedField α] (rnd : Nat → α) : Prop :=
  ∀ i, 0 ≤ rnd i ∧ rnd i < 1

/-- The area `w * h` of a rectangle. -/
def Rect.area (r : Rect) : Int := r.w * r.h

/-- A node with children is tiled by them: the two child rectangles have the parent's total
area, share no cell, and together cover exactly the cells of the parent. -/
def Node.childrenTile : Node → Prop
  | .null => True
  | .mk x y w h left right =>
    (left.truthy || right.truthy) = true →
      ∃ a b, left.rect = some a ∧ right.rect = some b ∧
        a.area + b.area = (Rect.mk x y w h).area ∧
        (∀ cx cy, ¬ (a.contains cx cy ∧ b.contains cx cy)) ∧
        (∀ cx cy, (Rect.mk x y w h).contains cx cy ↔ a.contains cx cy ∨ b.contains cx cy)

/-- The pass from `L` to `M` keeps the grid size and changes tiles only by storing `v` in
cells that satisfy `P` (given as `P y x`, in the index order of `tiles[y][x]`). -/
def Writes (v : Nat) (P : Int → Int → Prop) (L M : Level) : Prop :=
  M.width = L.width ∧ M.height = L.height ∧
    ∀ y x, M.tiles y x = L.tiles y x ∨ (P y x ∧ M.tiles y x = some v)

/-- The cell `tiles[y][x]` is off the outermost ring of a `W x H` grid. -/
def Inner (W H : Int) (y x : Int) : Prop :=
  1 ≤ y ∧ y ≤ H - 2 ∧ 1 ≤ x ∧ x ≤ W - 2

/-- The cell `tiles[y][x]` is on the outermost ring of a `W x H` grid. -/
def Border (W H : Int) (y x : Int) : Prop :=
  0 ≤ y ∧ y < H ∧ 0 ≤ x ∧ x < W ∧ (x = 0 ∨ x = W - 1 ∨ y = 0 ∨ y = H - 1)

/-- A room off the outermost ring of a `W x H` grid, with one free column to its right and
one free row below it. -/
def RoomOK (W H : Int) (r : Rect) : Prop :=
  1 ≤ r.x ∧ 0 ≤ r.w ∧ r.x + r.w ≤ W - 2 ∧ 1 ≤ r.y ∧ 0 ≤ r.h ∧ r.y + r.h ≤ H - 2

/-- Two 4-adjacent cells (as `(x, y)` pairs) that both hold Floor. -/
def FloorStep (L : Level) (p q : Int × Int) : Prop :=
  ((p.1 = q.1 ∧ (p.2 = q.2 + 1 ∨ q.2 = p.2 + 1)) ∨
    (p.2 = q.2 ∧ (p.1 = q.1 + 1 ∨ q.1 = p.1 + 1))) ∧
  L.tiles p.2 p.1 = some 0 ∧ L.tiles q.2 q.1 = some 0

/-- There is a path of 4-adjacent Floor cells from the Floor cell `p` to the Floor cell `q`. -/
def FloorConnected (L : Level) (p q : Int × Int) : Prop :=
  L.tiles p.2 p.1 = some 0 ∧ L.tiles q.2 q.1 = some 0 ∧ Relation.ReflTransGen (FloorStep L) p q

/-- A `W x H` grid in which every cell holds Wall and no room is recorded. -/
def wallLevel (W H : Int) : Level :=
  { width := W, height := H,
    tiles := fun y x => if 0 ≤ y ∧ y < H ∧ 0 ≤ x ∧ x < W then some 1 else none,
    rooms := [] }

/-- The point at distance `t` from `(ox, oy)` in the direction `(cos angle, sin angle)`. -/
def rayPoint {α : Type} [LinearOrderedField α] (M : JsMath α) (ox oy angle t : α) : α × α :=
  (ox + t * M.cos angle, oy + t * M.sin angle)

/-- The angle `center - halfAngle + flashlightAngle * i / 80` of the `i`-th ray of the cone. -/
def rayAngle {α : Type} [LinearOrderedField α] (M : JsMath α) (center : α) (i : Nat) : α :=
  center - CONFIG.flashlightAngle M / 2 + CONFIG.flashlightAngle M * (i : α) / 80

/-- Rational stand-ins for `Math`: the exact values `cos 0 = 1` and `sin 0 = 0` (the examples
read the two functions at the angle `0` only) and a rational approximation of `Math.PI`. -/
def mathAtZero : JsMath ℚ :=
  { PI := 355 / 113, cos := fun _ => 1, sin := fun _ => 0 }

/-- A 10x10 grid that is Floor everywhere except for the single Wall cell `x = 2`, `y = 0`. -/
def oneWallLevel : Level :=
  { width := 10, height := 10,
    tiles := fun y x =>
      if 0 ≤ y ∧ y < 10 ∧ 0 ≤ x ∧ x < 10 then (if x = 2 ∧ y = 0 then some 1 else some 0)
      else none,
    rooms := [] }

/-- Rational stand-ins for the `Math` values of the `Enemy` class: `mathAtZero`, the exact
square root of squares of rationals (`Rat.sqrt`), and the exact values of `Math.atan2` on the
four half-axes (`0`, `PI/2`, `-PI/2`, `PI`, with the `PI` of `mathAtZero`); the examples read
`atan2` there only. -/
def axisMath : EnemyMath ℚ :=
  { toJsMath := mathAtZero,
    sqrt := Rat.sqrt,
    atan2 := fun dy dx =>
      if dx = 0 ∧ dy < 0 then -(mathAtZero.PI / 2)
      else if dx = 0 ∧ 0 < dy then mathAtZero.PI / 2
      else if dy = 0 ∧ dx < 0 then mathAtZero.PI
      else 0 }

/-- The points that the loop of `hasLineOfSight` tests when no point blocks, in order. -/
def Enemy.losSamples {α : Type} [LinearOrderedField α] [FloorRing α] (M : EnemyMath α)
    (e : Enemy α) (targetX targetY : α) : List (α × α) :=
  (intRange 1 (e.losSteps M targetX targetY)).map
    (fun i => e.losPoint targetX targetY (e.losSteps M targetX targetY) i)

/-- The player is perceived: none of the three early returns of `checkPlayerVisibility` is
taken. -/
def Enemy.perceives {α : Type} [LinearOrderedField α] [FloorRing α] (M : EnemyMath α)
    (L : Level) (e : Enemy α) (p : Player α) : Prop :=
  ¬ (e.playerDistance M p > e.viewDistance) ∧ ¬ (e.angleDiff M p > e.viewAngle / 2) ∧
    e.hasLineOfSight M L p.x p.y = true

/-- The enemies that a freshly constructed `Enemy` can become through `update` calls (with any
grid, player and draws) and `takeDamage` calls. -/
inductive Reachable {α : Type} [LinearOrderedField α] [FloorRing α] (M : EnemyMath α) :
    Enemy α → Prop where
  | fresh (x y r : α) : Reachable M (Enemy.new M x y r)
  | update (L : Level) (rnd : Nat → α) (e : Enemy α) (p : Player α) (k : Nat) :
      Reachable M e → Reachable M (e.update M L rnd p k).1
  | damage (e : Enemy α) (amount : α) (p : Player α) :
      Reachable M e → Reachable M (e.takeDamage amount p).1

/-- The order of a tick as the specification words it: perception first, then the behaviour
of the state that perception leaves. -/
def Enemy.updatePerceptionFirst {α : Type} [LinearOrderedField α] [FloorRing α]
    (M : EnemyMath α) (L : Level) (rnd : Nat → α) (e : Enemy α) (p : Player α) (k : Nat) :
    Enemy α × Player α × Nat :=
  (e.checkPlayerVisibility M L p).behave M L rnd p k

/-- The enemy and the draw counter after `n` calls of `update`, the `i`-th of them (from `0`)
with `game.player = players i`. -/
def runUpdates {α : Type} [LinearOrderedField α] [FloorRing α] (M : EnemyMath α) (L : Level)
    (rnd : Nat → α) (players : Nat → Player α) (e0 : Enemy α) (k0 : Nat) :
    Nat → Enemy α × Nat
  | 0 => (e0, k0)
  | n + 1 =>
    let s := runUpdates M L rnd players e0 k0 n
    let u := s.1.update M L rnd (players n) s.2
    (u.1, u.2.2)

/-- The enemy on which perception runs in tick `n` of `runUpdates`: the one that the
behaviour of that tick leaves. -/
def behavedAt {α : Type} [LinearOrderedField α] [FloorRing α] (M : EnemyMath α) (L : Level)
    (rnd : Nat → α) (players : Nat → Player α) (e0 : Enemy α) (k0 : Nat) (n : Nat) : Enemy α :=
  ((runUpdates M L rnd players e0 k0 n).1.behave M L rnd (players n)
    (runUpdates M L rnd players e0 k0 n).2).1

/-- A node with children was cut at `c = floor(f * dimension)` for a fraction `f` in the closed
interval `[0.3, 0.7]`, so that `floor(0.3 * dimension) ≤ c ≤ floor(0.7 * dimension)`; the
dimension is the height for a horizontal cut and the width for a vertical cut. -/
def Node.cutInRange (α : Type) [LinearOrderedField α] [FloorRing α] : Node → Prop
  | .null => True
  | .mk x y w h left right =>
    (left.truthy || right.truthy) = true →
      ∃ (f : α) (c : Int), (0.3 : α) ≤ f ∧ f ≤ (0.7 : α) ∧
        ((c = ⌊(h : α) * f⌋ ∧ ⌊(h : α) * 0.3⌋ ≤ c ∧ c ≤ ⌊(h : α) * 0.7⌋ ∧
          left.rect = some { x := x, y := y, w := w, h := c } ∧
          right.rect = some { x := x, y := y + c, w := w, h := h - c }) ∨
         (c = ⌊(w : α) * f⌋ ∧ ⌊(w : α) * 0.3⌋ ≤ c ∧ c ≤ ⌊(w : α) * 0.7⌋ ∧
          left.rect = some { x := x, y := y, w := c, h := h } ∧
          right.rect = some { x := x + c, y := y, w := w - c, h := h }))

/-- The lower bound that the alert level keeps in each state: 0 on patrol, 30 on alert, 50 in
chase and 10 in search. -/
def AlertInv {α : Type} [LinearOrderedField α] (e : Enemy α) : Prop :=
  (e.state = .patrol → 0 ≤ e.alertLevel) ∧ (e.state = .alert → 30 ≤ e.alertLevel) ∧
    (e.state = .chase → 50 ≤ e.alertLevel) ∧ (e.state = .search → 10 ≤ e.alertLevel)

/-- The player of the example run: at rest at `(150, 50)`. -/
def restingPlayer : Player ℚ := { x := 150, y := 50, health := 100 }

/-- The invariant of the example run on `oneWallLevel`: the enemy stays on the row `y = 50`,
faces the player at `(150, 50)` and is left of it; while on patrol it has walked at most as far
as its alert level has risen. -/
def RowInv (e : Enemy ℚ) : Prop :=
  e.y = 50 ∧ e.angle = 0 ∧ 50 ≤ e.x ∧ e.viewDistance = 200 ∧
    e.viewAngle = mathAtZero.PI / 3 ∧
    (e.lastKnownPlayerPos = none ∨ e.lastKnownPlayerPos = some (150, 50)) ∧
    (e.state = .patrol → 0 ≤ e.alertLevel ∧ e.alertLevel ≤ 50 ∧ e.x ≤ 50 + e.alertLevel) ∧
    (e.state = .alert → 50 < e.alertLevel ∧ e.x ≤ 101) ∧
    (e.state = .chase → 100 < e.alertLevel ∧ e.x ≤ 245 / 2 ∧ e.lastKnownPlayerPos ≠ none) ∧
    e.state ≠ .search

/-- A player at `(65, 50)`, 15 units to the right of the example enemies at `(50, 50)`. -/
def nearPlayer : Player ℚ := { x := 65, y := 50, health := 100 }

/-- An enemy on patrol at `(50, 50)`, facing the angle `0`, whose alert level `49.5` is just
below the alert threshold. -/
def patrolNearThreshold : Enemy ℚ :=
  { x := 50, y := 50, angle := 0, health := 100, state := .patrol, alertLevel := 99 / 2,
    lastKnownPlayerPos := none, viewDistance := 200, viewAngle := mathAtZero.PI / 3 }

/-- A chasing enemy at `(50, 50)`, facing the angle `0`, whose alert level has decayed to 98
(as after `takeDamage` and two `chase()` calls without line of sight). -/
def chaseBelowHundred : Enemy ℚ :=
  { x := 50, y := 50, angle := 0, health := 90, state := .chase, alertLevel := 98,
    lastKnownPlayerPos := some (65, 50), viewDistance := 200, viewAngle := mathAtZero.PI / 3 }

/-- A player at `(50, 140)`: straight up on the screen from `(50, 150)`, at the bearing
`atan2(-10, 0) = -PI/2`. -/
def playerAbove : Player ℚ := { x := 50, y := 140, health := 100 }

/-- A call of one of the two methods that the game loop invokes on an enemy, with the value of
`game.player` at the time of the call: `enemy.update()` or `enemy.takeDamage(amount)`. -/
inductive EnemyCall (α : Type) where
  | update (p : Player α)
  | takeDamage (amount : α) (p : Player α)

/-- The enemy and the draw counter after a sequence of `update` and `takeDamage` calls on the
grid `L`, in order. -/
def runCalls {α : Type} [LinearOrderedField α] [FloorRing α] (M : EnemyMath α) (L : Level)
    (rnd : Nat → α) : List (EnemyCall α) → Enemy α → Nat → Enemy α × Nat
  | [], e, k => (e, k)
  | .update p :: calls, e, k =>
    runCalls M L rnd calls (e.update M L rnd p k).1 (e.update M L rnd p k).2.2
  | .takeDamage amount p :: calls, e, k =>
    runCalls M L rnd calls (e.takeDamage amount p).1 k

/-! ## The tile query -/

section TileQuery

variable {α : Type} [LinearOrderedField α] [FloorRing α]

theorem isWall_true_iff (L : Level) (px py : α) :
    L.isWall px py = true ↔
      (¬ (0 ≤ ⌊px / CONFIG.tileSize⌋ ∧ ⌊px / CONFIG.tileSize⌋ < L.width ∧
          0 ≤ ⌊py / CONFIG.tileSize⌋ ∧ ⌊py / CONFIG.tileSize⌋ < L.height) ∨
        L.tiles ⌊py / CONFIG.tileSize⌋ ⌊px / CONFIG.tileSize⌋ ≠ some 0) := by
  unfold Level.isWall
  by_cases hb : ⌊px / (CONFIG.tileSize : α)⌋ < 0 ∨ ⌊px / (CONFIG.tileSize : α)⌋ ≥ L.width ∨
      ⌊py / (CONFIG.tileSize : α)⌋ < 0 ∨ ⌊py / (CONFIG.tileSize : α)⌋ ≥ L.height
  · simp only [hb, if_true, true_iff]
    left; omega
  · simp only [hb, if_false, decide_eq_true_eq]
    constructor
    · intro h; exact Or.inr h
    · rintro (h | h)
      · exact absurd (by omega) h
      · exact h

theorem isWall_false_iff (L : Level) (px py : α) :
    L.isWall px py = false ↔
      (0 ≤ ⌊px / CONFIG.tileSize⌋ ∧ ⌊px / CONFIG.tileSize⌋ < L.width ∧
          0 ≤ ⌊py / CONFIG.tileSize⌋ ∧ ⌊py / CONFIG.tileSize⌋ < L.height) ∧
        L.tiles ⌊py / CONFIG.tileSize⌋ ⌊px / CONFIG.tileSize⌋ = some 0 := by
  rw [← Bool.not_eq_true, isWall_true_iff]
  tauto

/-- C2: `isWall` is a total function that answers `true` exactly when the cell of the point
is outside `[0,width) x [0,height)` or its tile is not Floor (`0`); every point with a negative
coordinate blocks, a Cover cell (`2`) and a Wall cell (`1`) block, a Floor cell inside the
grid does not. -/
theorem isWall_iff (L : Level) (px py : α) :
    (L.isWall px py = true ↔
      (¬ (0 ≤ ⌊px / CONFIG.tileSize⌋ ∧ ⌊px / CONFIG.tileSize⌋ < L.width ∧
          0 ≤ ⌊py / CONFIG.tileSize⌋ ∧ ⌊py / CONFIG.tileSize⌋ < L.height) ∨
        L.tiles ⌊py / CONFIG.tileSize⌋ ⌊px / CONFIG.tileSize⌋ ≠ some 0)) ∧
    (px < 0 ∨ py < 0 → L.isWall px py = true) ∧
    (L.tiles ⌊py / CONFIG.tileSize⌋ ⌊px / CONFIG.tileSize⌋ = some 2 → L.isWall px py = true) ∧
    (L.tiles ⌊py / CONFIG.tileSize⌋ ⌊px / CONFIG.tileSize⌋ = some 1 → L.isWall px py = true) ∧
    (0 ≤ ⌊px / CONFIG.tileSize⌋ → ⌊px / CONFIG.tileSize⌋ < L.width →
      0 ≤ ⌊py / CONFIG.tileSize⌋ → ⌊py / CONFIG.tileSize⌋ < L.height →
      L.tiles ⌊py / CONFIG.tileSize⌋ ⌊px / CONFIG.tileSize⌋ = some 0 →
      L.isWall px py = false) := by
  have key := isWall_true_iff L px py
  have hneg : ∀ q : α, q < 0 → ⌊q / (CONFIG.tileSize : α)⌋ < 0 := by
    intro q hq
    rw [Int.floor_lt]
    have : (0 : α) < CONFIG.tileSize := by unfold CONFIG.tileSize; norm_num
    have := div_neg_of_neg_of_pos hq this
    simpa using this
  refine ⟨key, ?_, ?_, ?_, ?_⟩
  · rintro (h | h)
    · exact key.mpr (Or.inl (fun hc => by have := hneg px h; omega))
    · exact key.mpr (Or.inl (fun hc => by have := hneg py h; omega))
  · intro h; exact key.mpr (Or.inr (by rw [h]; decide))
  · intro h; exact key.mpr (Or.inr (by rw [h]; decide))
  · intro h1 h2 h3 h4 h5
    exact (isWall_false_iff L px py).mpr ⟨⟨h1, h2, h3, h4⟩, h5⟩

end TileQuery

/-! ## The partition tree -/

section Partition

variable {α : Type} [LinearOrderedField α] [FloorRing α]

theorem splitNode_rect (rnd : Nat → α) (d : Nat) (x y w h : Int) (k : Nat) :
    (splitNode rnd d x y w h k).1.rect = some { x := x, y := y, w := w, h := h } := by
  cases d with
  | zero => rfl
  | succ d =>
    simp only [splitNode]
    split_ifs <;> rfl

theorem splitNode_bsp (rnd : Nat → α) (d : Nat) :
    ∀ (x y w h : Int) (k : Nat), BSP d (splitNode rnd d x y w h k).1 := by
  induction d with
  | zero => intro x y w h k; exact BSP.leaf 0 x y w h
  | succ d ih =>
    intro x y w h k
    simp only [splitNode]
    by_cases h1 : w < 10 ∨ h < 10
    · simp only [h1, if_true]; exact BSP.leaf _ x y w h
    · simp only [h1, if_false]
      generalize (if w < h then (true, k) else if w > h then (false, k)
        else (decide (rnd k > 0.5), k + 1)) = hk
      split_ifs with h2 h3 h4
      · exact BSP.leaf _ x y w h
      · exact BSP.hsplit d x y w h _ _ _ (by omega) (by omega)
          (splitNode_rect ..) (splitNode_rect ..) (ih ..) (ih ..)
      · exact BSP.leaf _ x y w h
      · exact BSP.vsplit d x y w h _ _ _ (by omega) (by omega)
          (splitNode_rect ..) (splitNode_rect ..) (ih ..) (ih ..)

theorem truthy_of_rect {n : Node} {r : Rect} (h : n.rect = some r) : n.truthy = true := by
  cases n with
  | null => simp [Node.rect] at h
  | mk => rfl

theorem BSP.rect_isSome {d : Nat} {t : Node} (ht : BSP d t) : ∃ r, t.rect = some r := by
  cases ht <;> exact ⟨_, rfl⟩

theorem leaves_split {x y w h : Int} {l r : Node} {a : Rect} (hl : l.rect = some a) :
    (Node.mk x y w h l r).leaves = l.leaves ++ r.leaves := by
  simp [Node.leaves, truthy_of_rect hl]

theorem BSP.leaves_length {d : Nat} {t : Node} (ht : BSP d t) :
    1 ≤ t.leaves.length ∧ t.leaves.length ≤ 2 ^ d := by
  induction ht with
  | leaf d x y w h =>
    simp [Node.leaves, Node.truthy]
    exact Nat.one_le_two_pow
  | hsplit d x y w h split l r _ _ hl _ _ _ ihl ihr =>
    rw [leaves_split hl, List.length_append, pow_succ]
    omega
  | vsplit d x y w h split l r _ _ hl _ _ _ ihl ihr =>
    rw [leaves_split hl, List.length_append, pow_succ]
    omega

/-- The rectangle of a tree built by `splitNode` contains every leaf, and leaves of a tree
whose root has positive sides have positive sides. -/
theorem BSP.leaves_within {d : Nat} {t : Node} (ht : BSP d t) :
    ∀ root, t.rect = some root → 1 ≤ root.w → 1 ≤ root.h →
      ∀ leaf ∈ t.leaves, root.x ≤ leaf.x ∧ leaf.x + leaf.w ≤ root.x + root.w ∧
        root.y ≤ leaf.y ∧ leaf.y + leaf.h ≤ root.y + root.h ∧ 1 ≤ leaf.w ∧ 1 ≤ leaf.h := by
  induction ht with
  | leaf d x y w h =>
    intro root hroot hw hh leaf hleaf
    simp only [Node.leaves, Node.truthy, Bool.or_self, Bool.false_eq_true, if_false,
      List.mem_singleton] at hleaf
    simp only [Node.rect, Option.some.injEq] at hroot
    subst hleaf hroot
    dsimp only at hw hh ⊢
    omega
  | hsplit d x y w h split l r h1 h2 hl hr _ _ ihl ihr =>
    intro root hroot hw hh leaf hleaf
    rw [leaves_split hl, List.mem_append] at hleaf
    simp only [Node.rect, Option.some.injEq] at hroot
    subst hroot
    dsimp only at hw hh ⊢
    rcases hleaf with hm | hm
    · have := ihl _ hl hw (by dsimp only; omega) leaf hm
      dsimp only at this; omega
    · have := ihr _ hr hw (by dsimp only; omega) leaf hm
      dsimp only at this; omega
  | vsplit d x y w h split l r h1 h2 hl hr _ _ ihl ihr =>
    intro root hroot hw hh leaf hleaf
    rw [leaves_split hl, List.mem_append] at hleaf
    simp only [Node.rect, Option.some.injEq] at hroot
    subst hroot
    dsimp only at hw hh ⊢
    rcases hleaf with hm | hm
    · have := ihl _ hl (by dsimp only; omega) hh leaf hm
      dsimp only at this; omega
    · have := ihr _ hr (by dsimp only; omega) hh leaf hm
      dsimp only at this; omega

theorem BSP.subnodes_tile {d : Nat} {t : Node} (ht : BSP d t) :
    ∀ n ∈ t.subnodes, n.childrenTile := by
  induction ht with
  | leaf d x y w h =>
    intro n hn
    simp only [Node.subnodes, List.append_nil, List.mem_singleton] at hn
    subst hn
    intro hc
    simp [Node.truthy] at hc
  | hsplit d x y w h split l r h1 h2 hl hr _ _ ihl ihr =>
    intro n hn
    simp only [Node.subnodes, List.mem_cons, List.mem_append] at hn
    rcases hn with rfl | hn | hn
    · intro _
      refine ⟨_, _, hl, hr, ?_, ?_, ?_⟩
      · simp only [Rect.area]; ring
      · intro cx cy; simp only [Rect.contains]; omega
      · intro cx cy; simp only [Rect.contains]; omega
    · exact ihl n hn
    · exact ihr n hn
  | vsplit d x y w h split l r h1 h2 hl hr _ _ ihl ihr =>
    intro n hn
    simp only [Node.subnodes, List.mem_cons, List.mem_append] at hn
    rcases hn with rfl | hn | hn
    · intro _
      refine ⟨_, _, hl, hr, ?_, ?_, ?_⟩
      · simp only [Rect.area]; ring
      · intro cx cy; simp only [Rect.contains]; omega
      · intro cx cy; simp only [Rect.contains]; omega
    · exact ihl n hn
    · exact ihr n hn

theorem BSP.leaves_count {d : Nat} {t : Node} (ht : BSP d t) (cx cy : Int) :
    ∀ root, t.rect = some root →
      t.leaves.countP (fun r => decide (r.contains cx cy)) =
        if root.contains cx cy then 1 else 0 := by
  induction ht with
  | leaf d x y w h =>
    intro root hroot
    simp only [Node.rect, Option.some.injEq] at hroot
    subst hroot
    simp only [Node.leaves, Node.truthy, Bool.or_self, Bool.false_eq_true, if_false]
    by_cases hc : (Rect.mk x y w h).contains cx cy <;> simp [List.countP_cons, hc]
  | hsplit d x y w h split l r h1 h2 hl hr _ _ ihl ihr =>
    intro root hroot
    simp only [Node.rect, Option.some.injEq] at hroot
    subst hroot
    rw [leaves_split hl, List.countP_append, ihl _ hl, ihr _ hr]
    simp only [Rect.contains]
    split_ifs <;> omega
  | vsplit d x y w h split l r h1 h2 hl hr _ _ ihl ihr =>
    intro root hroot
    simp only [Node.rect, Option.some.injEq] at hroot
    subst hroot
    rw [leaves_split hl, List.countP_append, ihl _ hl, ihr _ hr]
    simp only [Rect.contains]
    split_ifs <;> omega

theorem BSP.leaves_area {d : Nat} {t : Node} (ht : BSP d t) :
    ∀ root, t.rect = some root → (t.leaves.map Rect.area).sum = root.area := by
  induction ht with
  | leaf d x y w h =>
    intro root hroot
    simp only [Node.rect, Option.some.injEq] at hroot
    subst hroot
    simp [Node.leaves, Node.truthy]
  | hsplit d x y w h split l r h1 h2 hl hr _ _ ihl ihr =>
    intro root hroot
    simp only [Node.rect, Option.some.injEq] at hroot
    subst hroot
    rw [leaves_split hl, List.map_append, List.sum_append, ihl _ hl, ihr _ hr]
    simp only [Rect.area]; ring
  | vsplit d x y w h split l r h1 h2 hl hr _ _ ihl ihr =>
    intro root hroot
    simp only [Node.rect, Option.some.injEq] at hroot
    subst hroot
    rw [leaves_split hl, List.map_append, List.sum_append, ihl _ hl, ihr _ hr]
    simp only [Rect.area]; ring

/-- C3: in the tree that `splitNode` builds on any rectangle, with any depth and any draws,
every node that received children is tiled by them (equal total area, no common cell, same
cells as the parent), every cell lies in exactly one leaf if it lies in the root rectangle
and in no leaf otherwise, and the leaf areas add up to the root area. -/
theorem splitNode_partition_tiling (rnd : Nat → α) (depth : Nat) (x y w h : Int) (k : Nat) :
    (∀ n ∈ (splitNode rnd depth x y w h k).1.subnodes, n.childrenTile) ∧
    (∀ cx cy : Int,
      (splitNode rnd depth x y w h k).1.leaves.countP (fun r => decide (r.contains cx cy)) =
        if (Rect.mk x y w h).contains cx cy then 1 else 0) ∧
    (((splitNode rnd depth x y w h k).1.leaves.map Rect.area).sum = w * h) := by
  have hb := splitNode_bsp rnd depth x y w h k
  refine ⟨hb.subnodes_tile, fun cx cy => hb.leaves_count cx cy _ (splitNode_rect ..), ?_⟩
  rw [hb.leaves_area _ (splitNode_rect ..)]
  rfl

end Partition

/-! ## Loops and tile writes -/

section Loops

theorem mem_intRange {lo hi z : Int} : z ∈ intRange lo hi ↔ lo ≤ z ∧ z < hi := by
  simp only [intRange, List.mem_map, List.mem_range]
  constructor
  · rintro ⟨i, hi', rfl⟩; omega
  · rintro ⟨h1, h2⟩
    exact ⟨(z - lo).toNat, by omega, by omega⟩

/-- A relation that every iteration establishes holds between the entry and exit states. -/
theorem forEachM_rel {σ : Type} (R : σ → σ → Prop) (hrefl : ∀ s, R s s)
    (htrans : ∀ a b c, R a b → R b c → R a c) (body : Int → σ → Option σ) :
    ∀ (xs : List Int), (∀ x ∈ xs, ∀ s s', body x s = some s' → R s s') →
      ∀ s s', forEachM body xs s = some s' → R s s' := by
  intro xs
  induction xs with
  | nil =>
    intro _ s s' h
    simp only [forEachM, Option.some.injEq] at h
    subst h; exact hrefl s
  | cons x xs ih =>
    intro hb s s' h
    simp only [forEachM] at h
    cases hx : body x s with
    | none => rw [hx] at h; simp at h
    | some s1 =>
      rw [hx] at h
      simp only [Option.some_bind] at h
      exact htrans _ _ _ (hb x (List.mem_cons_self _ _) s s1 hx)
        (ih (fun y hy => hb y (List.mem_cons_of_mem _ hy)) s1 s' h)

/-- A loop whose iterations succeed under the invariant `I` succeeds; every iteration `x`
leaves `Q x`, and no iteration destroys a `Q`. -/
theorem forEachM_total {σ : Type} (I : σ → Prop) (Q : Int → σ → Prop)
    (body : Int → σ → Option σ) :
    ∀ (xs : List Int),
      (∀ x ∈ xs, ∀ s, I s → ∃ s', body x s = some s' ∧ I s' ∧ Q x s' ∧ ∀ z, Q z s → Q z s') →
      ∀ s, I s → ∃ s', forEachM body xs s = some s' ∧ I s' ∧ (∀ x ∈ xs, Q x s') ∧
        ∀ z, Q z s → Q z s' := by
  intro xs
  induction xs with
  | nil =>
    intro _ s hs
    exact ⟨s, rfl, hs, fun x hx => absurd hx (List.not_mem_nil x), fun _ h => h⟩
  | cons x xs ih =>
    intro hb s hs
    obtain ⟨s1, h1, hI1, hQ1, hst1⟩ := hb x (List.mem_cons_self _ _) s hs
    obtain ⟨s2, h2, hI2, hQ2, hst2⟩ := ih (fun y hy => hb y (List.mem_cons_of_mem _ hy)) s1 hI1
    refine ⟨s2, ?_, hI2, ?_, fun z hz => hst2 z (hst1 z hz)⟩
    · simp only [forEachM, h1, Option.some_bind, h2]
    · intro y hy
      rcases List.mem_cons.mp hy with rfl | hy
      · exact hst2 _ hQ1
      · exact hQ2 y hy

theorem Writes.refl (v : Nat) (P : Int → Int → Prop) (L : Level) : Writes v P L L :=
  ⟨rfl, rfl, fun _ _ => Or.inl rfl⟩

theorem Writes.andThen {v : Nat} {P : Int → Int → Prop} {A B C : Level}
    (h1 : Writes v P A B) (h2 : Writes v P B C) : Writes v P A C := by
  refine ⟨h2.1.trans h1.1, h2.2.1.trans h1.2.1, fun y x => ?_⟩
  rcases h2.2.2 y x with h | h
  · rcases h1.2.2 y x with h' | h'
    · exact Or.inl (h.trans h')
    · exact Or.inr ⟨h'.1, h.trans h'.2⟩
  · exact Or.inr h

theorem Writes.weaken {v : Nat} {P Q : Int → Int → Prop} {A B : Level}
    (h : Writes v P A B) (hPQ : ∀ y x, P y x → Q y x) : Writes v Q A B :=
  ⟨h.1, h.2.1, fun y x => (h.2.2 y x).imp id (fun hh => ⟨hPQ y x hh.1, hh.2⟩)⟩

/-- A cell that holds `v` keeps it through a pass that only stores `v`. -/
theorem Writes.stable {v : Nat} {P : Int → Int → Prop} {A B : Level} (h : Writes v P A B)
    {y x : Int} (hv : A.tiles y x = some v) : B.tiles y x = some v := by
  rcases h.2.2 y x with h' | h'
  · rw [h', hv]
  · exact h'.2

/-- A cell outside `P` is not touched. -/
theorem Writes.frame {v : Nat} {P : Int → Int → Prop} {A B : Level} (h : Writes v P A B)
    {y x : Int} (hP : ¬ P y x) : B.tiles y x = A.tiles y x := by
  rcases h.2.2 y x with h' | h'
  · exact h'
  · exact absurd h'.1 hP

theorem setTile_some {L M : Level} {y x : Int} {v : Nat} (h : setTile L y x v = some M) :
    M.rooms = L.rooms ∧ M.tiles y x = some v ∧ Writes v (fun y' x' => y' = y ∧ x' = x) L M := by
  unfold setTile at h
  split_ifs at h with hy
  simp only [Option.some.injEq] at h
  subst h
  refine ⟨rfl, by simp, rfl, rfl, fun y' x' => ?_⟩
  by_cases hc : y' = y ∧ x' = x
  · exact Or.inr ⟨hc, by simp [hc]⟩
  · exact Or.inl (by simp [hc])

theorem setTile_total (L : Level) (y x : Int) (v : Nat) (h0 : 0 ≤ y) (h1 : y < L.height) :
    ∃ M, setTile L y x v = some M := by
  unfold setTile
  rw [if_pos ⟨h0, h1⟩]
  exact ⟨_, rfl⟩

/-- The relation used for the passes of `generate` on a `W x H` grid: from a state of that
size, the room list is kept and only Inner cells are overwritten, with `v`. -/
theorem innerRel_trans {v : Nat} {W H : Int} (a b c : Level)
    (h1 : a.width = W → a.height = H → b.rooms = a.rooms ∧ Writes v (Inner W H) a b)
    (h2 : b.width = W → b.height = H → c.rooms = b.rooms ∧ Writes v (Inner W H) b c) :
    a.width = W → a.height = H → c.rooms = a.rooms ∧ Writes v (Inner W H) a c := by
  intro hw hh
  obtain ⟨r1, w1⟩ := h1 hw hh
  obtain ⟨r2, w2⟩ := h2 (w1.1.trans hw) (w1.2.1.trans hh)
  exact ⟨r2.trans r1, w1.andThen w2⟩

theorem roomRel_trans {v : Nat} {P : Int → Int → Prop} (a b c : Level)
    (h1 : b.rooms = a.rooms ∧ Writes v P a b) (h2 : c.rooms = b.rooms ∧ Writes v P b c) :
    c.rooms = a.rooms ∧ Writes v P a c :=
  ⟨h2.1.trans h1.1, h1.2.andThen h2.2⟩

theorem carveRoom_rel {L M : Level} {room : Rect} (h : carveRoom L room = some M) :
    M.rooms = L.rooms ∧ Writes 0 (fun y x => room.contains x y) L M := by
  unfold carveRoom at h
  refine forEachM_rel
    (fun A B => B.rooms = A.rooms ∧ Writes 0 (fun y x => room.contains x y) A B)
    (fun s => ⟨rfl, Writes.refl _ _ _⟩)
    roomRel_trans _ _ ?_ L M h
  intro y hy s s' hs
  refine forEachM_rel
    (fun A B => B.rooms = A.rooms ∧ Writes 0 (fun y x => room.contains x y) A B)
    (fun s => ⟨rfl, Writes.refl _ _ _⟩)
    roomRel_trans _ _ ?_ s s' hs
  intro x hx A B hAB
  obtain ⟨hr, _, hw⟩ := setTile_some hAB
  refine ⟨hr, hw.weaken ?_⟩
  rintro y' x' ⟨rfl, rfl⟩
  rw [mem_intRange] at hx hy
  exact ⟨hx.1, hx.2, hy.1, hy.2⟩

theorem carveRoom_total (L : Level) (room : Rect)
    (hrows : ∀ y, room.y ≤ y → y < room.y + room.h → 0 ≤ y ∧ y < L.height) :
    ∃ M, carveRoom L room = some M := by
  unfold carveRoom
  obtain ⟨M, hM, _⟩ := forEachM_total (fun s : Level => s.height = L.height) (fun _ _ => True)
    (fun y L1 => forEachM (fun x L2 => setTile L2 y x 0)
      (intRange room.x (room.x + room.w)) L1)
    (intRange room.y (room.y + room.h)) (by
      intro y hy s hs
      rw [mem_intRange] at hy
      obtain ⟨s', hs', hI, _⟩ := forEachM_total (fun s : Level => s.height = L.height)
        (fun _ _ => True) (fun x L2 => setTile L2 y x 0)
        (intRange room.x (room.x + room.w)) (by
          intro x _ t ht
          obtain ⟨t', ht'⟩ := setTile_total t y x 0 (hrows y hy.1 hy.2).1
            (by rw [ht]; exact (hrows y hy.1 hy.2).2)
          exact ⟨t', ht', (setTile_some ht').2.2.2.1.trans ht, trivial, fun _ _ => trivial⟩)
        s hs
      exact ⟨s', hs', hI, trivial, fun _ _ => trivial⟩) L rfl
  exact ⟨M, hM⟩

theorem carveHorizontal_rel {W H : Int} {L M : Level} {x1 x2 y : Int}
    (hlo : 1 ≤ min x1 x2) (hhi : max x1 x2 ≤ W - 2)
    (h : carveHorizontal L x1 x2 y = some M) :
    L.width = W → L.height = H → M.rooms = L.rooms ∧ Writes 0 (Inner W H) L M := by
  unfold carveHorizontal at h
  refine forEachM_rel
    (fun A B => A.width = W → A.height = H → B.rooms = A.rooms ∧ Writes 0 (Inner W H) A B)
    (fun s _ _ => ⟨rfl, Writes.refl _ _ _⟩) innerRel_trans _ _ ?_ L M h
  intro x hx A B hAB hAw hAh
  rw [mem_intRange] at hx
  split_ifs at hAB with hg
  · cases h1 : setTile A y x 0 with
    | none => rw [h1] at hAB; simp at hAB
    | some A1 =>
      rw [h1] at hAB
      simp only [Option.some_bind] at hAB
      obtain ⟨r1, _, w1⟩ := setTile_some h1
      have w1' : Writes 0 (Inner W H) A A1 := w1.weaken (by
        rintro y' x' ⟨rfl, rfl⟩
        exact ⟨by omega, by omega, by omega, by omega⟩)
      split_ifs at hAB with hg2
      · obtain ⟨r2, _, w2⟩ := setTile_some hAB
        have hA1h : A1.height = H := w1.2.1.trans hAh
        have w2' : Writes 0 (Inner W H) A1 B := w2.weaken (by
          rintro y' x' ⟨rfl, rfl⟩
          exact ⟨by omega, by omega, by omega, by omega⟩)
        exact ⟨r2.trans r1, w1'.andThen w2'⟩
      · simp only [Option.some.injEq] at hAB
        subst hAB
        exact ⟨r1, w1'⟩
  · simp only [Option.some.injEq] at hAB
    subst hAB
    exact ⟨rfl, Writes.refl _ _ _⟩

theorem carveVertical_rel {W H : Int} {L M : Level} {y1 y2 x : Int}
    (hlo : 1 ≤ min y1 y2) (hhi : max y1 y2 ≤ H - 2)
    (h : carveVertical L y1 y2 x = some M) :
    L.width = W → L.height = H → M.rooms = L.rooms ∧ Writes 0 (Inner W H) L M := by
  unfold carveVertical at h
  refine forEachM_rel
    (fun A B => A.width = W → A.height = H → B.rooms = A.rooms ∧ Writes 0 (Inner W H) A B)
    (fun s _ _ => ⟨rfl, Writes.refl _ _ _⟩) innerRel_trans _ _ ?_ L M h
  intro y hy A B hAB hAw hAh
  rw [mem_intRange] at hy
  split_ifs at hAB with hg
  · cases h1 : setTile A y x 0 with
    | none => rw [h1] at hAB; simp at hAB
    | some A1 =>
      rw [h1] at hAB
      simp only [Option.some_bind] at hAB
      obtain ⟨r1, _, w1⟩ := setTile_some h1
      have w1' : Writes 0 (Inner W H) A A1 := w1.weaken (by
        rintro y' x' ⟨rfl, rfl⟩
        exact ⟨by omega, by omega, by omega, by omega⟩)
      split_ifs at hAB with hg2
      · obtain ⟨r2, _, w2⟩ := setTile_some hAB
        have hA1w : A1.width = W := w1.1.trans hAw
        have w2' : Writes 0 (Inner W H) A1 B := w2.weaken (by
          rintro y' x' ⟨rfl, rfl⟩
          exact ⟨by omega, by omega, by omega, by omega⟩)
        exact ⟨r2.trans r1, w1'.andThen w2'⟩
      · simp only [Option.some.injEq] at hAB
        subst hAB
        exact ⟨r1, w1'⟩
  · simp only [Option.some.injEq] at hAB
    subst hAB
    exact ⟨rfl, Writes.refl _ _ _⟩

/-- The body of the corridor loops: one write, and a second one under a guard. -/
theorem twoWrites_total (A : Level) (y x y2 x2 : Int) (g : Level → Prop)
    [DecidablePred g] (h0 : 0 ≤ y) (h1 : y < A.height) (h2 : 0 ≤ y2) (h3 : y2 < A.height) :
    ∃ B, (setTile A y x 0).bind (fun L2 => if g L2 then setTile L2 y2 x2 0 else some L2) = some B ∧
      B.width = A.width ∧ B.height = A.height ∧ B.tiles y x = some 0 ∧
      ∀ y' x', A.tiles y' x' = some 0 → B.tiles y' x' = some 0 := by
  obtain ⟨A1, hA1⟩ := setTile_total A y x 0 h0 h1
  obtain ⟨_, t1, w1⟩ := setTile_some hA1
  rw [hA1, Option.some_bind]
  by_cases hg : g A1
  · rw [if_pos hg]
    obtain ⟨B, hB⟩ := setTile_total A1 y2 x2 0 h2 (by rw [w1.2.1]; exact h3)
    obtain ⟨_, _, w2⟩ := setTile_some hB
    exact ⟨B, hB, w2.1.trans w1.1, w2.2.1.trans w1.2.1, w2.stable t1,
      fun y' x' h => w2.stable (w1.stable h)⟩
  · rw [if_neg hg]
    exact ⟨A1, rfl, w1.1, w1.2.1, t1, fun y' x' h => w1.stable h⟩

theorem carveHorizontal_total (L : Level) (x1 x2 y : Int) (hy0 : 0 < y)
    (hy1 : y < L.height - 1) :
    ∃ M, carveHorizontal L x1 x2 y = some M ∧
      ∀ x, min x1 x2 ≤ x → x ≤ max x1 x2 → M.tiles y x = some 0 := by
  unfold carveHorizontal
  obtain ⟨M, hM, _, hQ, _⟩ := forEachM_total (fun s : Level => s.height = L.height)
    (fun x s => s.tiles y x = some 0)
    (fun x L1 =>
      if y > 0 ∧ y < L1.height - 1 then
        (setTile L1 y x 0).bind (fun L2 =>
          if y + 1 < L2.height - 1 then setTile L2 (y + 1) x 0 else some L2)
      else some L1)
    (intRange (min x1 x2) (max x1 x2 + 1)) (by
      intro x _ s hs
      dsimp only
      rw [if_pos ⟨hy0, by rw [hs]; exact hy1⟩]
      obtain ⟨B, hB, _, hh, ht, hst⟩ := twoWrites_total s y x (y + 1) x
        (fun L2 => y + 1 < L2.height - 1) (by omega) (by omega) (by omega) (by omega)
      exact ⟨B, hB, hh.trans hs, ht, fun z hz => hst _ _ hz⟩) L rfl
  exact ⟨M, hM, fun x h1 h2 => hQ x (mem_intRange.mpr ⟨h1, by omega⟩)⟩

theorem carveVertical_total (L : Level) (y1 y2 x : Int) (hx0 : 0 < x)
    (hx1 : x < L.width - 1) (hlo : 0 ≤ min y1 y2) (hhi : max y1 y2 < L.height) :
    ∃ M, carveVertical L y1 y2 x = some M ∧
      ∀ y, min y1 y2 ≤ y → y ≤ max y1 y2 → M.tiles y x = some 0 := by
  unfold carveVertical
  obtain ⟨M, hM, _, hQ, _⟩ := forEachM_total
    (fun s : Level => s.width = L.width ∧ s.height = L.height)
    (fun y s => s.tiles y x = some 0)
    (fun y L1 =>
      if x > 0 ∧ x < L1.width - 1 then
        (setTile L1 y x 0).bind (fun L2 =>
          if x + 1 < L2.width - 1 then setTile L2 y (x + 1) 0 else some L2)
      else some L1)
    (intRange (min y1 y2) (max y1 y2 + 1)) (by
      intro y hy s hs
      rw [mem_intRange] at hy
      dsimp only
      rw [if_pos ⟨hx0, by rw [hs.1]; exact hx1⟩]
      obtain ⟨B, hB, hw, hh, ht, hst⟩ := twoWrites_total s y x y (x + 1)
        (fun L2 => x + 1 < L2.width - 1) (by omega) (by rw [hs.2]; omega) (by omega)
        (by rw [hs.2]; omega)
      exact ⟨B, hB, ⟨hw.trans hs.1, hh.trans hs.2⟩, ht, fun z hz => hst _ _ hz⟩) L ⟨rfl, rfl⟩
  exact ⟨M, hM, fun y h1 h2 => hQ y (mem_intRange.mpr ⟨h1, by omega⟩)⟩

end Loops

/-! ## Rooms -/

section Rooms

variable {α : Type} [LinearOrderedField α] [FloorRing α]

theorem floor_scale_bounds (r : α) (w : Int) (hw : 1 ≤ w) (h0 : 0 ≤ r) (h1 : r < 1) :
    0 ≤ ⌊(w : α) * (0.6 + r * 0.3)⌋ ∧ ⌊(w : α) * (0.6 + r * 0.3)⌋ < w := by
  have hw' : (1 : α) ≤ (w : α) := by exact_mod_cast hw
  constructor
  · apply Int.floor_nonneg.mpr
    have : (0 : α) ≤ 0.6 + r * 0.3 := by norm_num; nlinarith
    exact mul_nonneg (by linarith) this
  · rw [Int.floor_lt]
    norm_num
    nlinarith

theorem floor_offset_bounds (r : α) (n : Int) (hn : 1 ≤ n) (h0 : 0 ≤ r) (h1 : r < 1) :
    0 ≤ ⌊r * (n : α)⌋ ∧ ⌊r * (n : α)⌋ < n := by
  have hn' : (1 : α) ≤ (n : α) := by exact_mod_cast hn
  constructor
  · exact Int.floor_nonneg.mpr (mul_nonneg h0 (by linarith))
  · rw [Int.floor_lt]
    nlinarith

theorem leafRoom_bounds (rnd : Nat → α) (hr : ValidRnd rnd) (x y w h : Int) (k : Nat)
    (hw : 1 ≤ w) (hh : 1 ≤ h) :
    x ≤ (leafRoom rnd x y w h k).x ∧ y ≤ (leafRoom rnd x y w h k).y ∧
    (leafRoom rnd x y w h k).x + (leafRoom rnd x y w h k).w < x + w ∧
    (leafRoom rnd x y w h k).y + (leafRoom rnd x y w h k).h < y + h ∧
    0 ≤ (leafRoom rnd x y w h k).w ∧ 0 ≤ (leafRoom rnd x y w h k).h := by
  have a1 := floor_scale_bounds (rnd k) w hw (hr k).1 (hr k).2
  have a2 := floor_scale_bounds (rnd (k + 1)) h hh (hr (k + 1)).1 (hr (k + 1)).2
  have b1 := floor_offset_bounds (rnd (k + 2)) (w - ⌊(w : α) * (0.6 + rnd k * 0.3)⌋)
    (by omega) (hr (k + 2)).1 (hr (k + 2)).2
  have b2 := floor_offset_bounds (rnd (k + 3)) (h - ⌊(h : α) * (0.6 + rnd (k + 1) * 0.3)⌋)
    (by omega) (hr (k + 3)).1 (hr (k + 3)).2
  simp only [leafRoom]
  omega

theorem createRooms_leaf {rnd : Nat → α} {x y w h : Int} {s s' : Level × Nat}
    (hc : createRooms rnd (.mk x y w h .null .null) s = some s') :
    s'.1.rooms = s.1.rooms ++ [leafRoom rnd x y w h s.2] ∧ s'.2 = s.2 + 4 ∧
      Writes 0 (fun y' x' => (leafRoom rnd x y w h s.2).contains x' y') s.1 s'.1 := by
  simp only [createRooms, Node.truthy, Bool.or_self, Bool.false_eq_true, if_false,
    Option.map_eq_some'] at hc
  obtain ⟨M, hM, rfl⟩ := hc
  obtain ⟨hr, hw⟩ := carveRoom_rel hM
  exact ⟨hr, rfl, hw⟩

/-- Whenever `createRooms` returns, it has appended one room per leaf of the tree. -/
theorem createRooms_appends (rnd : Nat → α) :
    ∀ (t : Node) (s s' : Level × Nat), createRooms rnd t s = some s' →
      ∃ new, s'.1.rooms = s.1.rooms ++ new ∧ new.length = t.leaves.length := by
  intro t
  induction t with
  | null =>
    intro s s' h
    simp only [createRooms, Option.some.injEq] at h
    subst h
    exact ⟨[], by simp, rfl⟩
  | mk x y w h l r ihl ihr =>
    intro s s' hc
    by_cases ht : (l.truthy || r.truthy) = true
    · simp only [createRooms, ht, if_true] at hc
      cases h1 : createRooms rnd l s with
      | none => rw [h1] at hc; simp at hc
      | some s1 =>
        rw [h1, Option.some_bind] at hc
        obtain ⟨n1, e1, l1⟩ := ihl s s1 h1
        obtain ⟨n2, e2, l2⟩ := ihr s1 s' hc
        refine ⟨n1 ++ n2, by rw [e2, e1, List.append_assoc], ?_⟩
        simp only [Node.leaves, ht, if_true, List.length_append, l1, l2]
    · have hl : l = .null := by
        cases l with
        | null => rfl
        | mk => simp [Node.truthy] at ht
      have hr : r = .null := by
        cases r with
        | null => rfl
        | mk => simp [Node.truthy] at ht
      subst hl hr
      exact ⟨[leafRoom rnd x y w h s.2], (createRooms_leaf hc).1, by
        simp [Node.leaves, Node.truthy]⟩

/-- On a `W x H` grid, `createRooms` succeeds on a tree whose leaves have positive sides and lie
off the outermost ring; the new rooms lie off the ring and only Inner cells are carved. -/
theorem createRooms_inner (rnd : Nat → α) (hrnd : ValidRnd rnd) (W H : Int) :
    ∀ (t : Node),
      (∀ leaf ∈ t.leaves, 1 ≤ leaf.x ∧ leaf.x + leaf.w ≤ W - 1 ∧ 1 ≤ leaf.y ∧
        leaf.y + leaf.h ≤ H - 1 ∧ 1 ≤ leaf.w ∧ 1 ≤ leaf.h) →
      ∀ s : Level × Nat, s.1.width = W → s.1.height = H →
        ∃ s' new, createRooms rnd t s = some s' ∧ s'.1.rooms = s.1.rooms ++ new ∧
          new.length = t.leaves.length ∧ (∀ r ∈ new, RoomOK W H r) ∧
          Writes 0 (Inner W H) s.1 s'.1 := by
  intro t
  induction t with
  | null =>
    intro _ s _ _
    exact ⟨s, [], rfl, by simp, rfl, by simp, Writes.refl _ _ _⟩
  | mk x y w h l r ihl ihr =>
    intro hleaves s hW hH
    by_cases ht : (l.truthy || r.truthy) = true
    · simp only [Node.leaves, ht, if_true, List.mem_append] at hleaves
      obtain ⟨s1, n1, c1, e1, l1, ok1, w1⟩ := ihl (fun lf hlf => hleaves lf (Or.inl hlf)) s hW hH
      obtain ⟨s2, n2, c2, e2, l2, ok2, w2⟩ := ihr (fun lf hlf => hleaves lf (Or.inr hlf)) s1
        (w1.1.trans hW) (w1.2.1.trans hH)
      refine ⟨s2, n1 ++ n2, ?_, by rw [e2, e1, List.append_assoc], ?_, ?_, w1.andThen w2⟩
      · simp only [createRooms, ht, if_true, c1, Option.some_bind, c2]
      · simp only [Node.leaves, ht, if_true, List.length_append, l1, l2]
      · intro q hq
        rcases List.mem_append.mp hq with hq | hq
        · exact ok1 q hq
        · exact ok2 q hq
    · have hl : l = .null := by
        cases l with
        | null => rfl
        | mk => simp [Node.truthy] at ht
      have hr : r = .null := by
        cases r with
        | null => rfl
        | mk => simp [Node.truthy] at ht
      subst hl hr
      have hlf := hleaves ⟨x, y, w, h⟩ (by simp [Node.leaves, Node.truthy])
      dsimp only at hlf
      have hb := leafRoom_bounds rnd hrnd x y w h s.2 hlf.2.2.2.2.1 hlf.2.2.2.2.2
      obtain ⟨M, hM⟩ := carveRoom_total { s.1 with rooms := s.1.rooms ++ [leafRoom rnd x y w h s.2] }
        (leafRoom rnd x y w h s.2) (by intro y' h1 h2; dsimp only; omega)
      have hc : createRooms rnd (.mk x y w h .null .null) s = some (M, s.2 + 4) := by
        simp only [createRooms, Node.truthy, Bool.or_self, Bool.false_eq_true, if_false, hM,
          Option.map_some']
      obtain ⟨e, _, wr⟩ := createRooms_leaf hc
      refine ⟨(M, s.2 + 4), [leafRoom rnd x y w h s.2], hc, e, by simp [Node.leaves, Node.truthy],
        ?_, wr.weaken ?_⟩
      · intro q hq
        rw [List.mem_singleton] at hq
        subst hq
        exact ⟨by omega, by omega, by omega, by omega, by omega, by omega⟩
      · intro y' x' hc'
        simp only [Rect.contains] at hc'
        exact ⟨by omega, by omega, by omega, by omega⟩

/-- C4, as the code has it: for a leaf with positive sides and draws in `[0,1)`, the room that
`createRooms` appends for the leaf starts at or after the leaf's left and top sides (it may
touch them), ends strictly before the leaf's right and bottom sides, and has non-negative
sides. -/
theorem createRooms_room_within_leaf (rnd : Nat → α) (hr : ValidRnd rnd) (x y w h : Int)
    (hw : 1 ≤ w) (hh : 1 ≤ h) (s : Level × Nat) :
    (∀ s', createRooms rnd (.mk x y w h .null .null) s = some s' →
      s'.1.rooms = s.1.rooms ++ [leafRoom rnd x y w h s.2]) ∧
    x ≤ (leafRoom rnd x y w h s.2).x ∧ y ≤ (leafRoom rnd x y w h s.2).y ∧
    (leafRoom rnd x y w h s.2).x + (leafRoom rnd x y w h s.2).w < x + w ∧
    (leafRoom rnd x y w h s.2).y + (leafRoom rnd x y w h s.2).h < y + h ∧
    0 ≤ (leafRoom rnd x y w h s.2).w ∧ 0 ≤ (leafRoom rnd x y w h s.2).h :=
  ⟨fun _ hc => (createRooms_leaf hc).1, leafRoom_bounds rnd hr x y w h s.2 hw hh⟩

/-- The leaf `{1, 1, 5, 5}` on a 7x7 grid of walls, with every draw equal to `1/2`. -/
theorem createRooms_room_within_leaf_witness :
    (∀ s', createRooms (fun _ => (1 / 2 : ℚ)) (.mk 1 1 5 5 .null .null) (wallLevel 7 7, 0)
        = some s' →
      s'.1.rooms = (wallLevel 7 7).rooms ++ [leafRoom (fun _ => (1 / 2 : ℚ)) 1 1 5 5 0]) ∧
    1 ≤ (leafRoom (fun _ => (1 / 2 : ℚ)) 1 1 5 5 0).x ∧
    1 ≤ (leafRoom (fun _ => (1 / 2 : ℚ)) 1 1 5 5 0).y ∧
    (leafRoom (fun _ => (1 / 2 : ℚ)) 1 1 5 5 0).x + (leafRoom (fun _ => (1 / 2 : ℚ)) 1 1 5 5 0).w
      < 1 + 5 ∧
    (leafRoom (fun _ => (1 / 2 : ℚ)) 1 1 5 5 0).y + (leafRoom (fun _ => (1 / 2 : ℚ)) 1 1 5 5 0).h
      < 1 + 5 ∧
    0 ≤ (leafRoom (fun _ => (1 / 2 : ℚ)) 1 1 5 5 0).w ∧
    0 ≤ (leafRoom (fun _ => (1 / 2 : ℚ)) 1 1 5 5 0).h :=
  createRooms_room_within_leaf (fun _ => (1 / 2 : ℚ)) (fun _ => ⟨by norm_num, by norm_num⟩)
    1 1 5 5 (by norm_num) (by norm_num) (wallLevel 7 7, 0)

/-- C4 fails on the left and top sides: for the leaf `{1, 1, 5, 5}` on a 7x7 grid of walls, with
every draw equal to `0`, `createRooms` returns and appends the room `{1, 1, 3, 3}`, whose left
column and top row are the leaf's own. -/
theorem createRooms_room_touches_leaf :
    ∃ s', createRooms (fun _ => (0 : ℚ)) (.mk 1 1 5 5 .null .null) (wallLevel 7 7, 0) = some s' ∧
      s'.1.rooms = [⟨1, 1, 3, 3⟩] ∧
      ¬ ((1 : Int) < (Rect.mk 1 1 3 3).x ∧ (1 : Int) < (Rect.mk 1 1 3 3).y ∧
        (Rect.mk 1 1 3 3).x + (Rect.mk 1 1 3 3).w < 1 + 5 ∧
        (Rect.mk 1 1 3 3).y + (Rect.mk 1 1 3 3).h < 1 + 5) := by
  have hroom : leafRoom (fun _ => (0 : ℚ)) 1 1 5 5 0 = ⟨1, 1, 3, 3⟩ := by
    simp only [leafRoom]
    norm_num
  obtain ⟨s', new, hc, _, _, _, _⟩ := createRooms_inner (fun _ => (0 : ℚ))
    (fun _ => ⟨by norm_num, by norm_num⟩) 7 7 (.mk 1 1 5 5 .null .null)
    (by
      intro leaf hleaf
      simp only [Node.leaves, Node.truthy, Bool.or_self, Bool.false_eq_true, if_false,
        List.mem_singleton] at hleaf
      subst hleaf
      norm_num)
    (wallLevel 7 7, 0) rfl rfl
  refine ⟨s', hc, ?_, by norm_num⟩
  have := (createRooms_leaf hc).1
  rw [hroom] at this
  simpa [wallLevel] using this

end Rooms

/-! ## Floor paths -/

section Paths

theorem FloorStep.flip {L : Level} {p q : Int × Int} (h : FloorStep L p q) : FloorStep L q p := by
  obtain ⟨h1, h2, h3⟩ := h
  refine ⟨?_, h3, h2⟩
  omega

theorem floorPath_symm {L : Level} {p q : Int × Int}
    (h : Relation.ReflTransGen (FloorStep L) p q) : Relation.ReflTransGen (FloorStep L) q p :=
  Relation.ReflTransGen.symmetric (fun _ _ hh => FloorStep.flip hh) h

theorem FloorConnected.reverse {L : Level} {p q : Int × Int} (h : FloorConnected L p q) :
    FloorConnected L q p :=
  ⟨h.2.1, h.1, floorPath_symm h.2.2⟩

theorem FloorConnected.append {L : Level} {p q r : Int × Int} (h1 : FloorConnected L p q)
    (h2 : FloorConnected L q r) : FloorConnected L p r :=
  ⟨h1.1, h2.2.1, h1.2.2.trans h2.2.2⟩

theorem FloorConnected.lift {L M : Level} {p q : Int × Int}
    (hLM : ∀ y x, L.tiles y x = some 0 → M.tiles y x = some 0) (h : FloorConnected L p q) :
    FloorConnected M p q :=
  ⟨hLM _ _ h.1, hLM _ _ h.2.1,
    Relation.ReflTransGen.mono (fun _ _ hs => ⟨hs.1, hLM _ _ hs.2.1, hLM _ _ hs.2.2⟩) h.2.2⟩

theorem hline_right (L : Level) (y : Int) :
    ∀ (n : Nat) (x1 : Int), (∀ x, x1 ≤ x → x ≤ x1 + n → L.tiles y x = some 0) →
      Relation.ReflTransGen (FloorStep L) (x1, y) (x1 + n, y) := by
  intro n
  induction n with
  | zero => intro x1 _; simp only [Nat.cast_zero, add_zero]; exact Relation.ReflTransGen.refl
  | succ n ih =>
    intro x1 h
    refine Relation.ReflTransGen.tail (ih x1 (fun x h1 h2 => h x h1 (by push_cast; omega))) ?_
    refine ⟨Or.inr ⟨rfl, Or.inr (by push_cast; ring)⟩, h _ (by omega) (by push_cast; omega),
      h _ (by push_cast; omega) (by push_cast; omega)⟩

theorem vline_down (L : Level) (x : Int) :
    ∀ (n : Nat) (y1 : Int), (∀ y, y1 ≤ y → y ≤ y1 + n → L.tiles y x = some 0) →
      Relation.ReflTransGen (FloorStep L) (x, y1) (x, y1 + n) := by
  intro n
  induction n with
  | zero => intro y1 _; simp only [Nat.cast_zero, add_zero]; exact Relation.ReflTransGen.refl
  | succ n ih =>
    intro y1 h
    refine Relation.ReflTransGen.tail (ih y1 (fun y h1 h2 => h y h1 (by push_cast; omega))) ?_
    refine ⟨Or.inl ⟨rfl, Or.inr (by push_cast; ring)⟩, h _ (by omega) (by push_cast; omega),
      h _ (by push_cast; omega) (by push_cast; omega)⟩

/-- A row segment of Floor cells connects its two ends, whichever end comes first. -/
theorem hline_connected (L : Level) (y x1 x2 : Int)
    (h : ∀ x, min x1 x2 ≤ x → x ≤ max x1 x2 → L.tiles y x = some 0) :
    FloorConnected L (x1, y) (x2, y) := by
  refine ⟨h x1 (min_le_left _ _) (le_max_left _ _), h x2 (min_le_right _ _) (le_max_right _ _), ?_⟩
  rcases le_total x1 x2 with hle | hle
  · have := hline_right L y (x2 - x1).toNat x1 (fun x h1 h2 => h x (by omega) (by omega))
    rwa [show x1 + ((x2 - x1).toNat : Int) = x2 by omega] at this
  · have := hline_right L y (x1 - x2).toNat x2 (fun x h1 h2 => h x (by omega) (by omega))
    rw [show x2 + ((x1 - x2).toNat : Int) = x1 by omega] at this
    exact floorPath_symm this

/-- A column segment of Floor cells connects its two ends, whichever end comes first. -/
theorem vline_connected (L : Level) (x y1 y2 : Int)
    (h : ∀ y, min y1 y2 ≤ y → y ≤ max y1 y2 → L.tiles y x = some 0) :
    FloorConnected L (x, y1) (x, y2) := by
  refine ⟨h y1 (min_le_left _ _) (le_max_left _ _), h y2 (min_le_right _ _) (le_max_right _ _), ?_⟩
  rcases le_total y1 y2 with hle | hle
  · have := vline_down L x (y2 - y1).toNat y1 (fun y h1 h2 => h y (by omega) (by omega))
    rwa [show y1 + ((y2 - y1).toNat : Int) = y2 by omega] at this
  · have := vline_down L x (y1 - y2).toNat y2 (fun y h1 h2 => h y (by omega) (by omega))
    rw [show y2 + ((y1 - y2).toNat : Int) = y1 by omega] at this
    exact floorPath_symm this

end Paths

/-! ## Corridors, cover markers and the whole generation -/

section Corridors

variable {α : Type} [LinearOrderedField α] [FloorRing α]

theorem floor_half_bounds (w : Int) (hw : 0 ≤ w) :
    0 ≤ ⌊(w : α) / 2⌋ ∧ ⌊(w : α) / 2⌋ ≤ w := by
  have hw' : (0 : α) ≤ (w : α) := by exact_mod_cast hw
  constructor
  · exact Int.floor_nonneg.mpr (by positivity)
  · have h1 : ((⌊(w : α) / 2⌋ : Int) : α) ≤ (w : α) / 2 := Int.floor_le _
    have h2 : ((⌊(w : α) / 2⌋ : Int) : α) ≤ (w : α) := by linarith
    exact_mod_cast h2

theorem centerCell_eq (a : Rect) :
    centerCell α a = (a.x + ⌊(a.w : α) / 2⌋, a.y + ⌊(a.h : α) / 2⌋) := by
  simp only [centerCell, Int.floor_int_add]

theorem centerCell_inner {W H : Int} {a : Rect} (h : RoomOK W H a) :
    Inner W H (centerCell α a).2 (centerCell α a).1 := by
  obtain ⟨h1, h2, h3, h4, h5, h6⟩ := h
  have a1 := floor_half_bounds (α := α) a.w h2
  have a2 := floor_half_bounds (α := α) a.h h5
  rw [centerCell_eq]
  exact ⟨by dsimp only; omega, by dsimp only; omega, by dsimp only; omega, by dsimp only; omega⟩

/-- One corridor on a `W x H` grid between rooms off the outermost ring: the iteration
succeeds, overwrites only Inner cells with Floor, and leaves the two centres Floor-connected. -/
theorem connectPair_total (rnd : Nat → α) (W H : Int) (a b : Rect) (ha : RoomOK W H a)
    (hb : RoomOK W H b) (s : Level × Nat) (hW : s.1.width = W) (hH : s.1.height = H) :
    ∃ s', connectPair rnd a b s = some s' ∧ s'.1.rooms = s.1.rooms ∧
      Writes 0 (Inner W H) s.1 s'.1 ∧
      FloorConnected s'.1 (centerCell α a) (centerCell α b) := by
  obtain ⟨ay1, ay2, ax1, ax2⟩ := centerCell_inner (α := α) ha
  obtain ⟨by1, by2, bx1, bx2⟩ := centerCell_inner (α := α) hb
  unfold connectPair
  dsimp only
  by_cases hc : rnd s.2 > 0.5
  · rw [if_pos hc]
    obtain ⟨M1, hM1, f1⟩ := carveHorizontal_total s.1 (centerCell α a).1 (centerCell α b).1
      (centerCell α a).2 (by omega) (by omega)
    obtain ⟨r1, w1⟩ := carveHorizontal_rel (W := W) (H := H) (by omega) (by omega) hM1 hW hH
    obtain ⟨M2, hM2, f2⟩ := carveVertical_total M1 (centerCell α a).2 (centerCell α b).2
      (centerCell α b).1 (by omega) (by rw [w1.1]; omega) (by omega) (by rw [w1.2.1]; omega)
    obtain ⟨r2, w2⟩ := carveVertical_rel (W := W) (H := H) (by omega) (by omega) hM2
      (w1.1.trans hW) (w1.2.1.trans hH)
    refine ⟨(M2, s.2 + 1), ?_, r2.trans r1, w1.andThen w2, ?_⟩
    · simp only [hM1, Option.some_bind, hM2, Option.map_some']
    · exact (hline_connected M2 _ _ _ (fun x h1 h2 => w2.stable (f1 x h1 h2))).append
        (vline_connected M2 _ _ _ f2)
  · rw [if_neg hc]
    obtain ⟨M1, hM1, f1⟩ := carveVertical_total s.1 (centerCell α a).2 (centerCell α b).2
      (centerCell α a).1 (by omega) (by omega) (by omega) (by omega)
    obtain ⟨r1, w1⟩ := carveVertical_rel (W := W) (H := H) (by omega) (by omega) hM1 hW hH
    obtain ⟨M2, hM2, f2⟩ := carveHorizontal_total M1 (centerCell α a).1 (centerCell α b).1
      (centerCell α b).2 (by omega) (by rw [w1.2.1]; omega)
    obtain ⟨r2, w2⟩ := carveHorizontal_rel (W := W) (H := H) (by omega) (by omega) hM2
      (w1.1.trans hW) (w1.2.1.trans hH)
    refine ⟨(M2, s.2 + 1), ?_, r2.trans r1, w1.andThen w2, ?_⟩
    · simp only [hM1, Option.some_bind, hM2, Option.map_some']
    · exact (vline_connected M2 _ _ _ (fun y h1 h2 => w2.stable (f1 y h1 h2))).append
        (hline_connected M2 _ _ _ f2)

/-- The corridor loop on a `W x H` grid over rooms off the outermost ring: it succeeds,
overwrites only Inner cells with Floor, and leaves the centres of every two consecutive rooms
Floor-connected. -/
theorem connectFrom_total (rnd : Nat → α) (W H : Int) :
    ∀ (rooms : List Rect), (∀ r ∈ rooms, RoomOK W H r) →
      ∀ s : Level × Nat, s.1.width = W → s.1.height = H →
        ∃ s', connectFrom rnd rooms s = some s' ∧ s'.1.rooms = s.1.rooms ∧
          Writes 0 (Inner W H) s.1 s'.1 ∧
          ∀ (i : Nat) (a b : Rect), rooms[i]? = some a → rooms[i + 1]? = some b →
            FloorConnected s'.1 (centerCell α a) (centerCell α b) := by
  intro rooms
  induction rooms with
  | nil =>
    intro _ s _ _
    exact ⟨s, rfl, rfl, Writes.refl _ _ _, fun i a b h => by simp at h⟩
  | cons a rest ih =>
    intro hok s hW hH
    cases rest with
    | nil =>
      exact ⟨s, rfl, rfl, Writes.refl _ _ _, fun i a' b' _ h => by simp at h⟩
    | cons b rest =>
      obtain ⟨s1, h1, r1, w1, c1⟩ := connectPair_total rnd W H a b
        (hok a (List.mem_cons_self _ _))
        (hok b (List.mem_cons_of_mem _ (List.mem_cons_self _ _))) s hW hH
      obtain ⟨s2, h2, r2, w2, c2⟩ := ih (fun r hr => hok r (List.mem_cons_of_mem _ hr)) s1
        (w1.1.trans hW) (w1.2.1.trans hH)
      refine ⟨s2, ?_, r2.trans r1, w1.andThen w2, ?_⟩
      · simp only [connectFrom, h1, Option.some_bind, h2]
      · intro i a' b' hi hi'
        cases i with
        | zero =>
          simp only [List.getElem?_cons_zero, Option.some.injEq, zero_add,
            List.getElem?_cons_succ] at hi hi'
          subst hi hi'
          exact c1.lift (fun y x h => w2.stable h)
        | succ i =>
          rw [List.getElem?_cons_succ] at hi hi'
          exact c2 i a' b' hi hi'

/-- The cover loop on a `W x H` grid over rooms off the outermost ring: it succeeds and
overwrites only Inner cells, with Cover. -/
theorem detailsFrom_total (rnd : Nat → α) (W H : Int) :
    ∀ (rooms : List Rect), (∀ r ∈ rooms, RoomOK W H r) →
      ∀ s : Level × Nat, s.1.width = W → s.1.height = H →
        ∃ s', detailsFrom rnd rooms s = some s' ∧ s'.1.rooms = s.1.rooms ∧
          Writes 2 (Inner W H) s.1 s'.1 := by
  intro rooms
  induction rooms with
  | nil =>
    intro _ s _ _
    exact ⟨s, rfl, rfl, Writes.refl _ _ _⟩
  | cons a rest ih =>
    intro hok s hW hH
    by_cases hc : rnd s.2 > 0.5
    · have hin := centerCell_inner (α := α) (hok a (List.mem_cons_self _ _))
      rw [centerCell_eq] at hin
      dsimp only at hin
      obtain ⟨M, hM⟩ := setTile_total s.1 (a.y + ⌊(a.h : α) / 2⌋) (a.x + ⌊(a.w : α) / 2⌋) 2
        (by have := hin.1; omega) (by have := hin.2.1; omega)
      obtain ⟨r1, _, w1⟩ := setTile_some hM
      have w1' : Writes 2 (Inner W H) s.1 M := w1.weaken (by rintro y' x' ⟨rfl, rfl⟩; exact hin)
      obtain ⟨s2, h2, r2, w2⟩ := ih (fun r hr => hok r (List.mem_cons_of_mem _ hr)) (M, s.2 + 1)
        (w1.1.trans hW) (w1.2.1.trans hH)
      refine ⟨s2, ?_, r2.trans r1, w1'.andThen w2⟩
      simp only [detailsFrom, hc, if_true, hM, Option.some_bind, h2]
    · obtain ⟨s2, h2, r2, w2⟩ := ih (fun r hr => hok r (List.mem_cons_of_mem _ hr)) (s.1, s.2 + 1)
        hW hH
      exact ⟨s2, by simp only [detailsFrom, hc, if_false, h2], r2, w2⟩

/-- The first loop nest of `generate` succeeds, keeps the size and the room list, and leaves
Wall in every cell of the grid. -/
theorem initTiles_total (L : Level) :
    ∃ M, initTiles L = some M ∧ M.width = L.width ∧ M.height = L.height ∧ M.rooms = L.rooms ∧
      ∀ y x, 0 ≤ y → y < L.height → 0 ≤ x → x < L.width → M.tiles y x = some 1 := by
  unfold initTiles
  obtain ⟨M, hM, hI, hQ, _⟩ := forEachM_total
    (fun s : Level => s.width = L.width ∧ s.height = L.height ∧ s.rooms = L.rooms)
    (fun y s => ∀ x, 0 ≤ x → x < L.width → s.tiles y x = some 1)
    (fun y L1 => forEachM (fun x L2 => setTile L2 y x 1) (intRange 0 L1.width) (clearRow L1 y))
    (intRange 0 L.height) (by
      intro y hy s hs
      rw [mem_intRange] at hy
      obtain ⟨s', hs', hI', hQ', _⟩ := forEachM_total
        (fun t : Level => t.width = L.width ∧ t.height = L.height ∧ t.rooms = L.rooms ∧
          ∀ y' x', y' ≠ y → t.tiles y' x' = s.tiles y' x')
        (fun x t => t.tiles y x = some 1)
        (fun x L2 => setTile L2 y x 1) (intRange 0 s.width) (by
          intro x _ t ht
          obtain ⟨t', ht'⟩ := setTile_total t y x 1 hy.1 (by rw [ht.2.1]; exact hy.2)
          obtain ⟨r1, v1, w1⟩ := setTile_some ht'
          refine ⟨t', ht', ⟨w1.1.trans ht.1, w1.2.1.trans ht.2.1, r1.trans ht.2.2.1, ?_⟩, v1,
            fun z hz => w1.stable hz⟩
          intro y' x' hne
          rw [w1.frame (fun hh => hne hh.1)]
          exact ht.2.2.2 y' x' hne)
        (clearRow s y) ⟨hs.1, hs.2.1, hs.2.2, fun y' x' hne => by simp [clearRow, hne]⟩
      refine ⟨s', hs', ⟨hI'.1, hI'.2.1, hI'.2.2.1⟩, ?_, ?_⟩
      · intro x h0 h1
        exact hQ' x (mem_intRange.mpr ⟨h0, by rw [hs.1]; exact h1⟩)
      · intro z hz x h0 h1
        by_cases hzy : z = y
        · subst hzy
          exact hQ' x (mem_intRange.mpr ⟨h0, by rw [hs.1]; exact h1⟩)
        · rw [hI'.2.2.2 z x hzy]
          exact hz x h0 h1) L ⟨rfl, rfl, rfl⟩
  exact ⟨M, hM, hI.1, hI.2.1, hI.2.2, fun y x h0 h1 h2 h3 => hQ y (mem_intRange.mpr ⟨h0, h1⟩) x h2 h3⟩

theorem not_inner_of_border {W H y x : Int} (h : Border W H y x) : ¬ Inner W H y x := by
  unfold Border at h
  unfold Inner
  omega

/-- The passes of `generate` up to `connectRooms`, on a grid of at least `3 x 3` cells with
draws in `[0,1)`: they succeed, create one room per leaf of the partition tree, all off the
outermost ring, leave the ring Wall, and connect the centres of consecutive rooms by Floor. -/
theorem generateCore_total (rnd : Nat → α) (hr : ValidRnd rnd) (W H : Int) (hW : 3 ≤ W)
    (hH : 3 ≤ H) (d : Nat) :
    ∃ s, generateCore rnd W H d = some s ∧ s.1.width = W ∧ s.1.height = H ∧
      s.1.rooms.length = (splitNode rnd d 1 1 (W - 2) (H - 2) 0).1.leaves.length ∧
      (∀ r ∈ s.1.rooms, RoomOK W H r) ∧
      (∀ y x, Border W H y x → s.1.tiles y x = some 1) ∧
      (∀ (i : Nat) (a b : Rect), s.1.rooms[i]? = some a → s.1.rooms[i + 1]? = some b →
        FloorConnected s.1 (centerCell α a) (centerCell α b)) := by
  obtain ⟨L, hL, lw, lh, lr, lt⟩ := initTiles_total
    { width := W, height := H, tiles := fun _ _ => none, rooms := [] }
  dsimp only at lw lh lr lt
  have hb := splitNode_bsp rnd d 1 1 (W - 2) (H - 2) 0
  have hin := hb.leaves_within _ (splitNode_rect ..) (by dsimp only; omega) (by dsimp only; omega)
  dsimp only at hin
  obtain ⟨s1, new, c1, e1, l1, ok1, w1⟩ := createRooms_inner rnd hr W H
    (splitNode rnd d 1 1 (W - 2) (H - 2) 0).1
    (fun leaf hleaf => by have := hin leaf hleaf; omega)
    (L, (splitNode rnd d 1 1 (W - 2) (H - 2) 0).2) lw lh
  rw [lr, List.nil_append] at e1
  obtain ⟨s2, c2, r2, w2, p2⟩ := connectFrom_total rnd W H s1.1.rooms
    (fun r hr' => ok1 r (by rwa [e1] at hr')) s1 (w1.1.trans lw) (w1.2.1.trans lh)
  refine ⟨s2, ?_, w2.1.trans (w1.1.trans lw), w2.2.1.trans (w1.2.1.trans lh), ?_, ?_, ?_, ?_⟩
  · simp only [generateCore, hL, Option.some_bind, c1, connectRooms, c2]
  · rw [r2, e1, l1]
  · intro r hr'
    rw [r2, e1] at hr'
    exact ok1 r hr'
  · intro y x hbd
    rw [w2.frame (not_inner_of_border hbd), w1.frame (not_inner_of_border hbd)]
    exact lt y x hbd.1 hbd.2.1 hbd.2.2.1 hbd.2.2.2.1
  · intro i a b hi hi'
    rw [r2] at hi hi'
    exact p2 i a b hi hi'

/-- The level constructor on a grid of at least `3 x 3` cells with draws in `[0,1)`: `generate`
succeeds; `addDetails` keeps the room list and overwrites only Inner cells, with Cover. -/
theorem generate_total (rnd : Nat → α) (hr : ValidRnd rnd) (W H : Int) (hW : 3 ≤ W)
    (hH : 3 ≤ H) :
    ∃ c s, generateCore rnd W H 4 = some c ∧ generate rnd W H = some s ∧
      s.1.rooms = c.1.rooms ∧ s.1.width = W ∧ s.1.height = H ∧
      Writes 2 (Inner W H) c.1 s.1 := by
  obtain ⟨c, hc, cw, ch, _, ok, _, _⟩ := generateCore_total rnd hr W H hW hH 4
  obtain ⟨s, hs, rs, ws⟩ := detailsFrom_total rnd W H c.1.rooms ok c cw ch
  exact ⟨c, s, hc, by simp only [generate, hc, Option.some_bind, addDetails, hs], rs,
    ws.1.trans cw, ws.2.1.trans ch, ws⟩

omit [FloorRing α] in
theorem validRnd_const (c : α) (h0 : 0 ≤ c) (h1 : c < 1) : ValidRnd (fun _ : Nat => c) :=
  fun _ => ⟨h0, h1⟩

/-- C1, as the code has it: on every grid of at least `3 x 3` cells and for all draws in
`[0,1)`, `generate` returns a level in which every cell with `x` in `{0, width-1}` or `y` in
`{0, height-1}` holds Wall (`1`). -/
theorem generate_border_wall (rnd : Nat → α) (hr : ValidRnd rnd) (W H : Int) (hW : 3 ≤ W)
    (hH : 3 ≤ H) :
    ∃ s, generate rnd W H = some s ∧ s.1.width = W ∧ s.1.height = H ∧
      ∀ x y : Int, 0 ≤ x → x < W → 0 ≤ y → y < H →
        (x = 0 ∨ x = W - 1 ∨ y = 0 ∨ y = H - 1) → s.1.tiles y x = some 1 := by
  obtain ⟨c, hc, cw, ch, _, _, cb, _⟩ := generateCore_total rnd hr W H hW hH 4
  obtain ⟨c', s, hc', hs, _, sw, sh, ws⟩ := generate_total rnd hr W H hW hH
  rw [hc] at hc'
  cases hc'
  refine ⟨s, hs, sw, sh, fun x y h1 h2 h3 h4 h5 => ?_⟩
  have hbd : Border W H y x := ⟨h3, h4, h1, h2, h5⟩
  rw [ws.frame (not_inner_of_border hbd)]
  exact cb y x hbd

/-- The 50x40 level of `init`, with every draw equal to `1/2`, has a Wall border. -/
theorem generate_border_wall_witness :
    ∃ s, generate (fun _ => (1 / 2 : ℚ)) 50 40 = some s ∧ s.1.width = 50 ∧ s.1.height = 40 ∧
      ∀ x y : Int, 0 ≤ x → x < 50 → 0 ≤ y → y < 40 →
        (x = 0 ∨ x = 50 - 1 ∨ y = 0 ∨ y = 40 - 1) → s.1.tiles y x = some 1 :=
  generate_border_wall (fun _ => (1 / 2 : ℚ)) (validRnd_const _ (by norm_num) (by norm_num))
    50 40 (by norm_num) (by norm_num)

/-- C1 fails on a grid two cells wide: with every draw equal to `3/4`, `new Level(2, 40)`
returns a level whose border cell `x = 1 = width - 1`, `y = 21` holds Cover (`2`), stored by
`addDetails` at the centre of the single room of width `0`. -/
theorem generate_border_cover_width_two :
    ∃ s, generate (fun _ => (3 / 4 : ℚ)) 2 40 = some s ∧ s.1.width = 2 ∧ s.1.height = 40 ∧
      ((0 : Int) ≤ 1 ∧ (1 : Int) < 2 ∧ (0 : Int) ≤ 21 ∧ (21 : Int) < 40 ∧ (1 : Int) = 2 - 1) ∧
      s.1.tiles 21 1 = some 2 ∧ s.1.tiles 21 1 ≠ some 1 := by
  obtain ⟨L, hL, lw, lh, lr, _⟩ := initTiles_total
    { width := 2, height := 40, tiles := fun _ _ => none, rooms := [] }
  dsimp only at lw lh lr
  have hsplit : splitNode (fun _ => (3 / 4 : ℚ)) 4 1 1 (2 - 2) (40 - 2) 0
      = (.mk 1 1 0 38 .null .null, 0) := by
    simp [splitNode]
  have hroom : leafRoom (fun _ => (3 / 4 : ℚ)) 1 1 (2 - 2) (40 - 2) 0 = ⟨1, 6, 0, 31⟩ := by
    simp only [leafRoom]
    norm_num
  obtain ⟨M, hM⟩ := carveRoom_total { L with rooms := L.rooms ++ [⟨1, 6, 0, 31⟩] } ⟨1, 6, 0, 31⟩
    (by intro y h1 h2; dsimp only at h1 h2 ⊢; omega)
  obtain ⟨mr, mw⟩ := carveRoom_rel hM
  dsimp only at mr
  rw [lr, List.nil_append] at mr
  obtain ⟨M2, hM2⟩ := setTile_total M 21 1 2 (by norm_num) (by rw [mw.2.1]; dsimp only; omega)
  obtain ⟨_, t2, w2⟩ := setTile_some hM2
  have hcx : (1 : Int) + ⌊((0 : Int) : ℚ) / 2⌋ = 1 := by norm_num
  have hcy : (6 : Int) + ⌊((31 : Int) : ℚ) / 2⌋ = 21 := by norm_num
  refine ⟨(M2, 5), ?_, ?_, ?_, by norm_num, t2, by rw [t2]; decide⟩
  · simp only [generate, generateCore, hL, Option.some_bind, hsplit, createRooms, Node.truthy,
      Bool.or_self, Bool.false_eq_true, if_false, hroom, hM, Option.map_some', connectRooms, mr,
      connectFrom, addDetails, detailsFrom]
    rw [if_pos (by norm_num), hcx, hcy, hM2]
    rfl
  · rw [w2.1, mw.1]; exact lw
  · rw [w2.2.1, mw.2.1]; exact lh

/-- Consecutive connections chain up: any two rooms at different list positions have
Floor-connected centres. -/
theorem chain_connected (L : Level) (rooms : List Rect)
    (h : ∀ (i : Nat) (a b : Rect), rooms[i]? = some a → rooms[i + 1]? = some b →
      FloorConnected L (centerCell α a) (centerCell α b)) :
    ∀ (n i : Nat) (a b : Rect), rooms[i]? = some a → rooms[i + n + 1]? = some b →
      FloorConnected L (centerCell α a) (centerCell α b) := by
  intro n
  induction n with
  | zero => intro i a b ha hb; exact h i a b ha hb
  | succ n ih =>
    intro i a b ha hb
    cases hc : rooms[i + n + 1]? with
    | none =>
      have hlen := List.getElem?_eq_none_iff.mp hc
      have : rooms[i + (n + 1) + 1]? = none := List.getElem?_eq_none_iff.mpr (by omega)
      rw [this] at hb
      cases hb
    | some c =>
      exact (ih i a c ha hc).append (h (i + n + 1) c b hc hb)

/-- C5: on every grid of at least `3 x 3` cells (in particular the 50x40 level) and for all
draws in `[0,1)`, so for either outcome of every corridor coin flip, the state right after
`connectRooms` exists, and the centre cells of `rooms[i]` and `rooms[i+1]` are joined by a
path of 4-adjacent Floor cells; hence the centres of any two different rooms are joined. -/
theorem connectRooms_centres_connected (rnd : Nat → α) (hr : ValidRnd rnd) (W H : Int)
    (hW : 3 ≤ W) (hH : 3 ≤ H) :
    ∃ s, generateCore rnd W H 4 = some s ∧
      (∀ (i : Nat) (a b : Rect), s.1.rooms[i]? = some a → s.1.rooms[i + 1]? = some b →
        FloorConnected s.1 (centerCell α a) (centerCell α b)) ∧
      (∀ (i j : Nat) (a b : Rect), i ≠ j → s.1.rooms[i]? = some a → s.1.rooms[j]? = some b →
        FloorConnected s.1 (centerCell α a) (centerCell α b)) := by
  obtain ⟨s, hs, _, _, _, _, _, hp⟩ := generateCore_total rnd hr W H hW hH 4
  refine ⟨s, hs, hp, ?_⟩
  intro i j a b hij ha hb
  rcases Nat.lt_or_gt_of_ne hij with hlt | hgt
  · have := chain_connected s.1 s.1.rooms hp (j - i - 1) i a b ha
      (by rw [show i + (j - i - 1) + 1 = j by omega]; exact hb)
    exact this
  · have := chain_connected s.1 s.1.rooms hp (i - j - 1) j b a hb
      (by rw [show j + (i - j - 1) + 1 = i by omega]; exact ha)
    exact this.reverse

/-- The 50x40 level of `init`, with every draw equal to `1/2`: the room centres are
Floor-connected after `connectRooms`. -/
theorem connectRooms_centres_connected_witness :
    ∃ s, generateCore (fun _ => (1 / 2 : ℚ)) 50 40 4 = some s ∧
      (∀ (i : Nat) (a b : Rect), s.1.rooms[i]? = some a → s.1.rooms[i + 1]? = some b →
        FloorConnected s.1 (centerCell ℚ a) (centerCell ℚ b)) ∧
      (∀ (i j : Nat) (a b : Rect), i ≠ j → s.1.rooms[i]? = some a → s.1.rooms[j]? = some b →
        FloorConnected s.1 (centerCell ℚ a) (centerCell ℚ b)) :=
  connectRooms_centres_connected (fun _ => (1 / 2 : ℚ))
    (validRnd_const _ (by norm_num) (by norm_num)) 50 40 (by norm_num) (by norm_num)

/-- C6: `splitNode` is a total function and, for every rectangle, depth and draws, builds a
tree with at least one and at most `2 ^ depth` leaves; whenever `createRooms` returns it has
appended exactly one room per leaf; and for draws in `[0,1)` `generate` on the 50x40 level
returns a level with between 1 and 16 rooms. -/
theorem generate_room_count (rnd : Nat → α) (hr : ValidRnd rnd) :
    (∀ (depth : Nat) (x y w h : Int) (k : Nat),
      1 ≤ (splitNode rnd depth x y w h k).1.leaves.length ∧
      (splitNode rnd depth x y w h k).1.leaves.length ≤ 2 ^ depth) ∧
    (∀ (t : Node) (s s' : Level × Nat), createRooms rnd t s = some s' →
      ∃ new, s'.1.rooms = s.1.rooms ++ new ∧ new.length = t.leaves.length) ∧
    (∃ s, generate rnd 50 40 = some s ∧ 1 ≤ s.1.rooms.length ∧ s.1.rooms.length ≤ 16) := by
  refine ⟨fun depth x y w h k => (splitNode_bsp rnd depth x y w h k).leaves_length,
    createRooms_appends rnd, ?_⟩
  obtain ⟨c, hc, _, _, hlen, _⟩ := generateCore_total rnd hr 50 40 (by norm_num) (by norm_num) 4
  obtain ⟨c', s, hc', hs, hrooms, _⟩ := generate_total rnd hr 50 40 (by norm_num) (by norm_num)
  rw [hc] at hc'
  cases hc'
  have hb := (splitNode_bsp rnd 4 1 1 (50 - 2) (40 - 2) 0).leaves_length
  refine ⟨s, hs, ?_, ?_⟩
  · rw [hrooms, hlen]; exact hb.1
  · rw [hrooms, hlen]; exact hb.2

/-- With every draw equal to `1/2` the 50x40 level has between 1 and 16 rooms. -/
theorem generate_room_count_witness :
    ∃ s, generate (fun _ => (1 / 2 : ℚ)) 50 40 = some s ∧ 1 ≤ s.1.rooms.length ∧
      s.1.rooms.length ≤ 16 :=
  (generate_room_count (fun _ => (1 / 2 : ℚ))
    (validRnd_const _ (by norm_num) (by norm_num))).2.2

/-- When the draw for the first room exceeds `0.5`, the cover loop leaves Cover at the centre
cell of that room. -/
theorem detailsFrom_marks_head (rnd : Nat → α) (W H : Int) (a : Rect) (rest : List Rect)
    (hok : ∀ r ∈ a :: rest, RoomOK W H r) (s : Level × Nat) (hW : s.1.width = W)
    (hH : s.1.height = H) (hc : rnd s.2 > 0.5) :
    ∃ s', detailsFrom rnd (a :: rest) s = some s' ∧
      s'.1.tiles (a.y + ⌊(a.h : α) / 2⌋) (a.x + ⌊(a.w : α) / 2⌋) = some 2 := by
  have hin := centerCell_inner (α := α) (hok a (List.mem_cons_self _ _))
  rw [centerCell_eq] at hin
  dsimp only at hin
  obtain ⟨M, hM⟩ := setTile_total s.1 (a.y + ⌊(a.h : α) / 2⌋) (a.x + ⌊(a.w : α) / 2⌋) 2
    (by have := hin.1; omega) (by have := hin.2.1; omega)
  obtain ⟨_, t1, w1⟩ := setTile_some hM
  obtain ⟨s2, h2, _, w2⟩ := detailsFrom_total rnd W H rest
    (fun r hr => hok r (List.mem_cons_of_mem _ hr)) (M, s.2 + 1)
    (w1.1.trans hW) (w1.2.1.trans hH)
  exact ⟨s2, by simp only [detailsFrom, hc, if_true, hM, Option.some_bind, h2], w2.stable t1⟩

omit [FloorRing α] in
theorem spawn_coord (c : α) : c * CONFIG.tileSize / CONFIG.tileSize = c := by
  unfold CONFIG.tileSize
  field_simp

/-- On the 50x40 level, for draws in `[0,1)`: `generate` returns, `getSpawnPoint` returns a
point, and if the draw that `addDetails` makes for `rooms[0]` exceeds `0.5` then the cell of
the spawn point holds Cover and `isWall` is true there. -/
theorem generate_spawn_marked (rnd : Nat → α) (hr : ValidRnd rnd) :
    ∃ c s p, generateCore rnd 50 40 4 = some c ∧ generate rnd 50 40 = some s ∧
      s.1.getSpawnPoint α = some p ∧
      (rnd c.2 > 0.5 →
        s.1.tiles ⌊p.2 / CONFIG.tileSize⌋ ⌊p.1 / CONFIG.tileSize⌋ = some 2 ∧
        s.1.isWall p.1 p.2 = true) := by
  obtain ⟨c, hc, cw, ch, hlen, ok, _, _⟩ :=
    generateCore_total rnd hr 50 40 (by norm_num) (by norm_num) 4
  obtain ⟨c', s, hc', hs, hrooms, _⟩ := generate_total rnd hr 50 40 (by norm_num) (by norm_num)
  rw [hc] at hc'
  cases hc'
  have hb := (splitNode_bsp rnd 4 1 1 (50 - 2) (40 - 2) 0).leaves_length
  cases hrm : c.1.rooms with
  | nil => rw [hrm] at hlen; simp only [List.length_nil] at hlen; omega
  | cons a rest =>
    refine ⟨c, s, _, hc, hs, by rw [Level.getSpawnPoint, hrooms, hrm], ?_⟩
    intro hdraw
    obtain ⟨s', hs', ht⟩ := detailsFrom_marks_head rnd 50 40 a rest
      (by rw [← hrm]; exact ok) c cw ch hdraw
    have hss : s = s' := by
      have h1 : generate rnd 50 40 = some s' := by
        simp only [generate, hc, Option.some_bind, addDetails, hrm, hs']
      rw [hs] at h1
      exact Option.some.inj h1
    subst hss
    have hcell : s.1.tiles ⌊((a.y : α) + (a.h : α) / 2) * CONFIG.tileSize / CONFIG.tileSize⌋
        ⌊((a.x : α) + (a.w : α) / 2) * CONFIG.tileSize / CONFIG.tileSize⌋ = some 2 := by
      rw [spawn_coord, spawn_coord, Int.floor_int_add, Int.floor_int_add]
      exact ht
    refine ⟨hcell, (isWall_true_iff _ _ _).mpr (Or.inr ?_)⟩
    rw [hcell]
    decide

/-- C7 fails when `addDetails` marks the spawn room: with every draw equal to `3/4`, `generate`
on the 50x40 level returns a level whose spawn point lies in a Cover cell, where `isWall` is
true. -/
theorem generate_spawn_blocked :
    ∃ s p, generate (fun _ => (3 / 4 : ℚ)) 50 40 = some s ∧ s.1.getSpawnPoint ℚ = some p ∧
      s.1.tiles ⌊p.2 / CONFIG.tileSize⌋ ⌊p.1 / CONFIG.tileSize⌋ = some 2 ∧
      s.1.isWall p.1 p.2 = true := by
  obtain ⟨c, s, p, _, hs, hp, h⟩ := generate_spawn_marked (fun _ => (3 / 4 : ℚ))
    (validRnd_const _ (by norm_num) (by norm_num))
  have := h (by norm_num)
  exact ⟨s, p, hs, hp, this.1, this.2⟩

end Corridors

/-! ## Ray casting -/

section Rays

variable {α : Type} [LinearOrderedField α] [FloorRing α]

/-- From the state after `k` iterations, if the samples `k+1, ..., k+n` do not block and sample
`k+n+1` (within the range) blocks, the loop returns that sample. -/
theorem castLoop_hit (L : Level) (dx dy ox oy : α) :
    ∀ (n k : Nat), k + n + 1 ≤ 125 →
      (∀ j : Nat, k < j → j < k + n + 1 →
        L.isWall (ox + (j : α) * dx) (oy + (j : α) * dy) = false) →
      L.isWall (ox + ((k + n + 1 : Nat) : α) * dx) (oy + ((k + n + 1 : Nat) : α) * dy) = true →
      castLoop L dx dy (ox + (k : α) * dx) (oy + (k : α) * dy) (4 * (k : α)) =
        { x := ox + ((k + n + 1 : Nat) : α) * dx, y := oy + ((k + n + 1 : Nat) : α) * dy,
          distance := 4 * ((k + n + 1 : Nat) : α) } := by
  intro n
  induction n with
  | zero =>
    intro k hk _ hwall
    have hlt : (4 : α) * (k : α) < CONFIG.flashlightRange := by
      unfold CONFIG.flashlightRange
      have : (k : α) ≤ 124 := by exact_mod_cast (by omega : k ≤ 124)
      linarith
    have hx : ox + (k : α) * dx + dx = ox + ((k + 0 + 1 : Nat) : α) * dx := by push_cast; ring
    have hy : oy + (k : α) * dy + dy = oy + ((k + 0 + 1 : Nat) : α) * dy := by push_cast; ring
    have hd : (4 : α) * (k : α) + 4 = 4 * ((k + 0 + 1 : Nat) : α) := by push_cast; ring
    rw [castLoop, if_pos hlt, hx, hy, hd, if_pos hwall]
  | succ n ih =>
    intro k hk hfree hwall
    have hlt : (4 : α) * (k : α) < CONFIG.flashlightRange := by
      unfold CONFIG.flashlightRange
      have : (k : α) ≤ 124 := by exact_mod_cast (by omega : k ≤ 124)
      linarith
    have hx : ox + (k : α) * dx + dx = ox + ((k + 1 : Nat) : α) * dx := by push_cast; ring
    have hy : oy + (k : α) * dy + dy = oy + ((k + 1 : Nat) : α) * dy := by push_cast; ring
    have hd : (4 : α) * (k : α) + 4 = 4 * ((k + 1 : Nat) : α) := by push_cast; ring
    have hnot := hfree (k + 1) (by omega) (by omega)
    rw [castLoop, if_pos hlt, hx, hy, hd, hnot]
    simp only [Bool.false_eq_true, if_false]
    have := ih (k + 1) (by omega) (fun j h1 h2 => hfree j (by omega) (by omega))
      (by rw [show k + 1 + n + 1 = k + (n + 1) + 1 by omega]; exact hwall)
    rw [this, show k + 1 + n + 1 = k + (n + 1) + 1 by omega]

/-- From the state after `k` iterations, if none of the samples `k+1, ..., 125` blocks, the
loop runs out of range and returns the sample 125 with the distance `flashlightRange`. -/
theorem castLoop_free (L : Level) (dx dy ox oy : α) :
    ∀ (n k : Nat), k + n = 125 →
      (∀ j : Nat, k < j → j ≤ 125 →
        L.isWall (ox + (j : α) * dx) (oy + (j : α) * dy) = false) →
      castLoop L dx dy (ox + (k : α) * dx) (oy + (k : α) * dy) (4 * (k : α)) =
        { x := ox + 125 * dx, y := oy + 125 * dy, distance := CONFIG.flashlightRange } := by
  intro n
  induction n with
  | zero =>
    intro k hk _
    have hk' : k = 125 := by omega
    subst hk'
    have hge : ¬ ((4 : α) * ((125 : Nat) : α) < CONFIG.flashlightRange) := by
      unfold CONFIG.flashlightRange; norm_num
    rw [castLoop, if_neg hge]
    norm_num
  | succ n ih =>
    intro k hk hfree
    have hlt : (4 : α) * (k : α) < CONFIG.flashlightRange := by
      unfold CONFIG.flashlightRange
      have : (k : α) ≤ 124 := by exact_mod_cast (by omega : k ≤ 124)
      linarith
    have hx : ox + (k : α) * dx + dx = ox + ((k + 1 : Nat) : α) * dx := by push_cast; ring
    have hy : oy + (k : α) * dy + dy = oy + ((k + 1 : Nat) : α) * dy := by push_cast; ring
    have hd : (4 : α) * (k : α) + 4 = 4 * ((k + 1 : Nat) : α) := by push_cast; ring
    have hnot := hfree (k + 1) (by omega) (by omega)
    rw [castLoop, if_pos hlt, hx, hy, hd, hnot]
    simp only [Bool.false_eq_true, if_false]
    exact ih (k + 1) (by omega) (fun j h1 h2 => hfree j (by omega) h2)

theorem castSingleRay_hit (M : JsMath α) (L : Level) (ox oy angle : α) (k : Nat) (h1 : 1 ≤ k)
    (h2 : k ≤ 125)
    (hwall : L.isWall (rayPoint M ox oy angle (4 * (k : α))).1
      (rayPoint M ox oy angle (4 * (k : α))).2 = true)
    (hfree : ∀ j : Nat, 1 ≤ j → j < k →
      L.isWall (rayPoint M ox oy angle (4 * (j : α))).1
        (rayPoint M ox oy angle (4 * (j : α))).2 = false) :
    castSingleRay M L ox oy angle =
      { x := (rayPoint M ox oy angle (4 * (k : α))).1,
        y := (rayPoint M ox oy angle (4 * (k : α))).2, distance := 4 * (k : α) } := by
  have hp : ∀ j : Nat, rayPoint M ox oy angle (4 * (j : α))
      = (ox + (j : α) * (M.cos angle * 4), oy + (j : α) * (M.sin angle * 4)) := by
    intro j; simp only [rayPoint]; congr 1 <;> ring
  simp only [hp] at hwall hfree ⊢
  have := castLoop_hit L (M.cos angle * 4) (M.sin angle * 4) ox oy (k - 1) 0 (by omega)
    (fun j h3 h4 => hfree j (by omega) (by omega))
    (by rw [show 0 + (k - 1) + 1 = k by omega]; exact hwall)
  rw [show 0 + (k - 1) + 1 = k by omega] at this
  simpa [castSingleRay] using this

theorem castSingleRay_free (M : JsMath α) (L : Level) (ox oy angle : α)
    (hfree : ∀ j : Nat, 1 ≤ j → j ≤ 125 →
      L.isWall (rayPoint M ox oy angle (4 * (j : α))).1
        (rayPoint M ox oy angle (4 * (j : α))).2 = false) :
    castSingleRay M L ox oy angle =
      { x := (rayPoint M ox oy angle CONFIG.flashlightRange).1,
        y := (rayPoint M ox oy angle CONFIG.flashlightRange).2,
        distance := CONFIG.flashlightRange } := by
  have hp : ∀ j : Nat, rayPoint M ox oy angle (4 * (j : α))
      = (ox + (j : α) * (M.cos angle * 4), oy + (j : α) * (M.sin angle * 4)) := by
    intro j; simp only [rayPoint]; congr 1 <;> ring
  simp only [hp] at hfree
  have := castLoop_free L (M.cos angle * 4) (M.sin angle * 4) ox oy 125 0 (by omega)
    (fun j h3 h4 => hfree j (by omega) h4)
  simp only [Nat.cast_zero, zero_mul, add_zero, mul_zero] at this
  rw [castSingleRay, this]
  simp only [rayPoint, CONFIG.flashlightRange]
  congr 1 <;> ring

/-- C8: `castSingleRay` (step 4, range 500) returns the first of the sample points
`origin + 4k (cos angle, sin angle)`, `k = 1, ..., 125`, at which `isWall` is true, with
`distance = 4k`; if no sample blocks it returns the point at distance 500 with `distance = 500`;
one of the two cases always applies; and for a unit direction the point `rayPoint t` is at
distance `t` from the origin. -/
theorem castSingleRay_contract (M : JsMath α) (L : Level) (ox oy angle : α) :
    (∀ k : Nat, 1 ≤ k → k ≤ 125 →
      L.isWall (rayPoint M ox oy angle (4 * (k : α))).1
        (rayPoint M ox oy angle (4 * (k : α))).2 = true →
      (∀ j : Nat, 1 ≤ j → j < k →
        L.isWall (rayPoint M ox oy angle (4 * (j : α))).1
          (rayPoint M ox oy angle (4 * (j : α))).2 = false) →
      castSingleRay M L ox oy angle =
        { x := (rayPoint M ox oy angle (4 * (k : α))).1,
          y := (rayPoint M ox oy angle (4 * (k : α))).2, distance := 4 * (k : α) }) ∧
    ((∀ j : Nat, 1 ≤ j → j ≤ 125 →
        L.isWall (rayPoint M ox oy angle (4 * (j : α))).1
          (rayPoint M ox oy angle (4 * (j : α))).2 = false) →
      castSingleRay M L ox oy angle =
        { x := (rayPoint M ox oy angle CONFIG.flashlightRange).1,
          y := (rayPoint M ox oy angle CONFIG.flashlightRange).2,
          distance := CONFIG.flashlightRange }) ∧
    ((∃ k : Nat, 1 ≤ k ∧ k ≤ 125 ∧
        L.isWall (rayPoint M ox oy angle (4 * (k : α))).1
          (rayPoint M ox oy angle (4 * (k : α))).2 = true ∧
        (∀ j : Nat, 1 ≤ j → j < k →
          L.isWall (rayPoint M ox oy angle (4 * (j : α))).1
            (rayPoint M ox oy angle (4 * (j : α))).2 = false) ∧
        (castSingleRay M L ox oy angle).distance = 4 * (k : α)) ∨
      ((∀ j : Nat, 1 ≤ j → j ≤ 125 →
          L.isWall (rayPoint M ox oy angle (4 * (j : α))).1
            (rayPoint M ox oy angle (4 * (j : α))).2 = false) ∧
        (castSingleRay M L ox oy angle).distance = CONFIG.flashlightRange)) ∧
    (M.cos angle ^ 2 + M.sin angle ^ 2 = 1 → ∀ t : α,
      ((rayPoint M ox oy angle t).1 - ox) ^ 2 + ((rayPoint M ox oy angle t).2 - oy) ^ 2
        = t ^ 2) := by
  refine ⟨fun k h1 h2 hw hf => castSingleRay_hit M L ox oy angle k h1 h2 hw hf,
    castSingleRay_free M L ox oy angle, ?_, ?_⟩
  · by_cases hex : ∃ k : Nat, (1 ≤ k ∧ k ≤ 125) ∧
        L.isWall (rayPoint M ox oy angle (4 * (k : α))).1
          (rayPoint M ox oy angle (4 * (k : α))).2 = true
    · classical
      left
      have hs := Nat.find_spec hex
      refine ⟨Nat.find hex, hs.1.1, hs.1.2, hs.2, ?_, ?_⟩
      · intro j h1 h2
        have hm := Nat.find_min hex h2
        cases hj : L.isWall (rayPoint M ox oy angle (4 * (j : α))).1
            (rayPoint M ox oy angle (4 * (j : α))).2
        · rfl
        · exact absurd ⟨⟨h1, by omega⟩, hj⟩ hm
      · rw [castSingleRay_hit M L ox oy angle (Nat.find hex) hs.1.1 hs.1.2 hs.2]
        intro j h1 h2
        have hm := Nat.find_min hex h2
        cases hj : L.isWall (rayPoint M ox oy angle (4 * (j : α))).1
            (rayPoint M ox oy angle (4 * (j : α))).2
        · rfl
        · exact absurd ⟨⟨h1, by omega⟩, hj⟩ hm
    · right
      have hfree : ∀ j : Nat, 1 ≤ j → j ≤ 125 →
          L.isWall (rayPoint M ox oy angle (4 * (j : α))).1
            (rayPoint M ox oy angle (4 * (j : α))).2 = false := by
        intro j h1 h2
        cases hj : L.isWall (rayPoint M ox oy angle (4 * (j : α))).1
            (rayPoint M ox oy angle (4 * (j : α))).2
        · rfl
        · exact absurd ⟨j, ⟨h1, h2⟩, hj⟩ hex
      exact ⟨hfree, by rw [castSingleRay_free M L ox oy angle hfree]⟩
  · intro hunit t
    simp only [rayPoint]
    have : (ox + t * M.cos angle - ox) ^ 2 + (oy + t * M.sin angle - oy) ^ 2
        = t ^ 2 * (M.cos angle ^ 2 + M.sin angle ^ 2) := by ring
    rw [this, hunit, mul_one]

/-- C9, as the code has it: if the ray is unobstructed before the distance `d`, `0 < d < 500`,
and obstructed from `d` on for at least one step length, then `castSingleRay` returns the
first sample at or after `d`: its distance lies in `[d, d + 4)`. -/
theorem castSingleRay_hit_distance (M : JsMath α) (L : Level) (ox oy angle d : α)
    (hd0 : 0 < d) (hd : d < CONFIG.flashlightRange)
    (hfree : ∀ t : α, 0 < t → t < d →
      L.isWall (rayPoint M ox oy angle t).1 (rayPoint M ox oy angle t).2 = false)
    (hwall : ∀ t : α, d ≤ t → t < d + 4 →
      L.isWall (rayPoint M ox oy angle t).1 (rayPoint M ox oy angle t).2 = true) :
    d ≤ (castSingleRay M L ox oy angle).distance ∧
      (castSingleRay M L ox oy angle).distance < d + 4 := by
  have hq : 0 < d / 4 := by positivity
  have hk1 : 0 < Nat.ceil (d / 4) := Nat.ceil_pos.mpr hq
  have hle : d / 4 ≤ (Nat.ceil (d / 4) : α) := Nat.le_ceil _
  have hlt : (Nat.ceil (d / 4) : α) < d / 4 + 1 := Nat.ceil_lt_add_one hq.le
  have hk2 : Nat.ceil (d / 4) ≤ 125 := by
    rw [Nat.ceil_le]
    unfold CONFIG.flashlightRange at hd
    push_cast
    linarith
  have hres := castSingleRay_hit M L ox oy angle (Nat.ceil (d / 4)) hk1 hk2
    (hwall _ (by linarith) (by linarith))
    (by
      intro j h1 h2
      have hj : (j : α) + 1 ≤ (Nat.ceil (d / 4) : α) := by exact_mod_cast h2
      have hj1 : (1 : α) ≤ (j : α) := by exact_mod_cast h1
      exact hfree _ (by linarith) (by linarith))
  rw [hres]
  dsimp only
  constructor <;> linarith

theorem oneWall_free (px : ℚ) (h0 : 0 ≤ px) (h1 : px < 200) :
    oneWallLevel.isWall px 50 = false := by
  have hx0 : 0 ≤ ⌊px / (CONFIG.tileSize : ℚ)⌋ :=
    Int.floor_nonneg.mpr (by unfold CONFIG.tileSize; positivity)
  have hx1 : ⌊px / (CONFIG.tileSize : ℚ)⌋ < 2 := by
    rw [Int.floor_lt]; unfold CONFIG.tileSize; push_cast; linarith
  have hy : ⌊(50 : ℚ) / (CONFIG.tileSize : ℚ)⌋ = 0 := by
    unfold CONFIG.tileSize; norm_num
  rw [isWall_false_iff, hy]
  refine ⟨⟨hx0, by simp only [oneWallLevel]; omega, le_refl _, by simp [oneWallLevel]⟩, ?_⟩
  simp only [oneWallLevel]
  rw [if_pos ⟨le_refl _, by norm_num, hx0, by omega⟩, if_neg (by omega)]

theorem oneWall_blocked (px : ℚ) (h0 : 200 ≤ px) (h1 : px < 300) :
    oneWallLevel.isWall px 50 = true := by
  have hx : ⌊px / (CONFIG.tileSize : ℚ)⌋ = 2 := by
    rw [Int.floor_eq_iff]; unfold CONFIG.tileSize; push_cast
    constructor
    · linarith
    · linarith
  have hy : ⌊(50 : ℚ) / (CONFIG.tileSize : ℚ)⌋ = 0 := by
    unfold CONFIG.tileSize; norm_num
  rw [isWall_true_iff, hx, hy]
  right
  simp [oneWallLevel]

theorem rayPoint_axis (t : ℚ) : rayPoint mathAtZero 50 50 0 t = (50 + t, 50) := by
  simp [rayPoint, mathAtZero]

/-- C9 fails: on the 10x10 grid that is Floor except for the Wall cell `(2, 0)`, the ray from
`(50, 50)` at angle `0` runs free up to the distance 150, where it enters the Wall cell, and
`castSingleRay` returns the distance 152, which is outside `[150 - 4, 150]`. -/
theorem castSingleRay_overshoots :
    (∀ y x : Int, 0 ≤ y ∧ y < 10 ∧ 0 ≤ x ∧ x < 10 →
      oneWallLevel.tiles y x = if x = 2 ∧ y = 0 then some 1 else some 0) ∧
    (∀ t : ℚ, 0 ≤ t → t < 150 →
      oneWallLevel.isWall (rayPoint mathAtZero 50 50 0 t).1
        (rayPoint mathAtZero 50 50 0 t).2 = false) ∧
    oneWallLevel.isWall (rayPoint mathAtZero 50 50 0 150).1
      (rayPoint mathAtZero 50 50 0 150).2 = true ∧
    (150 : ℚ) < CONFIG.flashlightRange ∧
    (castSingleRay mathAtZero oneWallLevel 50 50 0).distance = 152 ∧
    ¬ ((150 : ℚ) - 4 ≤ (castSingleRay mathAtZero oneWallLevel 50 50 0).distance ∧
      (castSingleRay mathAtZero oneWallLevel 50 50 0).distance ≤ 150) := by
  have hres : (castSingleRay mathAtZero oneWallLevel 50 50 0).distance = 152 := by
    rw [castSingleRay_hit mathAtZero oneWallLevel 50 50 0 38 (by norm_num) (by norm_num)
      (by rw [rayPoint_axis]; dsimp only; exact oneWall_blocked _ (by norm_num) (by norm_num))
      (by
        intro j h1 h2
        rw [rayPoint_axis]
        dsimp only
        have hj : (j : ℚ) ≤ 37 := by exact_mod_cast (by omega : j ≤ 37)
        exact oneWall_free _ (by positivity) (by linarith))]
    norm_num
  refine ⟨?_, ?_, ?_, ?_, hres, ?_⟩
  · intro y x h
    simp only [oneWallLevel]
    rw [if_pos h]
  · intro t h0 h1
    rw [rayPoint_axis]
    dsimp only
    exact oneWall_free _ (by linarith) (by linarith)
  · rw [rayPoint_axis]
    dsimp only
    exact oneWall_blocked _ (by norm_num) (by norm_num)
  · unfold CONFIG.flashlightRange; norm_num
  · rw [hres]; norm_num

/-- The same ray: its first blocked sample is at a distance in `[150, 154)`. -/
theorem castSingleRay_hit_distance_witness :
    (150 : ℚ) ≤ (castSingleRay mathAtZero oneWallLevel 50 50 0).distance ∧
      (castSingleRay mathAtZero oneWallLevel 50 50 0).distance < 150 + 4 :=
  castSingleRay_hit_distance mathAtZero oneWallLevel 50 50 0 150 (by norm_num)
    (by unfold CONFIG.flashlightRange; norm_num)
    (fun t h0 h1 => by
      rw [rayPoint_axis]; dsimp only; exact oneWall_free _ (by linarith) (by linarith))
    (fun t h0 h1 => by
      rw [rayPoint_axis]; dsimp only; exact oneWall_blocked _ (by linarith) (by linarith))

/-- C10: `castRays` returns exactly 81 hits; hit `i` (`i = 0, ..., 80`) is `castSingleRay` at
the angle `center - halfAngle + flashlightAngle * i / 80`; the first angle is
`center - halfAngle`, the last is `center + halfAngle`, consecutive angles differ by
`flashlightAngle / 80`, and (as `Math.PI` is positive) the angles increase strictly with `i`. -/
theorem castRays_cone (M : JsMath α) (L : Level) (ox oy center : α) :
    (castRays M L ox oy center).length = 81 ∧
    (∀ i : Nat, i ≤ 80 →
      (castRays M L ox oy center)[i]? = some (castSingleRay M L ox oy (rayAngle M center i))) ∧
    rayAngle M center 0 = center - CONFIG.flashlightAngle M / 2 ∧
    rayAngle M center 80 = center + CONFIG.flashlightAngle M / 2 ∧
    (∀ i : Nat, rayAngle M center (i + 1) - rayAngle M center i
      = CONFIG.flashlightAngle M / 80) ∧
    (0 < M.PI → ∀ i j : Nat, i < j → rayAngle M center i < rayAngle M center j) := by
  refine ⟨by simp [castRays], ?_, ?_, ?_, ?_, ?_⟩
  · intro i hi
    simp only [castRays, List.getElem?_map, rayAngle]
    rw [List.getElem?_range (by omega)]
    rfl
  · simp [rayAngle]
  · simp only [rayAngle]; push_cast; ring
  · intro i
    simp only [rayAngle]; push_cast; ring
  · intro hpi i j hij
    have hfa : 0 < CONFIG.flashlightAngle M := by
      unfold CONFIG.flashlightAngle; positivity
    have hc : (i : α) < (j : α) := by exact_mod_cast hij
    simp only [rayAngle]
    have : CONFIG.flashlightAngle M * (i : α) / 80 < CONFIG.flashlightAngle M * (j : α) / 80 := by
      apply div_lt_div_of_pos_right _ (by norm_num)
      exact mul_lt_mul_of_pos_left hc hfa
    linarith

end Rays

/-! ## Enemy perception -/

section Perception

variable {α : Type} [LinearOrderedField α] [FloorRing α]

theorem checkPlayerVisibility_unperceived (M : EnemyMath α) (L : Level) (e : Enemy α)
    (p : Player α) (h : ¬ e.perceives M L p) : e.checkPlayerVisibility M L p = e := by
  unfold Enemy.perceives at h
  unfold Enemy.checkPlayerVisibility
  by_cases h1 : e.playerDistance M p > e.viewDistance
  · rw [if_pos h1]
  · rw [if_neg h1]
    by_cases h2 : e.angleDiff M p > e.viewAngle / 2
    · rw [if_pos h2]
    · rw [if_neg h2]
      have h3 : e.hasLineOfSight M L p.x p.y = false := by
        cases hl : e.hasLineOfSight M L p.x p.y
        · rfl
        · exact absurd ⟨h1, h2, hl⟩ h
      simp [h3]

theorem checkPlayerVisibility_perceived (M : EnemyMath α) (L : Level) (e : Enemy α)
    (p : Player α) (h : e.perceives M L p) :
    e.checkPlayerVisibility M L p =
      { e with alertLevel := e.alertLevel + 2, lastKnownPlayerPos := some (p.x, p.y),
               state := if e.alertLevel + 2 > 100 then .chase
                        else if e.alertLevel + 2 > 50 then .alert else e.state } := by
  obtain ⟨h1, h2, h3⟩ := h
  unfold Enemy.checkPlayerVisibility
  rw [if_neg h1, if_neg h2]
  simp only [h3, Bool.not_true, Bool.false_eq_true, if_false]
  split_ifs <;> rfl

/-- C17: `checkPlayerVisibility` returns the enemy unchanged when the player is farther than
`viewDistance`, or `angleDiff` exceeds `viewAngle / 2`, or `hasLineOfSight` is false; otherwise
it adds exactly 2 to `alertLevel`, stores the player's position in `lastKnownPlayerPos`, and
sets the state to chase if the new level is above 100, to alert if it is in `(50, 100]`, and
keeps it otherwise.  Position, facing, health and the view parameters never change. -/
theorem checkPlayerVisibility_gating (M : EnemyMath α) (L : Level) (e : Enemy α)
    (p : Player α) :
    ((e.playerDistance M p > e.viewDistance ∨ e.angleDiff M p > e.viewAngle / 2 ∨
        e.hasLineOfSight M L p.x p.y = false) → e.checkPlayerVisibility M L p = e) ∧
    ((¬ (e.playerDistance M p > e.viewDistance) ∧ ¬ (e.angleDiff M p > e.viewAngle / 2) ∧
        e.hasLineOfSight M L p.x p.y = true) →
      (e.checkPlayerVisibility M L p).alertLevel = e.alertLevel + 2 ∧
      (e.checkPlayerVisibility M L p).lastKnownPlayerPos = some (p.x, p.y) ∧
      (e.alertLevel + 2 > 100 → (e.checkPlayerVisibility M L p).state = .chase) ∧
      (50 < e.alertLevel + 2 → e.alertLevel + 2 ≤ 100 →
        (e.checkPlayerVisibility M L p).state = .alert) ∧
      (e.alertLevel + 2 ≤ 50 → (e.checkPlayerVisibility M L p).state = e.state)) ∧
    ((e.checkPlayerVisibility M L p).x = e.x ∧ (e.checkPlayerVisibility M L p).y = e.y ∧
      (e.checkPlayerVisibility M L p).angle = e.angle ∧
      (e.checkPlayerVisibility M L p).health = e.health ∧
      (e.checkPlayerVisibility M L p).viewDistance = e.viewDistance ∧
      (e.checkPlayerVisibility M L p).viewAngle = e.viewAngle) := by
  refine ⟨?_, ?_, ?_⟩
  · intro h
    apply checkPlayerVisibility_unperceived
    rintro ⟨h1, h2, h3⟩
    rcases h with h | h | h
    · exact h1 h
    · exact h2 h
    · rw [h3] at h; cases h
  · intro h
    rw [checkPlayerVisibility_perceived M L e p h]
    refine ⟨rfl, rfl, ?_, ?_, ?_⟩
    · intro hc; simp only [hc, if_true]
    · intro h1 h2
      have : ¬ (e.alertLevel + 2 > 100) := not_lt.mpr h2
      simp only [this, if_false, gt_iff_lt, h1, if_true]
    · intro h1
      have a1 : ¬ (e.alertLevel + 2 > 100) := by
        intro hc; have : (50 : α) < 100 := by norm_num
        exact absurd (lt_trans (lt_of_le_of_lt h1 this) hc) (lt_irrefl _)
      have a2 : ¬ (e.alertLevel + 2 > 50) := not_lt.mpr h1
      simp only [a1, a2, if_false]
  · by_cases h : e.perceives M L p
    · rw [checkPlayerVisibility_perceived M L e p h]
      exact ⟨rfl, rfl, rfl, rfl, rfl, rfl⟩
    · rw [checkPlayerVisibility_unperceived M L e p h]
      exact ⟨rfl, rfl, rfl, rfl, rfl, rfl⟩

omit [FloorRing α] in
/-- C14: `takeDamage(amount)` subtracts `amount` from the health, sets the state to chase,
`alertLevel` to exactly 100 and `lastKnownPlayerPos` to the player's position, keeps position,
facing and the view parameters, and returns true exactly when the new health is at most 0. -/
theorem takeDamage_reveals (e : Enemy α) (amount : α) (p : Player α) :
    (e.takeDamage amount p).1.health = e.health - amount ∧
    (e.takeDamage amount p).1.state = .chase ∧
    (e.takeDamage amount p).1.alertLevel = 100 ∧
    (e.takeDamage amount p).1.lastKnownPlayerPos = some (p.x, p.y) ∧
    (e.takeDamage amount p).1.x = e.x ∧ (e.takeDamage amount p).1.y = e.y ∧
    (e.takeDamage amount p).1.angle = e.angle ∧
    (e.takeDamage amount p).1.viewDistance = e.viewDistance ∧
    (e.takeDamage amount p).1.viewAngle = e.viewAngle ∧
    ((e.takeDamage amount p).2 = true ↔ e.health - amount ≤ 0) := by
  refine ⟨rfl, rfl, rfl, rfl, rfl, rfl, rfl, rfl, rfl, ?_⟩
  simp [Enemy.takeDamage]

end Perception

/-! ## Enemy behaviours -/

section Behaviours

variable {α : Type} [LinearOrderedField α] [FloorRing α]

theorem patrol_state_level (M : EnemyMath α) (L : Level) (r : α) (e : Enemy α) :
    (e.patrol M L r).state = e.state ∧
      (e.patrol M L r).alertLevel = max 0 (e.alertLevel - 0.5) ∧
      (e.patrol M L r).lastKnownPlayerPos = e.lastKnownPlayerPos := by
  unfold Enemy.patrol
  dsimp only
  split_ifs <;> exact ⟨rfl, rfl, rfl⟩

omit [FloorRing α] in
theorem alert_state_level (M : EnemyMath α) (e : Enemy α) :
    (e.alert M).alertLevel = e.alertLevel - 0.3 ∧
      (e.alert M).state = (if e.alertLevel - 0.3 < 30 then .patrol else e.state) ∧
      (e.alert M).lastKnownPlayerPos = e.lastKnownPlayerPos ∧
      (e.alert M).x = e.x ∧ (e.alert M).y = e.y := by
  unfold Enemy.alert
  cases hl : e.lastKnownPlayerPos <;> dsimp only <;> split_ifs <;>
    exact ⟨rfl, rfl, hl.symm ▸ rfl, rfl, rfl⟩

theorem search_state_level (M : EnemyMath α) (L : Level) (e : Enemy α) :
    (e.search M L).alertLevel = e.alertLevel - 0.2 ∧
      (e.search M L).state = (if e.alertLevel - 0.2 < 10 then .patrol else e.state) := by
  unfold Enemy.search
  cases hl : e.lastKnownPlayerPos <;> dsimp only <;> split_ifs <;> exact ⟨rfl, rfl⟩

theorem chaseMove_state_level (M : EnemyMath α) (L : Level) (e : Enemy α) (p : Player α) :
    (e.chaseMove M L p).state = e.state ∧ (e.chaseMove M L p).alertLevel = e.alertLevel ∧
      (e.chaseMove M L p).lastKnownPlayerPos = e.lastKnownPlayerPos := by
  unfold Enemy.chaseMove
  dsimp only
  split_ifs <;> exact ⟨rfl, rfl, rfl⟩

theorem chase_player_position (M : EnemyMath α) (L : Level) (e : Enemy α) (p : Player α) :
    (e.chase M L p).2.x = p.x ∧ (e.chase M L p).2.y = p.y := by
  unfold Enemy.chase
  cases e.lastKnownPlayerPos with
  | none => exact ⟨rfl, rfl⟩
  | some lk =>
    dsimp only
    split_ifs <;> exact ⟨rfl, rfl⟩

/-- The state and level that `chase()` leaves. -/
theorem chase_state_level (M : EnemyMath α) (L : Level) (e : Enemy α) (p : Player α) :
    (e.lastKnownPlayerPos = none →
      (e.chase M L p).1.state = .search ∧ (e.chase M L p).1.alertLevel = e.alertLevel) ∧
    (e.lastKnownPlayerPos ≠ none → (e.chaseMove M L p).hasLineOfSight M L p.x p.y = true →
      (e.chase M L p).1 = e.chaseMove M L p) ∧
    (e.lastKnownPlayerPos ≠ none → (e.chaseMove M L p).hasLineOfSight M L p.x p.y = false →
      (e.chase M L p).1.alertLevel = e.alertLevel - 1 ∧
      (e.chase M L p).1.state = (if e.alertLevel - 1 < 50 then .search else e.state) ∧
      (e.chase M L p).1.lastKnownPlayerPos = e.lastKnownPlayerPos) := by
  have hp : ∀ q : Player α, (if e.playerDistance M p > 30 then q else Enemy.attack q).x = q.x ∧
      (if e.playerDistance M p > 30 then q else Enemy.attack q).y = q.y := by
    intro q; split_ifs <;> exact ⟨rfl, rfl⟩
  obtain ⟨c1, c2, c3⟩ := chaseMove_state_level M L e p
  refine ⟨?_, ?_, ?_⟩
  · intro h
    unfold Enemy.chase
    rw [h]
    exact ⟨rfl, rfl⟩
  · intro h hlos
    unfold Enemy.chase
    cases hl : e.lastKnownPlayerPos with
    | none => exact absurd hl h
    | some lk =>
      dsimp only
      rw [(hp p).1, (hp p).2, hlos]
      simp
  · intro h hlos
    unfold Enemy.chase
    cases hl : e.lastKnownPlayerPos with
    | none => exact absurd hl h
    | some lk =>
      dsimp only
      rw [(hp p).1, (hp p).2, hlos]
      simp only [Bool.not_false, if_true, c2]
      split_ifs <;> refine ⟨rfl, ?_, ?_⟩ <;> first | rfl | exact c1 | exact c3.trans hl

/-- C20: the per-state behaviours.  `patrol` keeps the state; `alert` subtracts 0.3 and moves
an alert enemy to patrol exactly when the result is below 30; `chase` moves a chasing enemy to
search exactly when `lastKnownPlayerPos` is `null`, or the line of sight (after the move) is
lost and the level minus 1 is below 50, and it does not change the level while sight is kept;
`search` subtracts 0.2 and moves a searching enemy to patrol exactly when the result is below
10.  No behaviour leaves a state other than the entry state, patrol or search. -/
theorem behaviour_demotion_table (M : EnemyMath α) (L : Level) (rnd : Nat → α) (e : Enemy α)
    (p : Player α) (k : Nat) (r : α) :
    ((e.patrol M L r).state = e.state) ∧
    ((e.alert M).alertLevel = e.alertLevel - 0.3 ∧
      (e.state = .alert → ((e.alert M).state = .patrol ↔ e.alertLevel - 0.3 < 30)) ∧
      (¬ (e.alertLevel - 0.3 < 30) → (e.alert M).state = e.state)) ∧
    ((e.state = .chase →
        ((e.chase M L p).1.state = .search ↔
          (e.lastKnownPlayerPos = none ∨
            ((e.chaseMove M L p).hasLineOfSight M L p.x p.y = false ∧
              e.alertLevel - 1 < 50)))) ∧
      (e.lastKnownPlayerPos ≠ none → (e.chaseMove M L p).hasLineOfSight M L p.x p.y = true →
        (e.chase M L p).1.alertLevel = e.alertLevel) ∧
      (e.lastKnownPlayerPos ≠ none → (e.chaseMove M L p).hasLineOfSight M L p.x p.y = false →
        (e.chase M L p).1.alertLevel = e.alertLevel - 1)) ∧
    ((e.search M L).alertLevel = e.alertLevel - 0.2 ∧
      (e.state = .search → ((e.search M L).state = .patrol ↔ e.alertLevel - 0.2 < 10)) ∧
      (¬ (e.alertLevel - 0.2 < 10) → (e.search M L).state = e.state)) ∧
    ((e.behave M L rnd p k).1.state = e.state ∨ (e.behave M L rnd p k).1.state = .patrol ∨
      (e.behave M L rnd p k).1.state = .search) := by
  obtain ⟨a1, a2, _⟩ := alert_state_level M e
  obtain ⟨s1, s2⟩ := search_state_level M L e
  obtain ⟨c1, c2, c3⟩ := chase_state_level M L e p
  obtain ⟨m1, m2, _⟩ := chaseMove_state_level M L e p
  have hchase : (e.chase M L p).1.state = e.state ∨ (e.chase M L p).1.state = .search := by
    by_cases hn : e.lastKnownPlayerPos = none
    · exact Or.inr (c1 hn).1
    · cases hl : (e.chaseMove M L p).hasLineOfSight M L p.x p.y
      · rw [(c3 hn hl).2.1]
        split_ifs
        · exact Or.inr rfl
        · exact Or.inl rfl
      · rw [c2 hn hl]; exact Or.inl m1
  refine ⟨(patrol_state_level M L r e).1, ⟨a1, ?_, ?_⟩, ⟨?_, ?_, ?_⟩, ⟨s1, ?_, ?_⟩, ?_⟩
  · intro hs
    rw [a2, hs]
    by_cases h : e.alertLevel - 0.3 < 30
    · simp [h]
    · simp [h]
  · intro h; rw [a2, if_neg h]
  · intro hs
    by_cases hn : e.lastKnownPlayerPos = none
    · simp only [(c1 hn).1, hn, true_or]
    · cases hl : (e.chaseMove M L p).hasLineOfSight M L p.x p.y
      · rw [(c3 hn hl).2.1, hs]
        by_cases h : e.alertLevel - 1 < 50
        · simp [h]
        · simp [h, hn]
      · rw [c2 hn hl, m1, hs]
        simp [hn]
  · intro hn hl; rw [c2 hn hl]; exact m2
  · intro hn hl; exact (c3 hn hl).1
  · intro hs
    rw [s2, hs]
    by_cases h : e.alertLevel - 0.2 < 10
    · simp [h]
    · simp [h]
  · intro h; rw [s2, if_neg h]
  · unfold Enemy.behave
    cases hs : e.state
    · exact Or.inl ((patrol_state_level M L (rnd k) e).1.trans hs)
    · dsimp only
      rw [a2]
      split_ifs
      · exact Or.inr (Or.inl rfl)
      · exact Or.inl hs
    · dsimp only
      rcases hchase with h | h
      · exact Or.inl (h.trans hs)
      · exact Or.inr (Or.inr h)
    · dsimp only
      rw [s2]
      split_ifs
      · exact Or.inr (Or.inl rfl)
      · exact Or.inl hs

end Behaviours

/-! ## Line of sight -/

section LineOfSight

variable {α : Type} [LinearOrderedField α] [FloorRing α]

theorem losLoop_true_iff (L : Level) (e : Enemy α) (tx ty : α) (steps : Int) :
    ∀ xs : List Int, e.losLoop L tx ty steps xs = true ↔
      ∀ i ∈ xs, L.isWall (e.losPoint tx ty steps i).1 (e.losPoint tx ty steps i).2 = false := by
  intro xs
  induction xs with
  | nil => simp [Enemy.losLoop]
  | cons i rest ih =>
    simp only [Enemy.losLoop, List.mem_cons, forall_eq_or_imp]
    cases hw : L.isWall (e.losPoint tx ty steps i).1 (e.losPoint tx ty steps i).2
    · simpa using ih
    · simp

theorem hasLineOfSight_true_iff (M : EnemyMath α) (L : Level) (e : Enemy α) (tx ty : α) :
    e.hasLineOfSight M L tx ty = true ↔
      ∀ i : Int, 1 ≤ i → i < e.losSteps M tx ty →
        L.isWall (e.losPoint tx ty (e.losSteps M tx ty) i).1
          (e.losPoint tx ty (e.losSteps M tx ty) i).2 = false := by
  unfold Enemy.hasLineOfSight
  rw [losLoop_true_iff]
  constructor
  · intro h i h1 h2; exact h i (mem_intRange.mpr ⟨h1, h2⟩)
  · intro h i hi; rw [mem_intRange] at hi; exact h i hi.1 hi.2

theorem mem_losSamples (M : EnemyMath α) (e : Enemy α) (tx ty : α) (q : α × α) :
    q ∈ e.losSamples M tx ty ↔
      ∃ i : Int, 1 ≤ i ∧ i < e.losSteps M tx ty ∧
        q = e.losPoint tx ty (e.losSteps M tx ty) i := by
  simp only [Enemy.losSamples, List.mem_map, mem_intRange]
  constructor
  · rintro ⟨i, ⟨h1, h2⟩, rfl⟩; exact ⟨i, h1, h2, rfl⟩
  · rintro ⟨i, h1, h2, rfl⟩; exact ⟨i, ⟨h1, h2⟩, rfl⟩

/-- C11, as the code has it: with `steps = floor(distance / 10)`, `hasLineOfSight` tests the
`steps - 1` points (none when `steps ≤ 1`) `agent + (i / steps) (target - agent)`,
`i = 1, ..., steps - 1`, which are strictly between the endpoints, and returns false exactly
when at least one of them is blocking. -/
theorem hasLineOfSight_samples (M : EnemyMath α) (L : Level) (e : Enemy α) (tx ty : α) :
    (e.losSamples M tx ty).length = (e.losSteps M tx ty - 1).toNat ∧
    (∀ q : α × α, q ∈ e.losSamples M tx ty ↔
      ∃ i : Int, 1 ≤ i ∧ i < e.losSteps M tx ty ∧
        q = (e.x + ((i : α) / (e.losSteps M tx ty : α)) * (tx - e.x),
             e.y + ((i : α) / (e.losSteps M tx ty : α)) * (ty - e.y))) ∧
    (∀ i : Int, 1 ≤ i → i < e.losSteps M tx ty →
      0 < (i : α) / (e.losSteps M tx ty : α) ∧ (i : α) / (e.losSteps M tx ty : α) < 1) ∧
    (e.hasLineOfSight M L tx ty = false ↔
      ∃ q ∈ e.losSamples M tx ty, L.isWall q.1 q.2 = true) ∧
    (e.hasLineOfSight M L tx ty = true ↔
      ∀ q ∈ e.losSamples M tx ty, L.isWall q.1 q.2 = false) := by
  have hpt : ∀ i : Int, e.losPoint tx ty (e.losSteps M tx ty) i =
      (e.x + ((i : α) / (e.losSteps M tx ty : α)) * (tx - e.x),
       e.y + ((i : α) / (e.losSteps M tx ty : α)) * (ty - e.y)) := by
    intro i; simp only [Enemy.losPoint]; congr 1 <;> ring
  have htrue : e.hasLineOfSight M L tx ty = true ↔
      ∀ q ∈ e.losSamples M tx ty, L.isWall q.1 q.2 = false := by
    rw [hasLineOfSight_true_iff]
    constructor
    · intro h q hq
      obtain ⟨i, h1, h2, rfl⟩ := (mem_losSamples M e tx ty q).mp hq
      exact h i h1 h2
    · intro h i h1 h2
      exact h _ ((mem_losSamples M e tx ty _).mpr ⟨i, h1, h2, rfl⟩)
  refine ⟨?_, ?_, ?_, ?_, htrue⟩
  · simp [Enemy.losSamples, intRange]
  · intro q
    rw [mem_losSamples]
    simp only [hpt]
  · intro i h1 h2
    have hi : (0 : α) < (i : α) := by exact_mod_cast (by omega : (0 : Int) < i)
    have hs : (i : α) < (e.losSteps M tx ty : α) := by exact_mod_cast h2
    exact ⟨div_pos hi (lt_trans hi hs), (div_lt_one (lt_trans hi hs)).mpr hs⟩
  · rw [← Bool.not_eq_true, htrue]
    push_neg
    constructor
    · rintro ⟨q, hq, hw⟩
      exact ⟨q, hq, by simpa using hw⟩
    · rintro ⟨q, hq, hw⟩
      exact ⟨q, hq, by simp [hw]⟩

theorem axis_sqrt_sq (d : ℚ) (hd : 0 ≤ d) : axisMath.sqrt (d * d + 0 * 0) = d := by
  show Rat.sqrt (d * d + 0 * 0) = d
  rw [mul_zero, add_zero, Rat.sqrt_eq, abs_of_nonneg hd]

/-- C11 fails: for the agent at `(195, 50)` and the target `(210, 50)` the distance is 15 and
`floor(distance / 10) = 1`, yet `hasLineOfSight` tests no point and returns true on the grid
whose Wall cell `(2, 0)` holds the midpoint `(202.5, 50)` of the segment. -/
theorem hasLineOfSight_tests_one_point_less :
    axisMath.sqrt ((210 - 195) * (210 - 195) + (50 - 50) * (50 - 50)) = 15 ∧
    (Enemy.new axisMath 195 50 0).losSteps axisMath 210 50 = 1 ∧
    ((Enemy.new axisMath 195 50 0).losSamples axisMath 210 50).length = 0 ∧
    ((Enemy.new axisMath 195 50 0).losSamples axisMath 210 50).length ≠
      ((Enemy.new axisMath 195 50 0).losSteps axisMath 210 50).toNat ∧
    (Enemy.new axisMath 195 50 0).hasLineOfSight axisMath oneWallLevel 210 50 = true ∧
    oneWallLevel.isWall ((195 + 210) / 2 : ℚ) 50 = true := by
  have hs : axisMath.sqrt ((210 - 195) * (210 - 195) + (50 - 50) * (50 - 50)) = 15 := by
    have := axis_sqrt_sq 15 (by norm_num)
    norm_num at this ⊢
    exact this
  have hsteps : (Enemy.new axisMath 195 50 0).losSteps axisMath 210 50 = 1 := by
    simp only [Enemy.losSteps, Enemy.new]
    rw [hs]
    norm_num
  refine ⟨hs, hsteps, ?_, ?_, ?_, oneWall_blocked _ (by norm_num) (by norm_num)⟩
  · simp [Enemy.losSamples, hsteps, intRange]
  · simp [Enemy.losSamples, hsteps, intRange]
  · rw [hasLineOfSight_true_iff, hsteps]
    intro i h1 h2
    omega

end LineOfSight

/-! ## The position of the cut -/

section Cut

variable {α : Type} [LinearOrderedField α] [FloorRing α]

omit [FloorRing α] in
theorem cut_fraction_bounds (r : α) (h0 : 0 ≤ r) (h1 : r ≤ 1) :
    (0.3 : α) ≤ 0.3 + r * 0.4 ∧ 0.3 + r * 0.4 ≤ (0.7 : α) := by
  constructor
  · norm_num; linarith
  · norm_num; linarith

theorem cut_between (d : Int) (f : α) (hd : 0 ≤ d) (h3 : (0.3 : α) ≤ f) (h7 : f ≤ (0.7 : α)) :
    ⌊(d : α) * 0.3⌋ ≤ ⌊(d : α) * f⌋ ∧ ⌊(d : α) * f⌋ ≤ ⌊(d : α) * 0.7⌋ := by
  have hd0 : (0 : α) ≤ (d : α) := by exact_mod_cast hd
  exact ⟨Int.floor_le_floor (mul_le_mul_of_nonneg_left h3 hd0),
    Int.floor_le_floor (mul_le_mul_of_nonneg_left h7 hd0)⟩

theorem splitNode_cutInRange (rnd : Nat → α) (hr : ∀ i, 0 ≤ rnd i ∧ rnd i ≤ 1) (d : Nat) :
    ∀ (x y w h : Int) (k : Nat), ∀ n ∈ (splitNode rnd d x y w h k).1.subnodes,
      n.cutInRange α := by
  have hleaf : ∀ (x y w h : Int) (n : Node), n ∈ (Node.mk x y w h .null .null).subnodes →
      n.cutInRange α := by
    intro x y w h n hn
    simp only [Node.subnodes, List.append_nil, List.mem_singleton] at hn
    subst hn
    intro hc
    simp [Node.truthy] at hc
  induction d with
  | zero => intro x y w h k n hn; exact hleaf x y w h n hn
  | succ d ih =>
    intro x y w h k
    simp only [splitNode]
    by_cases h1 : w < 10 ∨ h < 10
    · simp only [h1, if_true]; exact hleaf x y w h
    · simp only [h1, if_false]
      have hw0 : (0 : Int) ≤ w := by omega
      have hh0 : (0 : Int) ≤ h := by omega
      generalize (if w < h then (true, k) else if w > h then (false, k)
        else (decide (rnd k > 0.5), k + 1)) = hk
      have hb := cut_fraction_bounds (rnd hk.2) (hr hk.2).1 (hr hk.2).2
      have bh := cut_between h (0.3 + rnd hk.2 * 0.4) hh0 hb.1 hb.2
      have bw := cut_between w (0.3 + rnd hk.2 * 0.4) hw0 hb.1 hb.2
      split_ifs with h2 h3 h4
      · exact hleaf x y w h
      · intro n hn
        simp only [Node.subnodes, List.mem_cons, List.mem_append] at hn
        rcases hn with rfl | hn | hn
        · intro _
          exact ⟨0.3 + rnd hk.2 * 0.4, ⌊(h : α) * (0.3 + rnd hk.2 * 0.4)⌋, hb.1, hb.2,
            Or.inl ⟨rfl, bh.1, bh.2, splitNode_rect .., splitNode_rect ..⟩⟩
        · exact ih _ _ _ _ _ n hn
        · exact ih _ _ _ _ _ n hn
      · exact hleaf x y w h
      · intro n hn
        simp only [Node.subnodes, List.mem_cons, List.mem_append] at hn
        rcases hn with rfl | hn | hn
        · intro _
          exact ⟨0.3 + rnd hk.2 * 0.4, ⌊(w : α) * (0.3 + rnd hk.2 * 0.4)⌋, hb.1, hb.2,
            Or.inr ⟨rfl, bw.1, bw.2, splitNode_rect .., splitNode_rect ..⟩⟩
        · exact ih _ _ _ _ _ n hn
        · exact ih _ _ _ _ _ n hn

/-- C19, as the code has it: for draws in `[0,1)`, every node that `splitNode` splits is cut
at `c = floor(f * dimension)` for a fraction `f` in the closed interval `[0.3, 0.7]`, so
`floor(0.3 * dimension) ≤ c ≤ floor(0.7 * dimension)`; the dimension is the node's height for a
horizontal cut and its width for a vertical cut.  (The fraction is `0.3 + r * 0.4` for the draw
`r`; the interval is closed at `0.7` because that is the value the sum takes in double
precision for the draws next to `1`.) -/
theorem splitNode_cut_fraction (rnd : Nat → α) (hr : ValidRnd rnd) (depth : Nat)
    (x y w h : Int) (k : Nat) :
    ∀ n ∈ (splitNode rnd depth x y w h k).1.subnodes, n.cutInRange α :=
  splitNode_cutInRange rnd (fun i => ⟨(hr i).1, (hr i).2.le⟩) depth x y w h k

/-- The root rectangle of the 50x40 level with every draw equal to `1/2`: the draws are in
`[0,1)`, the root is cut vertically at `24 = floor(0.5 * 48)`, between
`14 = floor(0.3 * 48)` and `33 = floor(0.7 * 48)`, and the cut is in range. -/
theorem splitNode_cut_fraction_witness :
    ValidRnd (fun _ : Nat => (1 / 2 : ℚ)) ∧
    (splitNode (fun _ => (1 / 2 : ℚ)) 1 1 1 48 38 0).1 =
      .mk 1 1 48 38 (.mk 1 1 24 38 .null .null) (.mk 25 1 24 38 .null .null) ∧
    ⌊((48 : Int) : ℚ) * 0.3⌋ = 14 ∧ ⌊((48 : Int) : ℚ) * 0.7⌋ = 33 ∧
    (splitNode (fun _ => (1 / 2 : ℚ)) 1 1 1 48 38 0).1.cutInRange ℚ := by
  have hv : ValidRnd (fun _ : Nat => (1 / 2 : ℚ)) := fun _ => ⟨by norm_num, by norm_num⟩
  have hs : (splitNode (fun _ => (1 / 2 : ℚ)) 1 1 1 48 38 0).1 =
      .mk 1 1 48 38 (.mk 1 1 24 38 .null .null) (.mk 25 1 24 38 .null .null) := by
    simp only [splitNode]
    norm_num
  refine ⟨hv, hs, by norm_num, by norm_num, ?_⟩
  exact splitNode_cut_fraction (fun _ => (1 / 2 : ℚ)) hv 1 1 1 48 38 0 _
    (by rw [hs]; simp [Node.subnodes])

/-- C19 fails: with the draw `3/4` the 48x38 node is cut vertically at
`28 = floor(0.6 * 48)`, and no fraction in `[0.3, 0.4]` gives that cut. -/
theorem splitNode_cut_above_two_fifths :
    (splitNode (fun _ => (3 / 4 : ℚ)) 1 1 1 48 38 0).1 =
      .mk 1 1 48 38 (.mk 1 1 28 38 .null .null) (.mk 29 1 20 38 .null .null) ∧
    (28 : Int) = ⌊((0.3 : ℚ) + 3 / 4 * 0.4) * 48⌋ ∧
    ¬ ∃ f : ℚ, 0.3 ≤ f ∧ f ≤ 0.4 ∧ (28 : Int) = ⌊f * 48⌋ := by
  refine ⟨?_, ?_, ?_⟩
  · simp only [splitNode]
    norm_num
  · norm_num
  · rintro ⟨f, h1, h2, h3⟩
    have : ⌊f * 48⌋ < 28 := by
      rw [Int.floor_lt]
      norm_num at h2 ⊢
      linarith
    omega

end Cut

/-! ## The range of the alert level -/

section AlertRange

variable {α : Type} [LinearOrderedField α] [FloorRing α]

theorem alertInv_behave (M : EnemyMath α) (L : Level) (rnd : Nat → α) (e : Enemy α)
    (p : Player α) (k : Nat) (h : AlertInv e) : AlertInv (e.behave M L rnd p k).1 := by
  obtain ⟨h1, h2, h3, h4⟩ := h
  unfold Enemy.behave
  cases hs : e.state
  · obtain ⟨p1, p2, _⟩ := patrol_state_level M L (rnd k) e
    dsimp only
    refine ⟨fun _ => ?_, fun hc => ?_, fun hc => ?_, fun hc => ?_⟩
    · rw [p2]; exact le_max_left _ _
    · rw [p1, hs] at hc; cases hc
    · rw [p1, hs] at hc; cases hc
    · rw [p1, hs] at hc; cases hc
  · obtain ⟨a1, a2, _⟩ := alert_state_level M e
    have hb := h2 hs
    dsimp only
    rw [hs] at a2
    by_cases hc : e.alertLevel - 0.3 < 30
    · rw [if_pos hc] at a2
      refine ⟨fun _ => ?_, fun h' => ?_, fun h' => ?_, fun h' => ?_⟩
      · rw [a1]; norm_num at hb ⊢; linarith
      · rw [a2] at h'; cases h'
      · rw [a2] at h'; cases h'
      · rw [a2] at h'; cases h'
    · rw [if_neg hc] at a2
      refine ⟨fun h' => ?_, fun _ => ?_, fun h' => ?_, fun h' => ?_⟩
      · rw [a2] at h'; cases h'
      · rw [a1]; exact not_lt.mp hc
      · rw [a2] at h'; cases h'
      · rw [a2] at h'; cases h'
  · obtain ⟨c1, c2, c3⟩ := chase_state_level M L e p
    obtain ⟨m1, m2, _⟩ := chaseMove_state_level M L e p
    have hb := h3 hs
    dsimp only
    by_cases hn : e.lastKnownPlayerPos = none
    · obtain ⟨q1, q2⟩ := c1 hn
      refine ⟨fun h' => ?_, fun h' => ?_, fun h' => ?_, fun _ => ?_⟩
      · rw [q1] at h'; cases h'
      · rw [q1] at h'; cases h'
      · rw [q1] at h'; cases h'
      · rw [q2]; linarith
    · cases hl : (e.chaseMove M L p).hasLineOfSight M L p.x p.y
      · obtain ⟨q1, q2, _⟩ := c3 hn hl
        rw [hs] at q2
        by_cases hc : e.alertLevel - 1 < 50
        · rw [if_pos hc] at q2
          refine ⟨fun h' => ?_, fun h' => ?_, fun h' => ?_, fun _ => ?_⟩
          · rw [q2] at h'; cases h'
          · rw [q2] at h'; cases h'
          · rw [q2] at h'; cases h'
          · rw [q1]; linarith
        · rw [if_neg hc] at q2
          refine ⟨fun h' => ?_, fun h' => ?_, fun _ => ?_, fun h' => ?_⟩
          · rw [q2] at h'; cases h'
          · rw [q2] at h'; cases h'
          · rw [q1]; exact not_lt.mp hc
          · rw [q2] at h'; cases h'
      · rw [c2 hn hl]
        refine ⟨fun h' => ?_, fun h' => ?_, fun _ => ?_, fun h' => ?_⟩
        · rw [m1, hs] at h'; cases h'
        · rw [m1, hs] at h'; cases h'
        · rw [m2]; exact hb
        · rw [m1, hs] at h'; cases h'
  · obtain ⟨s1, s2⟩ := search_state_level M L e
    have hb := h4 hs
    dsimp only
    rw [hs] at s2
    by_cases hc : e.alertLevel - 0.2 < 10
    · rw [if_pos hc] at s2
      refine ⟨fun _ => ?_, fun h' => ?_, fun h' => ?_, fun h' => ?_⟩
      · rw [s1]; norm_num at hb ⊢; linarith
      · rw [s2] at h'; cases h'
      · rw [s2] at h'; cases h'
      · rw [s2] at h'; cases h'
    · rw [if_neg hc] at s2
      refine ⟨fun h' => ?_, fun h' => ?_, fun h' => ?_, fun _ => ?_⟩
      · rw [s2] at h'; cases h'
      · rw [s2] at h'; cases h'
      · rw [s2] at h'; cases h'
      · rw [s1]; exact not_lt.mp hc

theorem alertInv_check (M : EnemyMath α) (L : Level) (e : Enemy α) (p : Player α)
    (h : AlertInv e) : AlertInv (e.checkPlayerVisibility M L p) := by
  by_cases hp : e.perceives M L p
  · rw [checkPlayerVisibility_perceived M L e p hp]
    obtain ⟨h1, h2, h3, h4⟩ := h
    by_cases c1 : e.alertLevel + 2 > 100
    · simp only [c1, if_true]
      refine ⟨fun h' => (by cases h'), fun h' => (by cases h'), fun _ => ?_, fun h' => (by cases h')⟩
      dsimp only; linarith
    · by_cases c2 : e.alertLevel + 2 > 50
      · simp only [c1, c2, if_true, if_false]
        refine ⟨fun h' => (by cases h'), fun _ => ?_, fun h' => (by cases h'), fun h' => (by cases h')⟩
        dsimp only; linarith
      · simp only [c1, c2, if_false]
        refine ⟨fun h' => ?_, fun h' => ?_, fun h' => ?_, fun h' => ?_⟩
        · have := h1 h'; dsimp only; linarith
        · have := h2 h'; dsimp only; linarith
        · have := h3 h'; dsimp only; linarith
        · have := h4 h'; dsimp only; linarith
  · rw [checkPlayerVisibility_unperceived M L e p hp]; exact h

theorem alertInv_reachable (M : EnemyMath α) (e : Enemy α) (h : Reachable M e) :
    AlertInv e := by
  induction h with
  | fresh x y r =>
    exact ⟨fun _ => le_refl _, fun h' => (by cases h'), fun h' => (by cases h'),
      fun h' => (by cases h')⟩
  | update L rnd e p k _ ih =>
    exact alertInv_check M L _ _ (alertInv_behave M L rnd e p k ih)
  | damage e amount p _ _ =>
    refine ⟨fun h' => (by cases h'), fun h' => (by cases h'), fun _ => ?_, fun h' => (by cases h')⟩
    show (50 : α) ≤ 100
    norm_num

/-- C12, as the code has it: in every state reachable from a freshly constructed `Enemy` by
`update` and `takeDamage` calls the alert level is at least 0 (at least 30 on alert, 50 in
chase, 10 in search); there is no upper bound. -/
theorem alertLevel_nonneg (M : EnemyMath α) (e : Enemy α) (h : Reachable M e) :
    0 ≤ e.alertLevel ∧ (e.state = .alert → 30 ≤ e.alertLevel) ∧
      (e.state = .chase → 50 ≤ e.alertLevel) ∧ (e.state = .search → 10 ≤ e.alertLevel) := by
  obtain ⟨h1, h2, h3, h4⟩ := alertInv_reachable M e h
  refine ⟨?_, h2, h3, h4⟩
  cases hs : e.state
  · exact h1 hs
  · have := h2 hs; linarith
  · have := h3 hs; linarith
  · have := h4 hs; linarith

end AlertRange

/-! ## Ticks in which the player is perceived -/

section Ticks

variable {α : Type} [LinearOrderedField α] [FloorRing α]

theorem losLoop_position_congr (L : Level) (e e' : Enemy α) (hx : e'.x = e.x)
    (hy : e'.y = e.y) (tx ty : α) (steps : Int) :
    ∀ xs : List Int, e'.losLoop L tx ty steps xs = e.losLoop L tx ty steps xs := by
  intro xs
  induction xs with
  | nil => rfl
  | cons i rest ih => simp only [Enemy.losLoop, Enemy.losPoint, hx, hy, ih]

theorem hasLineOfSight_position_congr (M : EnemyMath α) (L : Level) (e e' : Enemy α)
    (hx : e'.x = e.x) (hy : e'.y = e.y) (tx ty : α) :
    e'.hasLineOfSight M L tx ty = e.hasLineOfSight M L tx ty := by
  simp only [Enemy.hasLineOfSight, Enemy.losSteps, hx, hy]
  exact losLoop_position_congr L e e' hx hy tx ty _ _

theorem checkPlayerVisibility_player_congr (M : EnemyMath α) (L : Level) (e : Enemy α)
    (p p' : Player α) (hx : p'.x = p.x) (hy : p'.y = p.y) :
    e.checkPlayerVisibility M L p' = e.checkPlayerVisibility M L p := by
  simp only [Enemy.checkPlayerVisibility, Enemy.playerDistance, Enemy.angleDiff, hx, hy]

theorem behave_player_position (M : EnemyMath α) (L : Level) (rnd : Nat → α) (e : Enemy α)
    (p : Player α) (k : Nat) :
    (e.behave M L rnd p k).2.1.x = p.x ∧ (e.behave M L rnd p k).2.1.y = p.y := by
  unfold Enemy.behave
  cases e.state
  · exact ⟨rfl, rfl⟩
  · exact ⟨rfl, rfl⟩
  · exact chase_player_position M L e p
  · exact ⟨rfl, rfl⟩

theorem update_eq_check_behave (M : EnemyMath α) (L : Level) (rnd : Nat → α) (e : Enemy α)
    (p : Player α) (k : Nat) :
    (e.update M L rnd p k).1 = (e.behave M L rnd p k).1.checkPlayerVisibility M L p := by
  obtain ⟨hx, hy⟩ := behave_player_position M L rnd e p k
  exact checkPlayerVisibility_player_congr M L _ p _ hx hy

theorem chase_position (M : EnemyMath α) (L : Level) (e : Enemy α) (p : Player α)
    (hn : e.lastKnownPlayerPos ≠ none) :
    (e.chase M L p).1.x = (e.chaseMove M L p).x ∧ (e.chase M L p).1.y = (e.chaseMove M L p).y := by
  obtain ⟨_, c2, _⟩ := chase_state_level M L e p
  cases hl : (e.chaseMove M L p).hasLineOfSight M L p.x p.y
  · unfold Enemy.chase
    cases hk : e.lastKnownPlayerPos with
    | none => exact absurd hk hn
    | some lk =>
      dsimp only
      split_ifs <;> exact ⟨rfl, rfl⟩
  · rw [c2 hn hl]; exact ⟨rfl, rfl⟩

/-- A tick in which the player is perceived: the level and the state after `update`, by the
state at entry. -/
theorem tick_perceived (M : EnemyMath α) (L : Level) (rnd : Nat → α) (e : Enemy α)
    (p : Player α) (k : Nat) (hp : (e.behave M L rnd p k).1.perceives M L p) :
    (e.state = .patrol →
      (e.update M L rnd p k).1.alertLevel = max 0 (e.alertLevel - 0.5) + 2 ∧
      (e.update M L rnd p k).1.state =
        (if max 0 (e.alertLevel - 0.5) + 2 > 100 then .chase
         else if max 0 (e.alertLevel - 0.5) + 2 > 50 then .alert else .patrol)) ∧
    (e.state = .alert → ¬ (e.alertLevel - 0.3 < 30) →
      (e.update M L rnd p k).1.alertLevel = e.alertLevel - 0.3 + 2 ∧
      (e.update M L rnd p k).1.state =
        (if e.alertLevel - 0.3 + 2 > 100 then .chase
         else if e.alertLevel - 0.3 + 2 > 50 then .alert else .alert)) ∧
    (e.state = .chase → e.lastKnownPlayerPos ≠ none →
      (e.update M L rnd p k).1.alertLevel = e.alertLevel + 2 ∧
      (e.update M L rnd p k).1.state =
        (if e.alertLevel + 2 > 100 then .chase
         else if e.alertLevel + 2 > 50 then .alert else .chase)) ∧
    (e.update M L rnd p k).1.lastKnownPlayerPos = some (p.x, p.y) := by
  rw [update_eq_check_behave, checkPlayerVisibility_perceived M L _ p hp]
  refine ⟨?_, ?_, ?_, rfl⟩
  · intro hs
    have hb : (e.behave M L rnd p k).1 = e.patrol M L (rnd k) := by
      unfold Enemy.behave; rw [hs]
    obtain ⟨p1, p2, _⟩ := patrol_state_level M L (rnd k) e
    dsimp only
    rw [hb, p1, p2, hs]
    exact ⟨rfl, rfl⟩
  · intro hs hc
    have hb : (e.behave M L rnd p k).1 = e.alert M := by
      unfold Enemy.behave; rw [hs]
    obtain ⟨a1, a2, _⟩ := alert_state_level M e
    rw [if_neg hc, hs] at a2
    dsimp only
    rw [hb, a1, a2]
    exact ⟨rfl, rfl⟩
  · intro hs hn
    have hb : (e.behave M L rnd p k).1 = (e.chase M L p).1 := by
      unfold Enemy.behave; rw [hs]
    obtain ⟨_, c2, _⟩ := chase_state_level M L e p
    obtain ⟨m1, m2, _⟩ := chaseMove_state_level M L e p
    obtain ⟨q1, q2⟩ := chase_position M L e p hn
    have hlos : (e.chaseMove M L p).hasLineOfSight M L p.x p.y = true := by
      rw [← hasLineOfSight_position_congr M L (e.chaseMove M L p) (e.chase M L p).1 q1 q2,
        ← hb]
      exact hp.2.2
    dsimp only
    rw [hb, c2 hn hlos, m1, m2, hs]
    exact ⟨rfl, rfl⟩

/-- The run of a fresh enemy that perceives the player in every tick, in closed form: the
state and the level after `n` ticks. -/
theorem run_perceived_closed_form (M : EnemyMath α) (L : Level) (rnd : Nat → α)
    (players : Nat → Player α) (x y r : α) (k0 : Nat)
    (hperc : ∀ n, (behavedAt M L rnd players (Enemy.new M x y r) k0 n).perceives M L
      (players n)) :
    ∀ n : Nat,
      (n = 0 → (runUpdates M L rnd players (Enemy.new M x y r) k0 n).1.state = .patrol ∧
        (runUpdates M L rnd players (Enemy.new M x y r) k0 n).1.alertLevel = 0) ∧
      (1 ≤ n → n ≤ 33 →
        (runUpdates M L rnd players (Enemy.new M x y r) k0 n).1.state = .patrol ∧
        (runUpdates M L rnd players (Enemy.new M x y r) k0 n).1.alertLevel
          = 3 / 2 * (n : α) + 1 / 2) ∧
      (34 ≤ n → n ≤ 62 →
        (runUpdates M L rnd players (Enemy.new M x y r) k0 n).1.state = .alert ∧
        (runUpdates M L rnd players (Enemy.new M x y r) k0 n).1.alertLevel
          = 103 / 2 + 17 / 10 * ((n : α) - 34)) ∧
      (63 ≤ n →
        (runUpdates M L rnd players (Enemy.new M x y r) k0 n).1.state = .chase ∧
        (runUpdates M L rnd players (Enemy.new M x y r) k0 n).1.alertLevel
          = 504 / 5 + 2 * ((n : α) - 63)) ∧
      (1 ≤ n →
        (runUpdates M L rnd players (Enemy.new M x y r) k0 n).1.lastKnownPlayerPos ≠ none) := by
  intro n
  induction n with
  | zero =>
    refine ⟨fun _ => ⟨rfl, rfl⟩, fun h => ?_, fun h => ?_, fun h => ?_, fun h => ?_⟩ <;> omega
  | succ n ih =>
    obtain ⟨i0, i1, i2, i3, i4⟩ := ih
    obtain ⟨T1, T2, T3, T4⟩ := tick_perceived M L rnd
      (runUpdates M L rnd players (Enemy.new M x y r) k0 n).1 (players n)
      (runUpdates M L rnd players (Enemy.new M x y r) k0 n).2 (hperc n)
    have hstep : (runUpdates M L rnd players (Enemy.new M x y r) k0 (n + 1)).1 =
        ((runUpdates M L rnd players (Enemy.new M x y r) k0 n).1.update M L rnd (players n)
          (runUpdates M L rnd players (Enemy.new M x y r) k0 n).2).1 := rfl
    rw [hstep]
    have hpat : n ≤ 33 →
        (runUpdates M L rnd players (Enemy.new M x y r) k0 n).1.state = .patrol ∧
        max 0 ((runUpdates M L rnd players (Enemy.new M x y r) k0 n).1.alertLevel - 0.5)
          = 3 / 2 * (n : α) := by
      intro hn
      rcases Nat.eq_zero_or_pos n with h0 | h0
      · obtain ⟨a, b⟩ := i0 h0
        refine ⟨a, ?_⟩
        rw [b, h0]
        norm_num
      · obtain ⟨a, b⟩ := i1 h0 hn
        refine ⟨a, ?_⟩
        rw [b]
        rw [max_eq_right (by norm_num)]
        norm_num
    refine ⟨fun h => by omega, ?_, ?_, ?_, fun _ => by rw [T4]; simp⟩
    · intro _ hn
      obtain ⟨hs, hm⟩ := hpat (by omega)
      obtain ⟨t1, t2⟩ := T1 hs
      have hb : (n : α) ≤ 32 := by exact_mod_cast (by omega : n ≤ 32)
      rw [hm] at t1 t2
      rw [t1, t2, if_neg (by linarith), if_neg (by linarith)]
      refine ⟨rfl, ?_⟩
      push_cast
      ring
    · intro h1 h2
      rcases Nat.lt_or_ge n 34 with hlt | hge
      · have hn : n = 33 := by omega
        obtain ⟨hs, hm⟩ := hpat (by omega)
        obtain ⟨t1, t2⟩ := T1 hs
        rw [hm] at t1 t2
        subst hn
        rw [t1, t2, if_neg (by norm_num), if_pos (by norm_num)]
        refine ⟨rfl, ?_⟩
        norm_num
      · obtain ⟨hs, hl⟩ := i2 hge (by omega)
        have hb1 : (34 : α) ≤ (n : α) := by exact_mod_cast hge
        have hb2 : (n : α) ≤ 61 := by exact_mod_cast (by omega : n ≤ 61)
        obtain ⟨t1, t2⟩ := T2 hs (by rw [hl]; norm_num; linarith)
        rw [hl] at t1 t2
        rw [t1, t2, if_neg (by norm_num; linarith)]
        refine ⟨by split_ifs <;> rfl, ?_⟩
        push_cast
        norm_num
        ring
    · intro h1
      rcases Nat.lt_or_ge n 63 with hlt | hge
      · have hn : n = 62 := by omega
        obtain ⟨hs, hl⟩ := i2 (by omega) (by omega)
        subst hn
        obtain ⟨t1, t2⟩ := T2 hs (by rw [hl]; norm_num)
        rw [hl] at t1 t2
        rw [t1, t2, if_pos (by norm_num)]
        refine ⟨rfl, ?_⟩
        norm_num
      · obtain ⟨hs, hl⟩ := i3 hge
        have hb1 : (63 : α) ≤ (n : α) := by exact_mod_cast hge
        obtain ⟨t1, t2⟩ := T3 hs (i4 (by omega))
        rw [hl] at t1 t2
        rw [t1, t2, if_pos (by linarith)]
        refine ⟨rfl, ?_⟩
        push_cast
        ring

end Ticks

/-! ## Enemies and players on the row `y = 50` of `oneWallLevel` -/

section RowWorld

theorem row_atan2 (d : ℚ) (hd : 0 < d) : axisMath.atan2 0 d = 0 := by
  have h1 : ¬ d = 0 := ne_of_gt hd
  have h2 : ¬ d < 0 := not_lt.mpr hd.le
  simp [axisMath, h1, h2]

theorem row_distance (e : Enemy ℚ) (p : Player ℚ) (hy : e.y = 50) (hpy : p.y = 50)
    (hx : e.x ≤ p.x) : e.playerDistance axisMath p = p.x - e.x := by
  unfold Enemy.playerDistance
  rw [hy, hpy, sub_self]
  exact axis_sqrt_sq (p.x - e.x) (sub_nonneg.mpr hx)

theorem row_los (e : Enemy ℚ) (tx : ℚ) (hy : e.y = 50) (h0 : 0 ≤ e.x) (h1 : e.x ≤ tx)
    (h2 : tx < 200) : e.hasLineOfSight axisMath oneWallLevel tx 50 = true := by
  rw [hasLineOfSight_true_iff]
  intro i hi1 hi2
  have hi : (0 : ℚ) < (i : ℚ) := by exact_mod_cast (by omega : (0 : Int) < i)
  have hs : (i : ℚ) < (e.losSteps axisMath tx 50 : ℚ) := by exact_mod_cast hi2
  have hs0 : (0 : ℚ) < (e.losSteps axisMath tx 50 : ℚ) := lt_trans hi hs
  have hfrac0 : 0 ≤ (tx - e.x) * (i : ℚ) / (e.losSteps axisMath tx 50 : ℚ) :=
    div_nonneg (mul_nonneg (sub_nonneg.mpr h1) hi.le) hs0.le
  have hfrac1 : (tx - e.x) * (i : ℚ) / (e.losSteps axisMath tx 50 : ℚ) ≤ tx - e.x := by
    rw [div_le_iff₀ hs0]
    exact mul_le_mul_of_nonneg_left hs.le (sub_nonneg.mpr h1)
  simp only [Enemy.losPoint, hy, sub_self, zero_mul, zero_div, add_zero]
  exact oneWall_free _ (by linarith) (by linarith)

theorem row_perceives (e : Enemy ℚ) (p : Player ℚ) (hy : e.y = 50) (hpy : p.y = 50)
    (ha : e.angle = 0) (h0 : 0 ≤ e.x) (h1 : e.x < p.x) (h2 : p.x < 200)
    (hd : e.viewDistance = 200) (hv : e.viewAngle = mathAtZero.PI / 3) :
    e.perceives axisMath oneWallLevel p := by
  have hpi : (0 : ℚ) < mathAtZero.PI := by simp [mathAtZero]
  refine ⟨?_, ?_, ?_⟩
  · rw [row_distance e p hy hpy h1.le, hd]
    linarith
  · unfold Enemy.angleDiff
    rw [hy, hpy, sub_self, row_atan2 _ (sub_pos.mpr h1), ha, hv]
    have : (axisMath.toJsMath.PI : ℚ) = mathAtZero.PI := rfl
    simp only [sub_self, abs_zero, this]
    rw [if_neg (by linarith)]
    linarith
  · rw [hpy]
    exact row_los e p.x hy h0 h1.le h2

theorem row_patrol (e : Enemy ℚ) (hy : e.y = 50) (ha : e.angle = 0) (h0 : 0 ≤ e.x)
    (h1 : e.x + 1 < 200) :
    e.patrol axisMath oneWallLevel (1 / 2) =
      { e with alertLevel := max 0 (e.alertLevel - 0.5), x := e.x + 1 } := by
  have hfree : oneWallLevel.isWall (e.x + 1) 50 = false :=
    oneWall_free _ (by linarith) h1
  cases e
  simp only at hy ha h0 h1 hfree
  subst hy ha
  simp [Enemy.patrol, axisMath, mathAtZero, hfree]
  norm_num

theorem row_alert (e : Enemy ℚ) (px : ℚ) (hy : e.y = 50) (ha : e.angle = 0)
    (hl : e.lastKnownPlayerPos = none ∨ e.lastKnownPlayerPos = some (px, 50))
    (hx : e.x < px) :
    e.alert axisMath =
      { e with alertLevel := e.alertLevel - 0.3,
               state := if e.alertLevel - 0.3 < 30 then .patrol else e.state } := by
  have hat := row_atan2 (px - e.x) (sub_pos.mpr hx)
  cases e
  simp only at hy ha hl hx hat
  subst hy ha
  rcases hl with hl | hl
  · subst hl
    simp only [Enemy.alert]
    split_ifs <;> rfl
  · subst hl
    simp only [Enemy.alert, sub_self, hat]
    split_ifs <;> rfl

theorem row_chaseMove (e : Enemy ℚ) (p : Player ℚ) (hy : e.y = 50) (hpy : p.y = 50)
    (h0 : 0 ≤ e.x) (h1 : e.x < p.x) (h2 : p.x < 200) :
    e.chaseMove axisMath oneWallLevel p =
      { e with angle := 0, x := if p.x - e.x > 30 then e.x + 5 / 2 else e.x } := by
  have hd := row_distance e p hy hpy h1.le
  have hat := row_atan2 (p.x - e.x) (sub_pos.mpr h1)
  unfold Enemy.chaseMove
  rw [hd, hy, hpy, sub_self, hat]
  by_cases hc : p.x - e.x > 30
  · have hfree : oneWallLevel.isWall (e.x + 5 / 2) 50 = false :=
      oneWall_free _ (by linarith) (by linarith)
    rw [if_pos hc, if_pos hc]
    have h25 : (2.5 : ℚ) = 5 / 2 := by norm_num
    cases e
    simp only at hy hfree ⊢
    subst hy
    simp [axisMath, mathAtZero, h25, hfree]
  · rw [if_neg hc, if_neg hc]

theorem row_update_patrol (e : Enemy ℚ) (p : Player ℚ) (k : Nat) (hs : e.state = .patrol)
    (hy : e.y = 50) (hpy : p.y = 50) (ha : e.angle = 0) (h0 : 0 ≤ e.x) (h1 : e.x + 1 < p.x)
    (h2 : p.x < 200) (hd : e.viewDistance = 200) (hv : e.viewAngle = mathAtZero.PI / 3) :
    (e.update axisMath oneWallLevel (fun _ => 1 / 2) p k).1 =
      { e with x := e.x + 1, alertLevel := max 0 (e.alertLevel - 0.5) + 2,
               lastKnownPlayerPos := some (p.x, p.y),
               state := if max 0 (e.alertLevel - 0.5) + 2 > 100 then .chase
                        else if max 0 (e.alertLevel - 0.5) + 2 > 50 then .alert
                        else .patrol } := by
  have hb : (e.behave axisMath oneWallLevel (fun _ => 1 / 2) p k).1 =
      e.patrol axisMath oneWallLevel (1 / 2) := by
    simp only [Enemy.behave, hs]
  have hper : ({ e with alertLevel := max 0 (e.alertLevel - 0.5), x := e.x + 1 } :
      Enemy ℚ).perceives axisMath oneWallLevel p :=
    row_perceives _ p hy hpy ha (by dsimp only; linarith) h1 h2 hd hv
  rw [update_eq_check_behave, hb, row_patrol e hy ha h0 (by linarith),
    checkPlayerVisibility_perceived axisMath oneWallLevel _ p hper]
  simp only [hs]

theorem row_update_alert (e : Enemy ℚ) (p : Player ℚ) (k : Nat) (hs : e.state = .alert)
    (hy : e.y = 50) (hpy : p.y = 50) (ha : e.angle = 0) (h0 : 0 ≤ e.x) (h1 : e.x < p.x)
    (h2 : p.x < 200) (hd : e.viewDistance = 200) (hv : e.viewAngle = mathAtZero.PI / 3)
    (hl : e.lastKnownPlayerPos = none ∨ e.lastKnownPlayerPos = some (p.x, 50))
    (hlev : ¬ (e.alertLevel - 0.3 < 30)) :
    (e.update axisMath oneWallLevel (fun _ => 1 / 2) p k).1 =
      { e with alertLevel := e.alertLevel - 0.3 + 2,
               lastKnownPlayerPos := some (p.x, p.y),
               state := if e.alertLevel - 0.3 + 2 > 100 then .chase
                        else if e.alertLevel - 0.3 + 2 > 50 then .alert
                        else .alert } := by
  have hb : (e.behave axisMath oneWallLevel (fun _ => 1 / 2) p k).1 = e.alert axisMath := by
    simp only [Enemy.behave, hs]
  have hper : ({ e with alertLevel := e.alertLevel - 0.3, state := e.state } :
      Enemy ℚ).perceives axisMath oneWallLevel p :=
    row_perceives _ p hy hpy ha h0 h1 h2 hd hv
  rw [update_eq_check_behave, hb, row_alert e p.x hy ha hl h1, if_neg hlev,
    checkPlayerVisibility_perceived axisMath oneWallLevel _ p hper]
  simp only [hs]

theorem row_update_chase (e : Enemy ℚ) (p : Player ℚ) (k : Nat) (hs : e.state = .chase)
    (hy : e.y = 50) (hpy : p.y = 50) (h0 : 0 ≤ e.x) (h1 : e.x + 5 / 2 < p.x)
    (h2 : p.x < 200) (hd : e.viewDistance = 200) (hv : e.viewAngle = mathAtZero.PI / 3)
    (hl : e.lastKnownPlayerPos ≠ none) :
    (e.update axisMath oneWallLevel (fun _ => 1 / 2) p k).1 =
      { e with angle := 0, x := if p.x - e.x > 30 then e.x + 5 / 2 else e.x,
               alertLevel := e.alertLevel + 2,
               lastKnownPlayerPos := some (p.x, p.y),
               state := if e.alertLevel + 2 > 100 then .chase
                        else if e.alertLevel + 2 > 50 then .alert
                        else .chase } := by
  have hm := row_chaseMove e p hy hpy h0 (by linarith) h2
  have hx0 : 0 ≤ (if p.x - e.x > 30 then e.x + 5 / 2 else e.x) := by
    split_ifs <;> linarith
  have hx1 : (if p.x - e.x > 30 then e.x + 5 / 2 else e.x) < p.x := by
    split_ifs <;> linarith
  have hper : ({ e with angle := 0, x := if p.x - e.x > 30 then e.x + 5 / 2 else e.x } :
      Enemy ℚ).perceives axisMath oneWallLevel p :=
    row_perceives _ p hy hpy rfl hx0 hx1 h2 hd hv
  have hlos : (e.chaseMove axisMath oneWallLevel p).hasLineOfSight axisMath oneWallLevel
      p.x p.y = true := by
    rw [hm]
    exact hper.2.2
  have hb : (e.behave axisMath oneWallLevel (fun _ => 1 / 2) p k).1 =
      (e.chase axisMath oneWallLevel p).1 := by
    simp only [Enemy.behave, hs]
  rw [update_eq_check_behave, hb, (chase_state_level axisMath oneWallLevel e p).2.1 hl hlos,
    hm, checkPlayerVisibility_perceived axisMath oneWallLevel _ p hper]
  simp only [hs]

theorem rowInv_step (e : Enemy ℚ) (k : Nat) (h : RowInv e) :
    (e.behave axisMath oneWallLevel (fun _ => 1 / 2) restingPlayer k).1.perceives axisMath
        oneWallLevel restingPlayer ∧
      RowInv (e.update axisMath oneWallLevel (fun _ => 1 / 2) restingPlayer k).1 := by
  obtain ⟨hy, ha, hx, hd, hv, hl, gp, ga, gc, gs⟩ := h
  have hpx : restingPlayer.x = 150 := rfl
  have hpy : restingPlayer.y = 50 := rfl
  cases hs : e.state
  · obtain ⟨a0, a1, a2⟩ := gp hs
    have hb : (e.behave axisMath oneWallLevel (fun _ => 1 / 2) restingPlayer k).1 =
        e.patrol axisMath oneWallLevel (1 / 2) := by
      simp only [Enemy.behave, hs]
    have hmax : e.alertLevel + 3 / 2 ≤ max 0 (e.alertLevel - 0.5) + 2 := by
      have h5 : (0.5 : ℚ) = 1 / 2 := by norm_num
      have := le_max_right 0 (e.alertLevel - 0.5)
      rw [h5] at this ⊢
      linarith
    have hmax2 : max 0 (e.alertLevel - 0.5) + 2 ≤ 52 := by
      have : max 0 (e.alertLevel - 0.5) ≤ 50 := max_le (by norm_num) (by norm_num; linarith)
      linarith
    have hmax0 : 0 ≤ max 0 (e.alertLevel - 0.5) := le_max_left _ _
    refine ⟨?_, ?_⟩
    · rw [hb, row_patrol e hy ha (by linarith) (by linarith)]
      exact row_perceives _ _ hy hpy ha (by dsimp only; linarith)
        (by dsimp only; rw [hpx]; linarith) (by rw [hpx]; norm_num) hd hv
    · rw [row_update_patrol e restingPlayer k hs hy hpy ha (by linarith)
        (by rw [hpx]; linarith) (by rw [hpx]; norm_num) hd hv]
      refine ⟨hy, ha, by dsimp only; linarith, hd, hv, Or.inr rfl, ?_, ?_, ?_, ?_⟩
      · dsimp only
        intro hst
        split_ifs at hst with c1 c2
        exact ⟨by linarith, not_lt.mp c2, by linarith⟩
      · dsimp only
        intro hst
        split_ifs at hst with c1 c2
        exact ⟨c2, by linarith⟩
      · dsimp only
        intro hst
        split_ifs at hst with c1 c2
        linarith
      · dsimp only
        split_ifs <;> simp
  · obtain ⟨a0, a1⟩ := ga hs
    have hlev : ¬ (e.alertLevel - 0.3 < 30) := by norm_num; linarith
    have hb : (e.behave axisMath oneWallLevel (fun _ => 1 / 2) restingPlayer k).1 =
        e.alert axisMath := by
      simp only [Enemy.behave, hs]
    have hl' : e.lastKnownPlayerPos = none ∨
        e.lastKnownPlayerPos = some (restingPlayer.x, 50) := hl
    have hlv : (50 : ℚ) < e.alertLevel - 0.3 + 2 := by norm_num; linarith
    refine ⟨?_, ?_⟩
    · rw [hb, row_alert e restingPlayer.x hy ha hl' (by rw [hpx]; linarith), if_neg hlev]
      exact row_perceives _ _ hy hpy ha (by dsimp only; linarith)
        (by dsimp only; rw [hpx]; linarith) (by rw [hpx]; norm_num) hd hv
    · rw [row_update_alert e restingPlayer k hs hy hpy ha (by linarith)
        (by rw [hpx]; linarith) (by rw [hpx]; norm_num) hd hv hl' hlev]
      refine ⟨hy, ha, hx, hd, hv, Or.inr rfl, ?_, ?_, ?_, ?_⟩
      · dsimp only
        intro hst
        split_ifs at hst
      · dsimp only
        intro _
        exact ⟨hlv, a1⟩
      · dsimp only
        intro hst
        split_ifs at hst with c1
        exact ⟨c1, by linarith, by simp⟩
      · dsimp only
        split_ifs <;> simp
  · obtain ⟨a0, a1, a2⟩ := gc hs
    have hx0 : 0 ≤ (if restingPlayer.x - e.x > 30 then e.x + 5 / 2 else e.x) := by
      split_ifs <;> linarith
    have hx1 : (if restingPlayer.x - e.x > 30 then e.x + 5 / 2 else e.x) < restingPlayer.x := by
      rw [hpx]; split_ifs <;> linarith
    have hx2 : (if restingPlayer.x - e.x > 30 then e.x + 5 / 2 else e.x) ≤ 245 / 2 := by
      rw [hpx]; split_ifs with c <;> linarith
    have hx3 : 50 ≤ (if restingPlayer.x - e.x > 30 then e.x + 5 / 2 else e.x) := by
      split_ifs <;> linarith
    have hm := row_chaseMove e restingPlayer hy hpy (by linarith) (by rw [hpx]; linarith)
      (by rw [hpx]; norm_num)
    have hper := row_perceives
      { e with angle := 0, x := if restingPlayer.x - e.x > 30 then e.x + 5 / 2 else e.x }
      restingPlayer hy hpy rfl hx0 hx1 (by rw [hpx]; norm_num) hd hv
    have hlos : (e.chaseMove axisMath oneWallLevel restingPlayer).hasLineOfSight axisMath
        oneWallLevel restingPlayer.x restingPlayer.y = true := by
      rw [hm]; exact hper.2.2
    have hb : (e.behave axisMath oneWallLevel (fun _ => 1 / 2) restingPlayer k).1 =
        (e.chase axisMath oneWallLevel restingPlayer).1 := by
      simp only [Enemy.behave, hs]
    refine ⟨?_, ?_⟩
    · rw [hb, (chase_state_level axisMath oneWallLevel e restingPlayer).2.1 a2 hlos, hm]
      exact hper
    · rw [row_update_chase e restingPlayer k hs hy hpy (by linarith)
        (by rw [hpx]; linarith) (by rw [hpx]; norm_num) hd hv a2]
      refine ⟨hy, rfl, hx3, hd, hv, Or.inr rfl, ?_, ?_, ?_, ?_⟩
      · dsimp only
        intro hst
        split_ifs at hst
      · dsimp only
        intro hst
        split_ifs at hst with c1 c2
        · exact absurd (by linarith : e.alertLevel + 2 > 100) c1
      · dsimp only
        intro _
        exact ⟨by linarith, hx2, by simp⟩
      · dsimp only
        split_ifs <;> simp
  · exact absurd hs gs

theorem rowInv_run (n : Nat) :
    RowInv (runUpdates axisMath oneWallLevel (fun _ => 1 / 2) (fun _ => restingPlayer)
      (Enemy.new axisMath 50 50 0) 0 n).1 := by
  induction n with
  | zero =>
    refine ⟨rfl, by simp [runUpdates, Enemy.new], le_refl _, rfl, rfl, Or.inl rfl, ?_, ?_, ?_, ?_⟩
    · intro _
      exact ⟨le_refl _, by simp [runUpdates, Enemy.new], by simp [runUpdates, Enemy.new]⟩
    · intro h; cases h
    · intro h; cases h
    · intro h; cases h
  | succ n ih => exact (rowInv_step _ _ ih).2

/-- C13: for a fresh enemy that perceives the player in every tick, the states after the
successive `update` calls are patrol up to tick 33, alert from tick 34 to tick 62 and chase
from tick 63 on; the level first exceeds 50 at tick 34, where the state becomes alert, and
first exceeds 100 at tick 63, where the state becomes chase; no tick leads from patrol to
chase. -/
theorem alert_thresholds_in_order {α : Type} [LinearOrderedField α] [FloorRing α]
    (M : EnemyMath α) (L : Level) (rnd : Nat → α) (players : Nat → Player α) (x y r : α)
    (k0 : Nat)
    (hperc : ∀ n, (behavedAt M L rnd players (Enemy.new M x y r) k0 n).perceives M L
      (players n)) :
    (∀ n : Nat, n ≤ 33 →
      (runUpdates M L rnd players (Enemy.new M x y r) k0 n).1.state = .patrol ∧
      (runUpdates M L rnd players (Enemy.new M x y r) k0 n).1.alertLevel ≤ 50) ∧
    (∀ n : Nat, 34 ≤ n → n ≤ 62 →
      (runUpdates M L rnd players (Enemy.new M x y r) k0 n).1.state = .alert ∧
      50 < (runUpdates M L rnd players (Enemy.new M x y r) k0 n).1.alertLevel ∧
      (runUpdates M L rnd players (Enemy.new M x y r) k0 n).1.alertLevel ≤ 100) ∧
    (∀ n : Nat, 63 ≤ n →
      (runUpdates M L rnd players (Enemy.new M x y r) k0 n).1.state = .chase ∧
      100 < (runUpdates M L rnd players (Enemy.new M x y r) k0 n).1.alertLevel) := by
  have hcf := run_perceived_closed_form M L rnd players x y r k0 hperc
  refine ⟨?_, ?_, ?_⟩
  · intro n hn
    obtain ⟨c0, c1, _, _, _⟩ := hcf n
    rcases Nat.eq_zero_or_pos n with h0 | h0
    · obtain ⟨a, b⟩ := c0 h0
      exact ⟨a, by rw [b]; norm_num⟩
    · obtain ⟨a, b⟩ := c1 h0 hn
      have hb : (n : α) ≤ 33 := by exact_mod_cast hn
      exact ⟨a, by rw [b]; linarith⟩
  · intro n h1 h2
    obtain ⟨_, _, c2, _, _⟩ := hcf n
    obtain ⟨a, b⟩ := c2 h1 h2
    have hb1 : (34 : α) ≤ (n : α) := by exact_mod_cast h1
    have hb2 : (n : α) ≤ 62 := by exact_mod_cast h2
    exact ⟨a, by rw [b]; linarith, by rw [b]; linarith⟩
  · intro n h1
    obtain ⟨_, _, _, c3, _⟩ := hcf n
    obtain ⟨a, b⟩ := c3 h1
    have hb1 : (63 : α) ≤ (n : α) := by exact_mod_cast h1
    exact ⟨a, by rw [b]; linarith⟩

/-- On `oneWallLevel`, the enemy created at `(50, 50)` facing the player at rest at
`(150, 50)` perceives it in every tick. -/
theorem alert_thresholds_in_order_witness :
    (∀ n : Nat, n ≤ 33 →
      (runUpdates axisMath oneWallLevel (fun _ => 1 / 2) (fun _ => restingPlayer)
        (Enemy.new axisMath 50 50 0) 0 n).1.state = .patrol ∧
      (runUpdates axisMath oneWallLevel (fun _ => 1 / 2) (fun _ => restingPlayer)
        (Enemy.new axisMath 50 50 0) 0 n).1.alertLevel ≤ 50) ∧
    (∀ n : Nat, 34 ≤ n → n ≤ 62 →
      (runUpdates axisMath oneWallLevel (fun _ => 1 / 2) (fun _ => restingPlayer)
        (Enemy.new axisMath 50 50 0) 0 n).1.state = .alert ∧
      50 < (runUpdates axisMath oneWallLevel (fun _ => 1 / 2) (fun _ => restingPlayer)
        (Enemy.new axisMath 50 50 0) 0 n).1.alertLevel ∧
      (runUpdates axisMath oneWallLevel (fun _ => 1 / 2) (fun _ => restingPlayer)
        (Enemy.new axisMath 50 50 0) 0 n).1.alertLevel ≤ 100) ∧
    (∀ n : Nat, 63 ≤ n →
      (runUpdates axisMath oneWallLevel (fun _ => 1 / 2) (fun _ => restingPlayer)
        (Enemy.new axisMath 50 50 0) 0 n).1.state = .chase ∧
      100 < (runUpdates axisMath oneWallLevel (fun _ => 1 / 2) (fun _ => restingPlayer)
        (Enemy.new axisMath 50 50 0) 0 n).1.alertLevel) :=
  alert_thresholds_in_order axisMath oneWallLevel (fun _ => 1 / 2) (fun _ => restingPlayer)
    50 50 0 0 (fun n => (rowInv_step _ _ (rowInv_run n)).1)

/-- C12 fails above 100: the enemy created at `(50, 50)`, hit once and updated once with the
player in view at `(65, 50)`, is reachable and has the alert level 102. -/
theorem alertLevel_exceeds_hundred :
    Reachable axisMath
      ((((Enemy.new axisMath 50 50 0).takeDamage 10 nearPlayer).1.update axisMath oneWallLevel
        (fun _ => 1 / 2) nearPlayer 0).1) ∧
    ((((Enemy.new axisMath 50 50 0).takeDamage 10 nearPlayer).1.update axisMath oneWallLevel
      (fun _ => 1 / 2) nearPlayer 0).1).alertLevel = 102 ∧
    ¬ (((((Enemy.new axisMath 50 50 0).takeDamage 10 nearPlayer).1.update axisMath oneWallLevel
      (fun _ => 1 / 2) nearPlayer 0).1).alertLevel ≤ 100) := by
  have hlev : ((((Enemy.new axisMath 50 50 0).takeDamage 10 nearPlayer).1.update axisMath
      oneWallLevel (fun _ => 1 / 2) nearPlayer 0).1).alertLevel = 102 := by
    rw [row_update_chase _ nearPlayer 0 rfl rfl rfl (by norm_num [Enemy.takeDamage, Enemy.new])
      (by norm_num [Enemy.takeDamage, Enemy.new, nearPlayer])
      (by norm_num [nearPlayer]) rfl rfl (by simp [Enemy.takeDamage])]
    norm_num [Enemy.takeDamage]
  refine ⟨Reachable.update _ _ _ _ _ (Reachable.damage _ _ _ (Reachable.fresh _ _ _)), hlev, ?_⟩
  rw [hlev]
  norm_num

/-- The reachable enemy with the alert level 102 has a non-negative alert level. -/
theorem alertLevel_nonneg_witness :
    0 ≤ ((((Enemy.new axisMath 50 50 0).takeDamage 10 nearPlayer).1.update axisMath
      oneWallLevel (fun _ => 1 / 2) nearPlayer 0).1).alertLevel :=
  (alertLevel_nonneg axisMath _
    (Reachable.update _ _ _ _ _ (Reachable.damage _ _ _ (Reachable.fresh _ _ _)))).1

end RowWorld

/-! ## The order of a tick, chase under perception, and the view cone -/

section TickOrder

variable {α : Type} [LinearOrderedField α] [FloorRing α]

/-- C15, as the code has it: `update` first runs the behaviour of the state at entry and then
perception on the enemy that the behaviour leaves, so position and facing after the tick are
those of the entry state's behaviour; a state set by perception is acted upon in the next
tick. -/
theorem update_behaviour_then_perception (M : EnemyMath α) (L : Level) (rnd : Nat → α)
    (e : Enemy α) (p : Player α) (k : Nat) :
    (e.update M L rnd p k).1 = (e.behave M L rnd p k).1.checkPlayerVisibility M L p ∧
    (e.state = .patrol → (e.behave M L rnd p k).1 = e.patrol M L (rnd k)) ∧
    (e.state = .alert → (e.behave M L rnd p k).1 = e.alert M) ∧
    (e.state = .chase → (e.behave M L rnd p k).1 = (e.chase M L p).1) ∧
    (e.state = .search → (e.behave M L rnd p k).1 = e.search M L) ∧
    (e.update M L rnd p k).1.x = (e.behave M L rnd p k).1.x ∧
    (e.update M L rnd p k).1.y = (e.behave M L rnd p k).1.y ∧
    (e.update M L rnd p k).1.angle = (e.behave M L rnd p k).1.angle := by
  have hu := update_eq_check_behave M L rnd e p k
  refine ⟨hu, ?_, ?_, ?_, ?_, ?_, ?_, ?_⟩
  · intro hs; simp only [Enemy.behave, hs]
  · intro hs; simp only [Enemy.behave, hs]
  · intro hs; simp only [Enemy.behave, hs]
  · intro hs; simp only [Enemy.behave, hs]
  all_goals
    rw [hu]
    by_cases hp : (e.behave M L rnd p k).1.perceives M L p
    · rw [checkPlayerVisibility_perceived M L _ p hp]
    · rw [checkPlayerVisibility_unperceived M L _ p hp]

/-- C16, as the code has it: on a chasing enemy `checkPlayerVisibility` keeps the state chase
unless the player is perceived and the raised level `alertLevel + 2` lies in `(50, 100]`; in
that case it sets the state to alert.  In particular chase is kept when the level is above
98. -/
theorem chase_under_perception (M : EnemyMath α) (L : Level) (e : Enemy α) (p : Player α)
    (hs : e.state = .chase) :
    ((e.checkPlayerVisibility M L p).state = .chase ↔
      ¬ (e.perceives M L p ∧ 50 < e.alertLevel + 2 ∧ e.alertLevel + 2 ≤ 100)) ∧
    ((e.checkPlayerVisibility M L p).state ≠ .chase →
      (e.checkPlayerVisibility M L p).state = .alert) ∧
    (98 < e.alertLevel → (e.checkPlayerVisibility M L p).state = .chase) := by
  have key1 : (e.perceives M L p ∧ 50 < e.alertLevel + 2 ∧ e.alertLevel + 2 ≤ 100) →
      (e.checkPlayerVisibility M L p).state = .alert := by
    rintro ⟨hp, c2, c1⟩
    rw [checkPlayerVisibility_perceived M L e p hp]
    dsimp only
    rw [if_neg (not_lt.mpr c1), if_pos c2]
  have key2 : ¬ (e.perceives M L p ∧ 50 < e.alertLevel + 2 ∧ e.alertLevel + 2 ≤ 100) →
      (e.checkPlayerVisibility M L p).state = .chase := by
    intro hn
    by_cases hp : e.perceives M L p
    · rw [checkPlayerVisibility_perceived M L e p hp]
      dsimp only
      by_cases c1 : e.alertLevel + 2 > 100
      · rw [if_pos c1]
      · rw [if_neg c1]
        by_cases c2 : e.alertLevel + 2 > 50
        · exact absurd ⟨hp, c2, not_lt.mp c1⟩ hn
        · rw [if_neg c2, hs]
    · rw [checkPlayerVisibility_unperceived M L e p hp, hs]
  refine ⟨⟨?_, key2⟩, ?_, ?_⟩
  · intro hc hn
    rw [key1 hn] at hc
    cases hc
  · intro hc
    by_cases hn : e.perceives M L p ∧ 50 < e.alertLevel + 2 ∧ e.alertLevel + 2 ≤ 100
    · exact key1 hn
    · exact absurd (key2 hn) hc
  · intro h98
    apply key2
    rintro ⟨_, _, h3⟩
    linarith

end TickOrder

/-! ## Examples on `oneWallLevel` -/

section Examples

theorem patrolNearThreshold_perceives :
    patrolNearThreshold.perceives axisMath oneWallLevel nearPlayer :=
  row_perceives _ _ rfl rfl rfl (by norm_num [patrolNearThreshold])
    (by norm_num [patrolNearThreshold, nearPlayer]) (by norm_num [nearPlayer]) rfl rfl

/-- C15 fails: for the patrolling enemy at `(50, 50)` with level 49.5 and the player in view
at `(65, 50)`, `update` walks the patrol step to `x = 51` and ends with level 51 in the state
alert, whereas perception first and then the behaviour of the perceived state (alert) would
leave the enemy at `x = 50` with level 51.2. -/
theorem update_differs_from_perception_first :
    (patrolNearThreshold.update axisMath oneWallLevel (fun _ => 1 / 2) nearPlayer 0).1.x = 51 ∧
    (patrolNearThreshold.update axisMath oneWallLevel (fun _ => 1 / 2) nearPlayer 0).1.alertLevel
      = 51 ∧
    (patrolNearThreshold.update axisMath oneWallLevel (fun _ => 1 / 2) nearPlayer 0).1.state
      = .alert ∧
    (patrolNearThreshold.updatePerceptionFirst axisMath oneWallLevel (fun _ => 1 / 2)
      nearPlayer 0).1.x = 50 ∧
    (patrolNearThreshold.updatePerceptionFirst axisMath oneWallLevel (fun _ => 1 / 2)
      nearPlayer 0).1.alertLevel = 256 / 5 ∧
    patrolNearThreshold.update axisMath oneWallLevel (fun _ => 1 / 2) nearPlayer 0 ≠
      patrolNearThreshold.updatePerceptionFirst axisMath oneWallLevel (fun _ => 1 / 2)
        nearPlayer 0 := by
  have hu := row_update_patrol patrolNearThreshold nearPlayer 0 rfl rfl rfl rfl
    (by norm_num [patrolNearThreshold]) (by norm_num [patrolNearThreshold, nearPlayer])
    (by norm_num [nearPlayer]) rfl rfl
  have hm : max (0 : ℚ) (patrolNearThreshold.alertLevel - 0.5) + 2 = 51 := by
    have : patrolNearThreshold.alertLevel - 0.5 = 49 := by norm_num [patrolNearThreshold]
    rw [this, max_eq_right (by norm_num)]
    norm_num
  rw [hm] at hu
  have hc := checkPlayerVisibility_perceived axisMath oneWallLevel patrolNearThreshold
    nearPlayer patrolNearThreshold_perceives
  have hcs : (patrolNearThreshold.checkPlayerVisibility axisMath oneWallLevel nearPlayer).state
      = .alert := by
    rw [hc]; norm_num [patrolNearThreshold]
  have hp : (patrolNearThreshold.updatePerceptionFirst axisMath oneWallLevel (fun _ => 1 / 2)
      nearPlayer 0).1 =
      (patrolNearThreshold.checkPlayerVisibility axisMath oneWallLevel nearPlayer).alert
        axisMath := by
    simp only [Enemy.updatePerceptionFirst, Enemy.behave, hcs]
  obtain ⟨a1, _, _, a4, _⟩ := alert_state_level axisMath
    (patrolNearThreshold.checkPlayerVisibility axisMath oneWallLevel nearPlayer)
  have hx1 : (patrolNearThreshold.update axisMath oneWallLevel (fun _ => 1 / 2)
      nearPlayer 0).1.x = 51 := by
    rw [hu]; norm_num [patrolNearThreshold]
  have hx2 : (patrolNearThreshold.updatePerceptionFirst axisMath oneWallLevel (fun _ => 1 / 2)
      nearPlayer 0).1.x = 50 := by
    rw [hp, a4, hc]; rfl
  refine ⟨hx1, ?_, ?_, hx2, ?_, ?_⟩
  · rw [hu]
  · rw [hu]; norm_num
  · rw [hp, a1, hc]; norm_num [patrolNearThreshold]
  · intro heq
    rw [heq, hx2] at hx1
    norm_num at hx1

theorem chaseBelowHundred_perceives :
    chaseBelowHundred.perceives axisMath oneWallLevel nearPlayer :=
  row_perceives _ _ rfl rfl rfl (by norm_num [chaseBelowHundred])
    (by norm_num [chaseBelowHundred, nearPlayer]) (by norm_num [nearPlayer]) rfl rfl

/-- C16 fails: the chasing enemy with level 98 perceives the player at `(65, 50)`, its level
becomes 100, and `checkPlayerVisibility` sets its state to alert. -/
theorem perception_demotes_chase :
    chaseBelowHundred.state = .chase ∧
    chaseBelowHundred.perceives axisMath oneWallLevel nearPlayer ∧
    (chaseBelowHundred.checkPlayerVisibility axisMath oneWallLevel nearPlayer).alertLevel
      = 100 ∧
    (chaseBelowHundred.checkPlayerVisibility axisMath oneWallLevel nearPlayer).state
      = .alert ∧
    (chaseBelowHundred.checkPlayerVisibility axisMath oneWallLevel nearPlayer).state
      ≠ .chase := by
  have hc := checkPlayerVisibility_perceived axisMath oneWallLevel chaseBelowHundred
    nearPlayer chaseBelowHundred_perceives
  have hs : (chaseBelowHundred.checkPlayerVisibility axisMath oneWallLevel nearPlayer).state
      = .alert := by
    rw [hc]; norm_num [chaseBelowHundred]
  refine ⟨rfl, chaseBelowHundred_perceives, ?_, hs, ?_⟩
  · rw [hc]; norm_num [chaseBelowHundred]
  · rw [hs]; decide

/-- The chasing enemy with level 98 and the player at `(65, 50)`. -/
theorem chase_under_perception_witness :
    ((chaseBelowHundred.checkPlayerVisibility axisMath oneWallLevel nearPlayer).state = .chase ↔
      ¬ (chaseBelowHundred.perceives axisMath oneWallLevel nearPlayer ∧
        50 < chaseBelowHundred.alertLevel + 2 ∧ chaseBelowHundred.alertLevel + 2 ≤ 100)) ∧
    ((chaseBelowHundred.checkPlayerVisibility axisMath oneWallLevel nearPlayer).state ≠ .chase →
      (chaseBelowHundred.checkPlayerVisibility axisMath oneWallLevel nearPlayer).state
        = .alert) ∧
    (98 < chaseBelowHundred.alertLevel →
      (chaseBelowHundred.checkPlayerVisibility axisMath oneWallLevel nearPlayer).state
        = .chase) :=
  chase_under_perception axisMath oneWallLevel chaseBelowHundred nearPlayer rfl

/-- C18 fails on a fresh enemy: created at `(50, 150)` with the draw `0.95` it faces the angle
`1.9 PI`, the same direction as `-0.1 PI`; the player straight above is at the bearing
`-PI/2`, so `0.4 PI` off the facing direction and outside the half-angle `PI/6` of the view
cone.  The code computes `|1.9 PI + 0.5 PI| = 2.4 PI`, then `2 PI - 2.4 PI = -0.4 PI`: the
value `angleDiff` is negative, passes the comparison with `viewAngle / 2`, and the player is
perceived. -/
theorem perceives_outside_view_cone :
    (Enemy.new axisMath 50 150 (19 / 20)).angle = 19 / 10 * mathAtZero.PI ∧
    axisMath.atan2 (playerAbove.y - (Enemy.new axisMath 50 150 (19 / 20)).y)
      (playerAbove.x - (Enemy.new axisMath 50 150 (19 / 20)).x) = -(mathAtZero.PI / 2) ∧
    |((Enemy.new axisMath 50 150 (19 / 20)).angle - 2 * mathAtZero.PI)
      - (-(mathAtZero.PI / 2))| = 2 / 5 * mathAtZero.PI ∧
    (Enemy.new axisMath 50 150 (19 / 20)).viewAngle / 2 < 2 / 5 * mathAtZero.PI ∧
    (Enemy.new axisMath 50 150 (19 / 20)).angleDiff axisMath playerAbove
      = -(2 / 5 * mathAtZero.PI) ∧
    (Enemy.new axisMath 50 150 (19 / 20)).angleDiff axisMath playerAbove < 0 ∧
    (Enemy.new axisMath 50 150 (19 / 20)).perceives axisMath oneWallLevel playerAbove ∧
    ((Enemy.new axisMath 50 150 (19 / 20)).checkPlayerVisibility axisMath oneWallLevel
      playerAbove).alertLevel = 2 := by
  have hpi : mathAtZero.PI = 355 / 113 := rfl
  have hapi : axisMath.toJsMath.PI = 355 / 113 := rfl
  have hang : (Enemy.new axisMath 50 150 (19 / 20)).angle = 19 / 10 * mathAtZero.PI := by
    simp only [Enemy.new, hapi, hpi]; norm_num
  have hat : axisMath.atan2 (playerAbove.y - (Enemy.new axisMath 50 150 (19 / 20)).y)
      (playerAbove.x - (Enemy.new axisMath 50 150 (19 / 20)).x) = -(mathAtZero.PI / 2) := by
    simp [axisMath, playerAbove, Enemy.new]
    norm_num
  have hdiff : (Enemy.new axisMath 50 150 (19 / 20)).angleDiff axisMath playerAbove
      = -(2 / 5 * mathAtZero.PI) := by
    unfold Enemy.angleDiff
    dsimp only
    rw [hat, hang, hapi, hpi]
    have habs : |(19 / 10 * (355 / 113) - -(355 / 113 / 2) : ℚ)| = 12 / 5 * (355 / 113) := by
      rw [abs_of_pos (by norm_num)]; norm_num
    rw [habs, if_pos (by norm_num)]
    norm_num
  have hdist : (Enemy.new axisMath 50 150 (19 / 20)).playerDistance axisMath playerAbove
      = 10 := by
    show Rat.sqrt _ = 10
    have : ((playerAbove.x - (Enemy.new axisMath 50 150 (19 / 20)).x) *
        (playerAbove.x - (Enemy.new axisMath 50 150 (19 / 20)).x) +
        (playerAbove.y - (Enemy.new axisMath 50 150 (19 / 20)).y) *
        (playerAbove.y - (Enemy.new axisMath 50 150 (19 / 20)).y) : ℚ) = 10 * 10 := by
      norm_num [playerAbove, Enemy.new]
    rw [this, Rat.sqrt_eq]
    norm_num
  have hsteps : (Enemy.new axisMath 50 150 (19 / 20)).losSteps axisMath playerAbove.x
      playerAbove.y = 1 := by
    have h := hdist
    unfold Enemy.playerDistance at h
    unfold Enemy.losSteps
    rw [h]
    norm_num
  have hper : (Enemy.new axisMath 50 150 (19 / 20)).perceives axisMath oneWallLevel
      playerAbove := by
    refine ⟨?_, ?_, ?_⟩
    · rw [hdist]; norm_num [Enemy.new]
    · rw [hdiff, hpi]; norm_num [Enemy.new, hapi]
    · rw [hasLineOfSight_true_iff, hsteps]
      intro i h1 h2
      omega
  refine ⟨hang, hat, ?_, ?_, hdiff, ?_, hper, ?_⟩
  · rw [hang, hpi]
    rw [abs_of_pos (by norm_num)]
    norm_num
  · rw [hpi]; norm_num [Enemy.new, hapi]
  · rw [hdiff, hpi]; norm_num
  · rw [checkPlayerVisibility_perceived axisMath oneWallLevel _ playerAbove hper]
    norm_num [Enemy.new]

end Examples

/-! ## Symmetry of the line of sight -/

section Symmetry

variable {α : Type} [LinearOrderedField α] [FloorRing α]

theorem losSteps_swap (M : EnemyMath α) (a b : Enemy α) :
    a.losSteps M b.x b.y = b.losSteps M a.x a.y := by
  unfold Enemy.losSteps
  have h : (b.x - a.x) * (b.x - a.x) + (b.y - a.y) * (b.y - a.y) =
      (a.x - b.x) * (a.x - b.x) + (a.y - b.y) * (a.y - b.y) := by ring
  rw [h]

omit [FloorRing α] in
theorem losPoint_reflect (a b : Enemy α) (s i : Int) (hs : (s : α) ≠ 0) :
    b.losPoint a.x a.y s (s - i) = a.losPoint b.x b.y s i := by
  simp only [Enemy.losPoint]
  push_cast
  congr 1
  · field_simp; ring
  · field_simp; ring

theorem losSamples_swap_mem (M : EnemyMath α) (a b : Enemy α) (q : α × α)
    (hq : q ∈ a.losSamples M b.x b.y) : q ∈ b.losSamples M a.x a.y := by
  obtain ⟨i, h1, h2, rfl⟩ := (mem_losSamples M a b.x b.y q).mp hq
  have hs0 : ((a.losSteps M b.x b.y : Int) : α) ≠ 0 := by
    have : (0 : Int) < a.losSteps M b.x b.y := by omega
    exact_mod_cast ne_of_gt this
  rw [mem_losSamples, ← losSteps_swap M a b]
  exact ⟨a.losSteps M b.x b.y - i, by omega, by omega, (losPoint_reflect a b _ i hs0).symm⟩

theorem hasLineOfSight_iff_free (M : EnemyMath α) (L : Level) (e : Enemy α) (tx ty : α) :
    e.hasLineOfSight M L tx ty = true ↔
      ∀ q ∈ e.losSamples M tx ty, L.isWall q.1 q.2 = false := by
  rw [hasLineOfSight_true_iff]
  constructor
  · intro h q hq
    obtain ⟨i, h1, h2, rfl⟩ := (mem_losSamples M e tx ty q).mp hq
    exact h i h1 h2
  · intro h i h1 h2
    exact h _ ((mem_losSamples M e tx ty _).mpr ⟨i, h1, h2, rfl⟩)

theorem losSamples_near (M : EnemyMath α) (e : Enemy α) (tx ty : α)
    (hd : M.sqrt ((tx - e.x) * (tx - e.x) + (ty - e.y) * (ty - e.y)) < 20) :
    e.losSamples M tx ty = [] := by
  have hs : e.losSteps M tx ty < 2 := by
    unfold Enemy.losSteps
    rw [Int.floor_lt]
    push_cast
    linarith
  have h0 : (e.losSteps M tx ty - 1).toNat = 0 := by omega
  simp [Enemy.losSamples, intRange, h0]

/-- C21: over exact arithmetic, for every grid and every two points `A = (a.x, a.y)` and
`B = (b.x, b.y)`, `hasLineOfSight` from `A` towards `B` equals `hasLineOfSight` from `B`
towards `A`: both directions have the same step count and test the same set of points; when
the distance is below 20 no point is tested and both directions return true. -/
theorem hasLineOfSight_symmetric (M : EnemyMath α) (L : Level) (a b : Enemy α) :
    a.hasLineOfSight M L b.x b.y = b.hasLineOfSight M L a.x a.y ∧
    a.losSteps M b.x b.y = b.losSteps M a.x a.y ∧
    (∀ q : α × α, q ∈ a.losSamples M b.x b.y ↔ q ∈ b.losSamples M a.x a.y) ∧
    (M.sqrt ((b.x - a.x) * (b.x - a.x) + (b.y - a.y) * (b.y - a.y)) < 20 →
      a.losSamples M b.x b.y = [] ∧ b.losSamples M a.x a.y = [] ∧
      a.hasLineOfSight M L b.x b.y = true ∧ b.hasLineOfSight M L a.x a.y = true) := by
  have hmem : ∀ q : α × α, q ∈ a.losSamples M b.x b.y ↔ q ∈ b.losSamples M a.x a.y :=
    fun q => ⟨losSamples_swap_mem M a b q, losSamples_swap_mem M b a q⟩
  refine ⟨?_, losSteps_swap M a b, hmem, ?_⟩
  · rw [Bool.eq_iff_iff, hasLineOfSight_iff_free, hasLineOfSight_iff_free]
    constructor
    · intro h q hq; exact h q ((hmem q).mpr hq)
    · intro h q hq; exact h q ((hmem q).mp hq)
  · intro hd
    have hd2 : M.sqrt ((a.x - b.x) * (a.x - b.x) + (a.y - b.y) * (a.y - b.y)) < 20 := by
      have h : (a.x - b.x) * (a.x - b.x) + (a.y - b.y) * (a.y - b.y) =
          (b.x - a.x) * (b.x - a.x) + (b.y - a.y) * (b.y - a.y) := by ring
      rw [h]; exact hd
    have e1 := losSamples_near M a b.x b.y hd
    have e2 := losSamples_near M b a.x a.y hd2
    refine ⟨e1, e2, ?_, ?_⟩
    · rw [hasLineOfSight_iff_free, e1]; intro q hq; cases hq
    · rw [hasLineOfSight_iff_free, e2]; intro q hq; cases hq

/-- Witness for C21: the points `(195, 50)` and `(210, 50)` are at the distance 15, below 20,
and `hasLineOfSight` returns true in both directions on `oneWallLevel`. -/
theorem hasLineOfSight_symmetric_witness :
    axisMath.sqrt ((210 - 195) * (210 - 195) + (50 - 50) * (50 - 50)) < 20 ∧
    (Enemy.new axisMath 195 50 0).hasLineOfSight axisMath oneWallLevel 210 50 =
      (Enemy.new axisMath 210 50 0).hasLineOfSight axisMath oneWallLevel 195 50 ∧
    (Enemy.new axisMath 195 50 0).hasLineOfSight axisMath oneWallLevel 210 50 = true ∧
    (Enemy.new axisMath 210 50 0).hasLineOfSight axisMath oneWallLevel 195 50 = true := by
  have hs : axisMath.sqrt ((210 - 195) * (210 - 195) + (50 - 50) * (50 - 50)) < 20 := by
    have := axis_sqrt_sq 15 (by norm_num)
    norm_num at this ⊢
    rw [this]
    norm_num
  have h := hasLineOfSight_symmetric axisMath oneWallLevel (Enemy.new axisMath 195 50 0)
    (Enemy.new axisMath 210 50 0)
  exact ⟨hs, h.1, (h.2.2.2 hs).2.2.1, (h.2.2.2 hs).2.2.2⟩

end Symmetry


/-! ## Positions of enemies -/

section Positions

variable {α : Type} [LinearOrderedField α] [FloorRing α]

theorem checkPlayerVisibility_position (M : EnemyMath α) (L : Level) (e : Enemy α)
    (p : Player α) :
    (e.checkPlayerVisibility M L p).x = e.x ∧ (e.checkPlayerVisibility M L p).y = e.y := by
  unfold Enemy.checkPlayerVisibility
  dsimp only
  split_ifs <;> exact ⟨rfl, rfl⟩

theorem patrol_off_walls (M : EnemyMath α) (L : Level) (r : α) (e : Enemy α) :
    ((e.patrol M L r).x = e.x ∧ (e.patrol M L r).y = e.y) ∨
      L.isWall (e.patrol M L r).x (e.patrol M L r).y = false := by
  unfold Enemy.patrol
  dsimp only
  cases h : L.isWall (e.x + M.cos (e.angle + (r - 0.5) * 0.05) * 1)
      (e.y + M.sin (e.angle + (r - 0.5) * 0.05) * 1)
  · right; simpa using h
  · left; simp

omit [FloorRing α] in
theorem alert_position (M : EnemyMath α) (e : Enemy α) :
    (e.alert M).x = e.x ∧ (e.alert M).y = e.y := by
  unfold Enemy.alert
  cases e.lastKnownPlayerPos <;> dsimp only <;> split_ifs <;> simp

theorem chaseMove_off_walls (M : EnemyMath α) (L : Level) (e : Enemy α) (p : Player α) :
    ((e.chaseMove M L p).x = e.x ∧ (e.chaseMove M L p).y = e.y) ∨
      L.isWall (e.chaseMove M L p).x (e.chaseMove M L p).y = false := by
  unfold Enemy.chaseMove
  dsimp only
  by_cases hd : e.playerDistance M p > 30
  · simp only [hd, if_true]
    cases h : L.isWall (e.x + M.cos (M.atan2 (p.y - e.y) (p.x - e.x)) * 2.5)
        (e.y + M.sin (M.atan2 (p.y - e.y) (p.x - e.x)) * 2.5)
    · right; simpa using h
    · left; simp
  · simp only [hd, if_false]; left; simp

theorem chase_off_walls (M : EnemyMath α) (L : Level) (e : Enemy α) (p : Player α) :
    ((e.chase M L p).1.x = e.x ∧ (e.chase M L p).1.y = e.y) ∨
      L.isWall (e.chase M L p).1.x (e.chase M L p).1.y = false := by
  cases hk : e.lastKnownPlayerPos with
  | none => left; unfold Enemy.chase; rw [hk]; exact ⟨rfl, rfl⟩
  | some lk =>
    obtain ⟨hx, hy⟩ := chase_position M L e p (by rw [hk]; exact Option.some_ne_none lk)
    rw [hx, hy]
    exact chaseMove_off_walls M L e p

theorem search_off_walls (M : EnemyMath α) (L : Level) (e : Enemy α) :
    ((e.search M L).x = e.x ∧ (e.search M L).y = e.y) ∨
      L.isWall (e.search M L).x (e.search M L).y = false := by
  unfold Enemy.search
  cases hk : e.lastKnownPlayerPos with
  | none => left; dsimp only; split_ifs <;> exact ⟨rfl, rfl⟩
  | some lk =>
    dsimp only
    by_cases hd : M.sqrt ((lk.1 - e.x) * (lk.1 - e.x) + (lk.2 - e.y) * (lk.2 - e.y)) > 20
    · simp only [hd, if_true]
      cases h : L.isWall (e.x + M.cos (M.atan2 (lk.2 - e.y) (lk.1 - e.x)) * 1.5)
          (e.y + M.sin (M.atan2 (lk.2 - e.y) (lk.1 - e.x)) * 1.5)
      · right
        simp only [h, Bool.not_false, if_true]
        split_ifs <;> exact h
      · left
        simp only [h, Bool.not_true, Bool.false_eq_true, if_false]
        split_ifs <;> exact ⟨rfl, rfl⟩
    · simp only [hd, if_false]; left; split_ifs <;> exact ⟨rfl, rfl⟩

theorem behave_off_walls (M : EnemyMath α) (L : Level) (rnd : Nat → α) (e : Enemy α)
    (p : Player α) (k : Nat) :
    ((e.behave M L rnd p k).1.x = e.x ∧ (e.behave M L rnd p k).1.y = e.y) ∨
      L.isWall (e.behave M L rnd p k).1.x (e.behave M L rnd p k).1.y = false := by
  unfold Enemy.behave
  cases e.state
  · exact patrol_off_walls M L (rnd k) e
  · exact Or.inl (alert_position M e)
  · exact chase_off_walls M L e p
  · exact search_off_walls M L e

theorem update_off_walls (M : EnemyMath α) (L : Level) (rnd : Nat → α) (e : Enemy α)
    (p : Player α) (k : Nat) :
    ((e.update M L rnd p k).1.x = e.x ∧ (e.update M L rnd p k).1.y = e.y) ∨
      L.isWall (e.update M L rnd p k).1.x (e.update M L rnd p k).1.y = false := by
  obtain ⟨hx, hy⟩ := checkPlayerVisibility_position M L (e.behave M L rnd p k).1
    (e.behave M L rnd p k).2.1
  have hu : (e.update M L rnd p k).1 =
      (e.behave M L rnd p k).1.checkPlayerVisibility M L (e.behave M L rnd p k).2.1 := rfl
  rw [hu, hx, hy]
  exact behave_off_walls M L rnd e p k

theorem runCalls_off_walls (M : EnemyMath α) (L : Level) (rnd : Nat → α) :
    ∀ (calls : List (EnemyCall α)) (e : Enemy α) (k : Nat), L.isWall e.x e.y = false →
      L.isWall (runCalls M L rnd calls e k).1.x (runCalls M L rnd calls e k).1.y = false := by
  intro calls
  induction calls with
  | nil => intro e k h; exact h
  | cons c calls ih =>
    intro e k h
    cases c with
    | update p =>
      simp only [runCalls]
      apply ih
      rcases update_off_walls M L rnd e p k with ⟨hx, hy⟩ | hw
      · rw [hx, hy]; exact h
      · exact hw
    | takeDamage amount p =>
      simp only [runCalls]
      exact ih _ k h

/-- C22: an `update` call either leaves the enemy's position as it was or moves the enemy to
a point at which `isWall` is false; `takeDamage` leaves the position as it was; so an enemy
on a non-blocking point is on a non-blocking point after any sequence of `update` and
`takeDamage` calls on the same grid, whatever the players and draws. -/
theorem update_never_enters_wall (M : EnemyMath α) (L : Level) (rnd : Nat → α) (e : Enemy α)
    (p : Player α) (k : Nat) :
    (((e.update M L rnd p k).1.x = e.x ∧ (e.update M L rnd p k).1.y = e.y) ∨
      L.isWall (e.update M L rnd p k).1.x (e.update M L rnd p k).1.y = false) ∧
    (¬ ((e.update M L rnd p k).1.x = e.x ∧ (e.update M L rnd p k).1.y = e.y) →
      L.isWall (e.update M L rnd p k).1.x (e.update M L rnd p k).1.y = false) ∧
    (∀ amount : α, (e.takeDamage amount p).1.x = e.x ∧ (e.takeDamage amount p).1.y = e.y) ∧
    (∀ calls : List (EnemyCall α), L.isWall e.x e.y = false →
      L.isWall (runCalls M L rnd calls e k).1.x (runCalls M L rnd calls e k).1.y = false) := by
  refine ⟨update_off_walls M L rnd e p k, ?_, fun _ => ⟨rfl, rfl⟩,
    fun calls h => runCalls_off_walls M L rnd calls e k h⟩
  intro hne
  rcases update_off_walls M L rnd e p k with h | h
  · exact absurd h hne
  · exact h

/-- Witness for C22 on `oneWallLevel`: an enemy created at `(50, 50)` stands on a non-blocking
point; after an `update`, a `takeDamage(35)` and another `update` (player at rest at
`(150, 50)`) it has walked to `(53.5, 50)`, a non-blocking point. -/
theorem update_never_enters_wall_witness :
    oneWallLevel.isWall (Enemy.new axisMath 50 50 0).x (Enemy.new axisMath 50 50 0).y = false ∧
    (runCalls axisMath oneWallLevel (fun _ => 1 / 2)
      [.update restingPlayer, .takeDamage 35 restingPlayer, .update restingPlayer]
      (Enemy.new axisMath 50 50 0) 0).1.x = 107 / 2 ∧
    oneWallLevel.isWall
      (runCalls axisMath oneWallLevel (fun _ => 1 / 2)
        [.update restingPlayer, .takeDamage 35 restingPlayer, .update restingPlayer]
        (Enemy.new axisMath 50 50 0) 0).1.x
      (runCalls axisMath oneWallLevel (fun _ => 1 / 2)
        [.update restingPlayer, .takeDamage 35 restingPlayer, .update restingPlayer]
        (Enemy.new axisMath 50 50 0) 0).1.y = false := by
  have h0 : oneWallLevel.isWall (Enemy.new axisMath 50 50 0).x
      (Enemy.new axisMath 50 50 0).y = false :=
    oneWall_free 50 (by norm_num) (by norm_num)
  refine ⟨h0, ?_, (update_never_enters_wall axisMath oneWallLevel (fun _ => 1 / 2)
    (Enemy.new axisMath 50 50 0) restingPlayer 0).2.2.2 _ h0⟩
  have hpx : restingPlayer.x = 150 := rfl
  have h1 := row_update_patrol (Enemy.new axisMath 50 50 0) restingPlayer 0 rfl rfl rfl
    (by simp [Enemy.new]) (by simp [Enemy.new]) (by rw [hpx]; simp [Enemy.new]; norm_num)
    (by rw [hpx]; norm_num) rfl rfl
  simp only [runCalls]
  rw [h1]
  rw [row_update_chase _ restingPlayer _ rfl rfl rfl
    (by simp [Enemy.takeDamage, Enemy.new]; norm_num)
    (by rw [hpx]; simp [Enemy.takeDamage, Enemy.new]; norm_num) (by rw [hpx]; norm_num) rfl rfl
    (by simp [Enemy.takeDamage])]
  simp only [Enemy.takeDamage, Enemy.new, hpx]
  norm_num

end Positions

end Game
